import Mathlib

/-!
Compass calibration (`libraries/AP_Compass/Compass_Callib.cpp`)

A shallow embedding of the magnetometer sphere-fit calibration routine and
proofs of properties of it.

Modelling conventions.

* `double` and `float` values are exact rationals (`ℚ`) in the embedding of
  the whole program: a statement about `inverse4x4`, `evaluatelm`, ... is a
  statement of exact arithmetic. The numerical routines are embedded a second
  time with the arithmetic of the type `double` (`Dbl`, names ending in
  `_double`): a statement about `inverse4x4_double`, `evaluatelm_double`, ... is
  a statement about the rounded computation, with its underflow, overflow and
  NaNs.
* A C array is a total function from `ℕ`; only the indices below the declared
  length are meaningful, the others are never touched by the code. A store
  `a[i] = v` is `setAt a i v`.
* `uint8_t` counters are naturals, reduced modulo `256` where the code
  increments them; `int16_t gradient_power` is an integer, wrapped where the
  code decrements it.
* A `for` loop is a left fold over `List.range`. The `while` loops
  (`while(1)` in `collect_samples`, the Levenberg-Marquardt loop of
  `evaluatelm`, the outer loop of `magnetometer_calib`) test their condition
  and then take one unit of fuel per pass; they return `none` when the
  condition holds and the fuel is used up.
* The outside world (sensor driver, allocator) is a record of oracles.
-/

namespace Compass

/-! ## Constants (`#define`s of the source) -/

/-- Number of sphere parameters, `NUM_PARAMS`. -/
abbrev NUM_PARAMS : ℕ := 4
/-- Sample quota per instance, `NUM_SAMPLES`. -/
abbrev NUM_SAMPLES : ℕ := 100
/-- Desired maximum of the fitness, `AIMED_FITNESS` (`1.0f`). -/
def AIMED_FITNESS : ℚ := 1
/-- Ceiling on the outer rounds, `MAX_ITERS`. -/
def MAX_ITERS : ℕ := 10
/-- Minimum distance between consecutive samples, `SAMPLE_DIST`. -/
def SAMPLE_DIST : ℚ := 50
/-- Damping factor, `GRADIENT`. -/
def GRADIENT : ℚ := 5
/-- Highest value of `gradient_power` at which the loop still runs. -/
def GRADIENT_POW_LIMIT : ℤ := 8
/-- Finite-difference step, `JACOB_DELTA` (the decimal value of the literal
`0.000000001f`). -/
def JACOB_DELTA : ℚ := 1 / 1000000000

/-! ## Data model -/

/-- Modelled from the spec: `Vector3f` of AP_Math (not part of the sources at
hand), a three-axis field vector. Equality `==` is component-wise, which is the
derived decidable equality. -/
structure Vector3f where
  x : ℚ
  y : ℚ
  z : ℚ
deriving DecidableEq

/-- Modelled from the spec: `Vector3f::operator-`, component-wise difference. -/
def Vector3f.sub (a b : Vector3f) : Vector3f := ⟨a.x - b.x, a.y - b.y, a.z - b.z⟩

/-- Square of the Euclidean length of a vector. -/
def Vector3f.length_sq (v : Vector3f) : ℚ := v.x * v.x + v.y * v.y + v.z * v.z

/-- Modelled from the spec: the test `v.length() > d` of the Euclidean length
against a threshold. The square root is not rational, so the comparison is
made on squares: for `d ≥ 0`, `sqrt s > d` exactly when `s > d * d`, and a
length always exceeds a negative threshold. -/
def Vector3f.length_gt (v : Vector3f) (d : ℚ) : Bool :=
  decide (d < 0) || decide (d * d < v.length_sq)

/-- Store into an array: `a[i] = v`. -/
def setAt {α : Type} (a : ℕ → α) (i : ℕ) (v : α) : ℕ → α :=
  fun j => if j = i then v else a j

/-- The per-instance context `struct Calibration`. -/
@[ext]
structure Calibration where
  /-- `double JTJ_LI[NUM_PARAMS*NUM_PARAMS]` -/
  JTJ_LI : ℕ → ℚ
  /-- `double JTFI[NUM_SAMPLES]` -/
  JTFI : ℕ → ℚ
  /-- `double jacob[NUM_SAMPLES*NUM_PARAMS]` -/
  jacob : ℕ → ℚ
  /-- `double sample_fitness[NUM_SAMPLES]` -/
  sample_fitness : ℕ → ℚ
  /-- `double sphere_param[NUM_PARAMS]`: radius, offset 1, 2, 3 -/
  sphere_param : ℕ → ℚ
  /-- `Vector3f samples[NUM_SAMPLES]` -/
  samples : ℕ → Vector3f
  /-- `uint8_t count` -/
  count : ℕ
  /-- `uint8_t passed` -/
  passed : ℕ
  /-- `bool complete` -/
  complete : Bool
  /-- `bool fault` -/
  fault : Bool
  /-- `uint8_t instance` -/
  inst : ℕ

/-! ## `inverse4x4` -/

/-- The local array `inv[16]` of `inverse4x4`: the sixteen cofactor
expressions, written in the order of the source. -/
def inverse4x4_inv (m : ℕ → ℚ) : ℕ → ℚ := fun i =>
  match i with
  | 0 => m 5 * m 10 * m 15 - m 5 * m 11 * m 14 - m 9 * m 6 * m 15
          + m 9 * m 7 * m 14 + m 13 * m 6 * m 11 - m 13 * m 7 * m 10
  | 4 => -m 4 * m 10 * m 15 + m 4 * m 11 * m 14 + m 8 * m 6 * m 15
          - m 8 * m 7 * m 14 - m 12 * m 6 * m 11 + m 12 * m 7 * m 10
  | 8 => m 4 * m 9 * m 15 - m 4 * m 11 * m 13 - m 8 * m 5 * m 15
          + m 8 * m 7 * m 13 + m 12 * m 5 * m 11 - m 12 * m 7 * m 9
  | 12 => -m 4 * m 9 * m 14 + m 4 * m 10 * m 13 + m 8 * m 5 * m 14
          - m 8 * m 6 * m 13 - m 12 * m 5 * m 10 + m 12 * m 6 * m 9
  | 1 => -m 1 * m 10 * m 15 + m 1 * m 11 * m 14 + m 9 * m 2 * m 15
          - m 9 * m 3 * m 14 - m 13 * m 2 * m 11 + m 13 * m 3 * m 10
  | 5 => m 0 * m 10 * m 15 - m 0 * m 11 * m 14 - m 8 * m 2 * m 15
          + m 8 * m 3 * m 14 + m 12 * m 2 * m 11 - m 12 * m 3 * m 10
  | 9 => -m 0 * m 9 * m 15 + m 0 * m 11 * m 13 + m 8 * m 1 * m 15
          - m 8 * m 3 * m 13 - m 12 * m 1 * m 11 + m 12 * m 3 * m 9
  | 13 => m 0 * m 9 * m 14 - m 0 * m 10 * m 13 - m 8 * m 1 * m 14
          + m 8 * m 2 * m 13 + m 12 * m 1 * m 10 - m 12 * m 2 * m 9
  | 2 => m 1 * m 6 * m 15 - m 1 * m 7 * m 14 - m 5 * m 2 * m 15
          + m 5 * m 3 * m 14 + m 13 * m 2 * m 7 - m 13 * m 3 * m 6
  | 6 => -m 0 * m 6 * m 15 + m 0 * m 7 * m 14 + m 4 * m 2 * m 15
          - m 4 * m 3 * m 14 - m 12 * m 2 * m 7 + m 12 * m 3 * m 6
  | 10 => m 0 * m 5 * m 15 - m 0 * m 7 * m 13 - m 4 * m 1 * m 15
          + m 4 * m 3 * m 13 + m 12 * m 1 * m 7 - m 12 * m 3 * m 5
  | 14 => -m 0 * m 5 * m 14 + m 0 * m 6 * m 13 + m 4 * m 1 * m 14
          - m 4 * m 2 * m 13 - m 12 * m 1 * m 6 + m 12 * m 2 * m 5
  | 3 => -m 1 * m 6 * m 11 + m 1 * m 7 * m 10 + m 5 * m 2 * m 11
          - m 5 * m 3 * m 10 - m 9 * m 2 * m 7 + m 9 * m 3 * m 6
  | 7 => m 0 * m 6 * m 11 - m 0 * m 7 * m 10 - m 4 * m 2 * m 11
          + m 4 * m 3 * m 10 + m 8 * m 2 * m 7 - m 8 * m 3 * m 6
  | 11 => -m 0 * m 5 * m 11 + m 0 * m 7 * m 9 + m 4 * m 1 * m 11
          - m 4 * m 3 * m 9 - m 8 * m 1 * m 7 + m 8 * m 3 * m 5
  | 15 => m 0 * m 5 * m 10 - m 0 * m 6 * m 9 - m 4 * m 1 * m 10
          + m 4 * m 2 * m 9 + m 8 * m 1 * m 6 - m 8 * m 2 * m 5
  | _ => 0

/-- The local `det` of `inverse4x4` before the test `det == 0`. -/
def inverse4x4_det (m : ℕ → ℚ) : ℚ :=
  m 0 * inverse4x4_inv m 0 + m 1 * inverse4x4_inv m 4
    + m 2 * inverse4x4_inv m 8 + m 3 * inverse4x4_inv m 12

/-- `bool Compass::inverse4x4(double m[], double invOut[])`: the returned flag
and the contents of `invOut` on return. All of `inv` and `det` are computed
from `m` before the first store into `invOut`, so the result is the same when
the two arguments are the same buffer. -/
def inverse4x4 (m invOut : ℕ → ℚ) : Bool × (ℕ → ℚ) :=
  let inv := inverse4x4_inv m
  let det := inverse4x4_det m
  if det = 0 then (false, invOut)
  else
    let det := 1 / det
    (true, (List.range 16).foldl (fun out i => setAt out i (inv i * det)) invOut)

/-! ## Sphere residual model -/

/-- `double Compass::square_sum(struct Calibration &calib)`. -/
def square_sum (calib : Calibration) : ℚ :=
  (List.range NUM_SAMPLES).foldl
    (fun sqsum i => sqsum + calib.sample_fitness i * calib.sample_fitness i) 0

/-- `void Compass::sphere_fitness(struct Calibration &calib)`. The test
`abs(radius) < 1` is the same whether `abs` is the floating-point or the
truncating integer overload, since a value truncates to `0` exactly when its
magnitude is below `1`. -/
def sphere_fitness (calib : Calibration) : Calibration :=
  let r : ℚ × Calibration :=
    if |calib.sphere_param 0| < 1 then
      (1, { calib with sphere_param := setAt calib.sphere_param 0 1 })
    else
      (1 / (calib.sphere_param 0 * calib.sphere_param 0), calib)
  let a := r.1
  (List.range NUM_SAMPLES).foldl
    (fun calib i =>
      { calib with
        sample_fitness := setAt calib.sample_fitness i
          (1 - a * (((calib.samples i).x + calib.sphere_param 1)
                      * ((calib.samples i).x + calib.sphere_param 1)
                    + ((calib.samples i).y + calib.sphere_param 2)
                      * ((calib.samples i).y + calib.sphere_param 2)
                    + ((calib.samples i).z + calib.sphere_param 3)
                      * ((calib.samples i).z + calib.sphere_param 3))) })
    r.2

/-! ## Jacobian and normal equations -/

/-- `void Compass::calc_jacob(struct Calibration &calib)`. The argument
`alloc_ok` tells whether `new double[NUM_SAMPLES]` returned a buffer. The
scratch buffer `temp` is fresh; each of its cells is written before it is
read. -/
def calc_jacob (alloc_ok : Bool) (calib : Calibration) : Calibration :=
  if !alloc_ok then { calib with fault := true }
  else
    let calib := sphere_fitness calib
    let temp : ℕ → ℚ :=
      (List.range NUM_SAMPLES).foldl (fun temp i => setAt temp i (calib.sample_fitness i))
        (fun _ => 0)
    (List.range NUM_PARAMS).foldl
      (fun calib row =>
        let calib := { calib with
          sphere_param := setAt calib.sphere_param row (calib.sphere_param row + JACOB_DELTA) }
        let calib := sphere_fitness calib
        let calib := (List.range NUM_SAMPLES).foldl
          (fun calib col =>
            { calib with
              jacob := setAt calib.jacob (row * NUM_SAMPLES + col)
                (temp col - calib.sample_fitness col) })
          calib
        { calib with
          sphere_param := setAt calib.sphere_param row (calib.sphere_param row - JACOB_DELTA) })
      calib

/-- `void Compass::calc_JTJ_LI(struct Calibration &calib, double lambda)`.
The inverse is taken in place: `JTJ_LI` is both arguments of `inverse4x4`. -/
def calc_JTJ_LI (calib : Calibration) (lambda : ℚ) : Calibration :=
  let calib := (List.range NUM_PARAMS).foldl
    (fun calib i =>
      (List.range NUM_PARAMS).foldl
        (fun calib j =>
          (List.range NUM_SAMPLES).foldl
            (fun calib k =>
              { calib with
                JTJ_LI := setAt calib.JTJ_LI (i * NUM_PARAMS + j)
                  (calib.JTJ_LI (i * NUM_PARAMS + j)
                    + calib.jacob (i * NUM_SAMPLES + k) * calib.jacob (j * NUM_SAMPLES + k)) })
            calib)
        calib)
    calib
  let calib := (List.range NUM_PARAMS).foldl
    (fun calib diag =>
      { calib with
        JTJ_LI := setAt calib.JTJ_LI (diag * NUM_PARAMS + diag)
          (calib.JTJ_LI (diag * NUM_PARAMS + diag) + lambda) })
    calib
  let r := inverse4x4 calib.JTJ_LI calib.JTJ_LI
  if r.1 then { calib with JTJ_LI := r.2 }
  else { calib with JTJ_LI := r.2, fault := true }

/-- `void Compass::calc_JTFI(struct Calibration &calib)`. -/
def calc_JTFI (calib : Calibration) : Calibration :=
  let calib := sphere_fitness calib
  (List.range NUM_PARAMS).foldl
    (fun calib row =>
      (List.range NUM_SAMPLES).foldl
        (fun calib col =>
          { calib with
            JTFI := setAt calib.JTFI row
              (calib.JTFI row + calib.jacob (row * NUM_SAMPLES + col) * calib.sample_fitness col) })
        calib)
    calib

/-! ## Levenberg-Marquardt optimiser -/

/-- Conversion of an integer to `int16_t` (two's complement wrap), applied
where `gradient_power` is stored back after `++` and `--`. -/
def wrap_int16 (z : ℤ) : ℤ := (z + 32768) % 65536 - 32768

/-- The context together with the locals of `evaluatelm` that live across
iterations of its loop. -/
structure LMState where
  calib : Calibration
  lambda : ℚ
  last_fitness : ℚ
  global_best : ℕ → ℚ
  global_best_f : ℚ
  gradient_power : ℤ

/-- How one pass through the body of the loop of `evaluatelm` ends. -/
inductive LMStep where
  /-- `return -1` after `calc_jacob` or `calc_JTJ_LI` left `fault` set -/
  | fault (calib : Calibration)
  /-- `break` on `cur_fitness < AIMED_FITNESS/2` -/
  | brk (s : LMState)
  /-- end of the body reached, back to the loop test -/
  | next (s : LMState)

/-- The state of `evaluatelm` on reaching its loop for the first time. -/
def evaluatelm_init (calib : Calibration) : LMState :=
  let calib := sphere_fitness calib
  let last_fitness := square_sum calib
  { calib := calib
    lambda := 1
    last_fitness := last_fitness
    global_best := (List.range NUM_PARAMS).foldl
      (fun global_best i => setAt global_best i (calib.sphere_param i)) (fun _ => 0)
    global_best_f := last_fitness
    gradient_power := 0 }

/-- The three zeroing loops at the top of the body of the loop. -/
def evaluatelm_zero (calib : Calibration) : Calibration :=
  let calib := (List.range (NUM_PARAMS * NUM_SAMPLES)).foldl
    (fun calib j => { calib with jacob := setAt calib.jacob j 0 }) calib
  let calib := (List.range (NUM_PARAMS * NUM_PARAMS)).foldl
    (fun calib j => { calib with JTJ_LI := setAt calib.JTJ_LI j 0 }) calib
  (List.range NUM_PARAMS).foldl
    (fun calib j => { calib with JTFI := setAt calib.JTFI j 0 }) calib

/-- The parameter update `sphere_param[row] += JTFI[col] * JTJ_LI[row*4 + col]`. -/
def evaluatelm_update (calib : Calibration) : Calibration :=
  (List.range NUM_PARAMS).foldl
    (fun calib row =>
      (List.range NUM_PARAMS).foldl
        (fun calib col =>
          { calib with
            sphere_param := setAt calib.sphere_param row
              (calib.sphere_param row + calib.JTFI col * calib.JTJ_LI (row * 4 + col)) })
        calib)
    calib

/-- One pass through the body of the loop of `evaluatelm`; `alloc_ok` is the
outcome of the allocation made by `calc_jacob` in this pass. -/
def evaluatelm_body (alloc_ok : Bool) (s : LMState) : LMStep :=
  let calib := evaluatelm_zero s.calib
  let calib := calc_jacob alloc_ok calib
  if calib.fault then LMStep.fault calib
  else
    let calib := calc_JTJ_LI calib s.lambda
    if calib.fault then LMStep.fault calib
    else
      let calib := calc_JTFI calib
      let calib := evaluatelm_update calib
      let calib := sphere_fitness calib
      let cur_fitness := square_sum calib
      let s1 : LMState :=
        if cur_fitness ≥ s.last_fitness then
          { s with
            calib := calib
            lambda := s.lambda * GRADIENT
            gradient_power := wrap_int16 (s.gradient_power + 1) }
        else
          { s with
            calib := calib
            lambda := s.lambda / GRADIENT
            last_fitness := cur_fitness
            gradient_power := wrap_int16 (s.gradient_power - 1) }
      let s2 : LMState :=
        if cur_fitness < s1.global_best_f then
          { s1 with
            global_best_f := cur_fitness
            global_best := (List.range NUM_PARAMS).foldl
              (fun global_best j => setAt global_best j (calib.sphere_param j)) s1.global_best }
        else s1
      if cur_fitness < AIMED_FITNESS / 2 then LMStep.brk s2 else LMStep.next s2

/-- The loop `while(gradient_power <= GRADIENT_POW_LIMIT)` of `evaluatelm`.
`alloc_ok n` is the outcome of the allocation in pass `n` of the call, `n` the
number of passes made so far. The result is `none` when the fuel runs out,
otherwise the context at `return -1` (left) or the state on leaving the loop
(right). -/
def evaluatelm_loop (alloc_ok : ℕ → Bool) : ℕ → ℕ → LMState → Option (Calibration ⊕ LMState)
  | fuel, n, s =>
    if s.gradient_power ≤ GRADIENT_POW_LIMIT then
      match fuel with
      | 0 => none
      | fuel + 1 =>
        match evaluatelm_body (alloc_ok n) s with
        | LMStep.fault calib => some (Sum.inl calib)
        | LMStep.brk s1 => some (Sum.inr s1)
        | LMStep.next s1 => evaluatelm_loop alloc_ok fuel (n + 1) s1
    else some (Sum.inr s)

/-- `double Compass::evaluatelm(struct Calibration &calib)`: the returned value
and the context on return. -/
def evaluatelm (alloc_ok : ℕ → Bool) (fuel : ℕ) (calib : Calibration) :
    Option (ℚ × Calibration) :=
  match evaluatelm_loop alloc_ok fuel 0 (evaluatelm_init calib) with
  | none => none
  | some (Sum.inl calib) => some (-1, calib)
  | some (Sum.inr s) =>
    some (s.global_best_f,
      (List.range NUM_PARAMS).foldl
        (fun calib i =>
          { calib with sphere_param := setAt calib.sphere_param i (s.global_best i) })
        s.calib)

/-! ## Per-instance processing -/

/-- Lines 173 to 185 of `process_samples`: the pass/complete policy applied to
the fitness returned by the optimiser. `passed` is a `uint8_t`. -/
def process_samples_policy (global_best_f : ℚ) (calib : Calibration) : Calibration :=
  let calib :=
    if global_best_f ≤ AIMED_FITNESS then { calib with passed := (calib.passed + 1) % 256 }
    else { calib with passed := 0 }
  if calib.passed = 2 then { calib with complete := true }
  else { calib with complete := false }

/-- `void Compass::process_samples(struct Calibration &calib)`. -/
def process_samples (alloc_ok : ℕ → Bool) (fuel : ℕ) (calib : Calibration) :
    Option Calibration :=
  let calib := { calib with fault := false }
  if calib.fault then some calib
  else
    match evaluatelm alloc_ok fuel calib with
    | none => none
    | some r => some (process_samples_policy r.1 r.2)

/-! ## Sample collection -/

/-- `bool Compass::validate_sample(struct Calibration &calib)`: no stored
sample below `count` equals the candidate at `samples[count]`. -/
def validate_sample (calib : Calibration) : Bool :=
  (List.range calib.count).all
    (fun i => !(decide (calib.samples i = calib.samples calib.count)))

/-- The sensor driver as seen by one call of `collect_samples`: the number
of instances, and for the `k`-th call of `read()` (counted from `0`) the
health flag and the field of every instance. -/
structure Sensors where
  get_count : ℕ
  healthy : ℕ → ℕ → Bool
  get_field : ℕ → ℕ → Vector3f

/-- The context array with the locals of `collect_samples` that live across
iterations, and the number of calls of `read()` made so far. -/
structure CollectState where
  calib : ℕ → Calibration
  sampling_over_cnt : ℕ
  reads : ℕ

/-- The body of the `for` loop of `collect_samples` for one instance. -/
def collect_samples_body (hw : Sensors) (s : CollectState) (instance_no : ℕ) : CollectState :=
  let c := (s.calib instance_no).count
  if c = NUM_SAMPLES then s
  else
    let k := s.reads
    let s := { s with reads := s.reads + 1 }
    if !hw.healthy k instance_no then s
    else
      let mag := hw.get_field k instance_no
      let cal := s.calib instance_no
      let r : Calibration × ℕ :=
        if c ≥ 1 then
          let distance := (cal.samples (c - 1)).sub mag
          if distance.length_gt SAMPLE_DIST then
            let cal := { cal with samples := setAt cal.samples c mag }
            if validate_sample cal then (cal, (c + 1) % 256) else (cal, c)
          else (cal, c)
        else ({ cal with samples := setAt cal.samples c mag }, (c + 1) % 256)
      let c := r.2
      let sampling_over_cnt :=
        if c = 100 then (s.sampling_over_cnt + 1) % 256 else s.sampling_over_cnt
      { s with
        calib := setAt s.calib instance_no { r.1 with count := c }
        sampling_over_cnt := sampling_over_cnt }

/-- One pass of the `while(1)` loop of `collect_samples`: the `for` loop over
the instances. -/
def collect_samples_pass (hw : Sensors) (s : CollectState) : CollectState :=
  (List.range hw.get_count).foldl (collect_samples_body hw) s

/-- The `while(1)` loop of `collect_samples`; `none` when the fuel runs out. -/
def collect_samples_loop (hw : Sensors) : ℕ → CollectState → Option CollectState
  | 0, _ => none
  | fuel + 1, s =>
    let s := collect_samples_pass hw s
    if s.sampling_over_cnt = hw.get_count then some s
    else collect_samples_loop hw fuel s

/-- `void Compass::collect_samples(struct Calibration calib[])`. -/
def collect_samples (hw : Sensors) (fuel : ℕ) (calib : ℕ → Calibration) :
    Option (ℕ → Calibration) :=
  (collect_samples_loop hw fuel { calib := calib, sampling_over_cnt := 0, reads := 0 }).map
    CollectState.calib

/-! ## Calibration session -/

/-- The outside world of one session: the number of instances, the sensor
feed of each outer round, and for outer round `r`, instance `i` and optimiser
pass `n` whether the scratch allocation succeeds. -/
structure Session where
  get_count : ℕ
  healthy : ℕ → ℕ → ℕ → Bool
  get_field : ℕ → ℕ → ℕ → Vector3f
  alloc_ok : ℕ → ℕ → ℕ → Bool

/-- The sensor driver during outer round `r`. -/
def Session.sensors (w : Session) (r : ℕ) : Sensors :=
  { get_count := w.get_count, healthy := w.healthy r, get_field := w.get_field r }

/-- The initialisation loop of `magnetometer_calib`. -/
def magnetometer_calib_init (get_count : ℕ) (calib : ℕ → Calibration) : ℕ → Calibration :=
  (List.range get_count).foldl
    (fun calib instance_no =>
      let cal := calib instance_no
      let cal := (List.range NUM_PARAMS).foldl
        (fun cal cnt => { cal with sphere_param := setAt cal.sphere_param cnt 20 }) cal
      setAt calib instance_no
        { cal with passed := 0, count := 0, complete := false, fault := false,
                   inst := instance_no })
    calib

/-- The processing loop of one outer round over the instances still to visit:
`none` when the fuel runs out, `some (Sum.inl calib)` at `return false` after a
fault, `some (Sum.inr calib)` when the loop ends. -/
def magnetometer_calib_process (alloc_ok : ℕ → ℕ → Bool) (fuel : ℕ) :
    List ℕ → (ℕ → Calibration) → Option ((ℕ → Calibration) ⊕ (ℕ → Calibration))
  | [], calib => some (Sum.inr calib)
  | instance_no :: rest, calib =>
    if (calib instance_no).complete then magnetometer_calib_process alloc_ok fuel rest calib
    else
      match process_samples (alloc_ok instance_no) fuel (calib instance_no) with
      | none => none
      | some cal =>
        let calib := setAt calib instance_no cal
        if cal.fault then some (Sum.inl calib)
        else magnetometer_calib_process alloc_ok fuel rest calib

/-- The body of the outer loop of `magnetometer_calib` in round `r` (counted
from `0`) up to the end of the processing loop. -/
def magnetometer_calib_round (w : Session) (fuel : ℕ) (r : ℕ) (calib : ℕ → Calibration) :
    Option ((ℕ → Calibration) ⊕ (ℕ → Calibration)) :=
  let calib := (List.range w.get_count).foldl
    (fun calib i => setAt calib i { (calib i) with count := 0 }) calib
  match collect_samples (w.sensors r) fuel calib with
  | none => none
  | some calib =>
    magnetometer_calib_process (w.alloc_ok r) fuel (List.range w.get_count) calib

/-- The `done` flag computed at the end of an outer round. -/
def magnetometer_calib_done (get_count : ℕ) (calib : ℕ → Calibration) : Bool :=
  (List.range get_count).all (fun instance_no => (calib instance_no).complete)

/-- The state of `magnetometer_calib` on leaving its outer loop or returning
from inside it. -/
structure SessionEnd where
  /-- the value returned -/
  result : Bool
  /-- the local `iters` -/
  iters : ℕ
  /-- whether the return is the one after a fault -/
  faulted : Bool
  calib : ℕ → Calibration

/-- The loop `while((iters < MAX_ITERS) && !done)` of `magnetometer_calib`
followed by the final test of `done`. -/
def magnetometer_calib_loop (w : Session) (fuel : ℕ) :
    ℕ → ℕ → Bool → (ℕ → Calibration) → Option SessionEnd
  | gas, iters, done, calib =>
    if iters < MAX_ITERS ∧ done = false then
      match gas with
      | 0 => none
      | gas + 1 =>
        let iters1 := iters + 1
        match magnetometer_calib_round w fuel iters calib with
        | none => none
        | some (Sum.inl calib) =>
          some { result := false, iters := iters1, faulted := true, calib := calib }
        | some (Sum.inr calib) =>
          magnetometer_calib_loop w fuel gas iters1
            (magnetometer_calib_done w.get_count calib) calib
    else some { result := done, iters := iters, faulted := false, calib := calib }

/-- `bool Compass::magnetometer_calib(void)` up to its return, with the state
it returns in. `new_ok` tells whether the allocation of the context array
succeeded, `calib` is the content of the fresh array. -/
def magnetometer_calib_run (w : Session) (fuel : ℕ) (new_ok : Bool)
    (calib : ℕ → Calibration) : Option SessionEnd :=
  if !new_ok then some { result := false, iters := 0, faulted := false, calib := calib }
  else
    magnetometer_calib_loop w fuel fuel 0 false (magnetometer_calib_init w.get_count calib)

/-- `bool Compass::magnetometer_calib(void)`. -/
def magnetometer_calib (w : Session) (fuel : ℕ) (new_ok : Bool)
    (calib : ℕ → Calibration) : Option Bool :=
  (magnetometer_calib_run w fuel new_ok calib).map SessionEnd.result

/-! ## Specification-side notions -/

/-- The 4x4 matrix held row-major in the first sixteen cells of an array. -/
def toMatrix (m : ℕ → ℚ) : Matrix (Fin 4) (Fin 4) ℚ :=
  Matrix.of fun i j => m (4 * i.val + j.val)

/-- The fields of a context that no numerical routine writes: the samples,
`count`, `passed`, `complete` and `instance` of `c2` are those of `c1`. -/
def Calibration.frame (c1 c2 : Calibration) : Prop :=
  c2.samples = c1.samples ∧ c2.count = c1.count ∧ c2.passed = c1.passed
    ∧ c2.complete = c1.complete ∧ c2.inst = c1.inst

/-- The frame of a routine that raises no fault: `frame` and the same `fault`
flag. -/
def Calibration.frameF (c1 c2 : Calibration) : Prop :=
  c1.frame c2 ∧ c2.fault = c1.fault

/-- What a pass through the body of the loop of `evaluatelm` that raises no
fault does to the loop state: the new context is the result of `sphere_fitness`,
`cur_fitness` is its `square_sum`; the damping schedule and the best-so-far
record are updated from it. -/
def evaluatelm_step_ok (s s1 : LMState) : Prop :=
  s.calib.fault = false ∧ s1.calib.fault = false ∧ s.calib.frame s1.calib
    ∧ sphere_fitness s1.calib = s1.calib
    ∧ ((s.last_fitness ≤ square_sum s1.calib ∧ s1.lambda = s.lambda * GRADIENT
          ∧ s1.gradient_power = wrap_int16 (s.gradient_power + 1)
          ∧ s1.last_fitness = s.last_fitness)
        ∨ (square_sum s1.calib < s.last_fitness ∧ s1.lambda = s.lambda / GRADIENT
          ∧ s1.gradient_power = wrap_int16 (s.gradient_power - 1)
          ∧ s1.last_fitness = square_sum s1.calib))
    ∧ ((square_sum s1.calib < s.global_best_f ∧ s1.global_best_f = square_sum s1.calib
          ∧ ∀ i, i < NUM_PARAMS → s1.global_best i = s1.calib.sphere_param i)
        ∨ (s.global_best_f ≤ square_sum s1.calib ∧ s1.global_best_f = s.global_best_f
          ∧ s1.global_best = s.global_best))

/-- A fault is raised in a pass of the loop of `evaluatelm`: the allocation
in `calc_jacob` fails, or `calc_JTJ_LI` is reached with the flag clear and sets
it (singular matrix). -/
def evaluatelm_raises (ok : Bool) (s : LMState) : Bool :=
  !ok || (!(calc_jacob ok (evaluatelm_zero s.calib)).fault
          && (calc_JTJ_LI (calc_jacob ok (evaluatelm_zero s.calib)) s.lambda).fault)

/-- A fault is raised in some pass of the loop of `evaluatelm` (same
recursion as `evaluatelm_loop`). -/
def evaluatelm_raised (alloc_ok : ℕ → Bool) : ℕ → ℕ → LMState → Bool
  | fuel, n, s =>
    if s.gradient_power ≤ GRADIENT_POW_LIMIT then
      match fuel with
      | 0 => false
      | fuel + 1 =>
        evaluatelm_raises (alloc_ok n) s ||
          match evaluatelm_body (alloc_ok n) s with
          | LMStep.next s1 => evaluatelm_raised alloc_ok fuel (n + 1) s1
          | _ => false
    else false

/-- Every stored sample of a context is farther than `SAMPLE_DIST` from the
one stored just before it. -/
def consecutive_far (cal : Calibration) : Prop :=
  ∀ k, k + 1 < cal.count →
    ((cal.samples k).sub (cal.samples (k + 1))).length_gt SAMPLE_DIST = true

/-- The context array after `n` passes of the `while(1)` loop of
`collect_samples` entered with the array `calib`. -/
def collect_samples_after (hw : Sensors) (n : ℕ) (calib : ℕ → Calibration) : ℕ → Calibration :=
  ((collect_samples_pass hw)^[n] { calib := calib, sampling_over_cnt := 0, reads := 0 }).calib

/-- The context array after `n` outer rounds of a session run one after the
other from the array `calib`, none of them raising a fault; `none` if one of
them raises a fault or does not return. No test of `done` is made between
the rounds. -/
def magnetometer_calib_rounds (w : Session) (fuel : ℕ) :
    ℕ → (ℕ → Calibration) → Option (ℕ → Calibration)
  | 0, calib => some calib
  | n + 1, calib =>
    match magnetometer_calib_rounds w fuel n calib with
    | none => none
    | some c =>
      match magnetometer_calib_round w fuel n c with
      | some (Sum.inr c') => some c'
      | _ => none

/-- The Jacobian buffer of a context as a matrix with one row per parameter
and one column per sample. -/
def jacobMatrix (c : Calibration) : Matrix (Fin 4) (Fin 100) ℚ :=
  Matrix.of fun i k => c.jacob (i.val * NUM_SAMPLES + k.val)

/-- The array that `calc_JTJ_LI` hands to `inverse4x4`: to each of the sixteen
cells of `JTJ_LI` the sum over the samples of the products of two Jacobian rows
has been added, and `lambda` to the four cells of the diagonal. -/
def normal_matrix (c : Calibration) (lambda : ℚ) : ℕ → ℚ := fun t =>
  (if t < NUM_PARAMS * NUM_PARAMS then
      c.JTJ_LI t + ∑ k in Finset.range NUM_SAMPLES,
        c.jacob (t / NUM_PARAMS * NUM_SAMPLES + k) * c.jacob (t % NUM_PARAMS * NUM_SAMPLES + k)
    else c.JTJ_LI t)
  + (if t % (NUM_PARAMS + 1) = 0 ∧ t / (NUM_PARAMS + 1) < NUM_PARAMS then lambda else 0)

/-- No two of the stored samples of a context are equal. -/
def pairwise_distinct (cal : Calibration) : Prop :=
  ∀ i j, i < j → j < cal.count → cal.samples i ≠ cal.samples j

/-- The number of instances below `n` whose count is at the quota. -/
def quota_reached (n : ℕ) (calib : ℕ → Calibration) : ℕ :=
  ∑ j in Finset.range n, if (calib j).count = NUM_SAMPLES then 1 else 0

/-- The relation kept by the loop of `collect_samples` when entered with
every count at `0`: no count exceeds the quota, and `sampling_over_cnt` (a
`uint8_t`) counts the instances that have reached it. -/
def collect_samples_inv (hw : Sensors) (s : CollectState) : Prop :=
  (∀ j, j < hw.get_count → (s.calib j).count ≤ NUM_SAMPLES)
    ∧ s.sampling_over_cnt = quota_reached hw.get_count s.calib % 256

/-- The context whose sample buffer holds the samples of `c` in the order
given by the permutation `σ` of the `100` slots: slot `j` holds what slot
`σ j` held. -/
def permute_samples (σ : Equiv.Perm (Fin NUM_SAMPLES)) (c : Calibration) : Calibration :=
  { c with
    samples := fun j => if h : j < NUM_SAMPLES then c.samples (σ ⟨j, h⟩).val else c.samples j }

/-- The loop states in which the body of the loop of `evaluatelm` is entered,
in the order of the passes (same recursion as `evaluatelm_loop`): the values of
`lambda`, `last_fitness`, `gradient_power` and of the best-so-far record at the
start of each iteration. -/
def evaluatelm_heads (alloc_ok : ℕ → Bool) : ℕ → ℕ → LMState → List LMState
  | fuel, n, s =>
    if s.gradient_power ≤ GRADIENT_POW_LIMIT then
      match fuel with
      | 0 => []
      | fuel + 1 =>
        s :: match evaluatelm_body (alloc_ok n) s with
          | LMStep.next s1 => evaluatelm_heads alloc_ok fuel (n + 1) s1
          | _ => []
    else []

/-- The coupling of the damping factor and the counter at the loop test of
`evaluatelm`: if the test lets the loop go on, the counter has not wrapped
around and `lambda` is `GRADIENT` to the power of the counter. -/
def evaluatelm_damping (s : LMState) : Prop :=
  s.gradient_power ≤ GRADIENT_POW_LIMIT →
    -32768 ≤ s.gradient_power ∧ s.lambda = (5 : ℚ) ^ s.gradient_power

/-- The residual of a sample `v` for the parameter vector `p` when the radius
is not clamped: `1 - ((v.x + p[1])^2 + (v.y + p[2])^2 + (v.z + p[3])^2) / p[0]^2`. -/
def residual (p : ℕ → ℚ) (v : Vector3f) : ℚ :=
  1 - ((v.x + p 1) ^ 2 + (v.y + p 2) ^ 2 + (v.z + p 3) ^ 2) / (p 0) ^ 2

/-- The parameter update of `evaluatelm` with the inverse read column first:
`sphere_param[row] += JTFI[col] * JTJ_LI[col*4 + row]`. The counterpart of
`evaluatelm_update`, which reads `JTJ_LI[row*4 + col]`. -/
def evaluatelm_update_transposed (calib : Calibration) : Calibration :=
  (List.range NUM_PARAMS).foldl
    (fun calib row =>
      (List.range NUM_PARAMS).foldl
        (fun calib col =>
          { calib with
            sphere_param := setAt calib.sphere_param row
              (calib.sphere_param row + calib.JTFI col * calib.JTJ_LI (col * 4 + row)) })
        calib)
    calib

/-- A 4x4 matrix held row-major in an array is symmetric. -/
def symmetric4 (m : ℕ → ℚ) : Prop :=
  ∀ row col, row < 4 → col < 4 → m (row * 4 + col) = m (col * 4 + row)

/-- What the fit of an instance owns: `c2` has the parameters, the pass
counter and the completion flag of `c1`. -/
def Calibration.same_fit (c1 c2 : Calibration) : Prop :=
  c2.sphere_param = c1.sphere_param ∧ c2.passed = c1.passed ∧ c2.complete = c1.complete

/-- The relation between the pass counter and the completion flag of an
instance between the rounds of a session: `passed` is `0`, `1` or `2`, and
`complete` is set exactly when it is `2`. -/
def pass_inv (c : Calibration) : Prop :=
  c.passed ≤ 2 ∧ (c.complete = true ↔ c.passed = 2)

/-- The context array in which an outer round returns or ends. -/
def round_end (x : (ℕ → Calibration) ⊕ (ℕ → Calibration)) : ℕ → Calibration :=
  Sum.elim id id x

/-- Every stored sample of the context of instance `i` is a reading that the
sensor feed `hw` delivered for instance `i` while it reported healthy. -/
def from_feed (hw : Sensors) (i : ℕ) (cal : Calibration) : Prop :=
  ∀ j, j < cal.count → ∃ k, hw.healthy k i = true ∧ cal.samples j = hw.get_field k i

/-- The indices at which `validate_sample` reads the sample buffer while its
loop runs over the list given: `samples[i]` and `samples[calib.count]` for each
`i`, up to the first `i` whose sample equals the candidate. -/
def validate_sample_idx_from (calib : Calibration) : List ℕ → List ℕ
  | [] => []
  | i :: rest =>
    i :: calib.count ::
      (if calib.samples i = calib.samples calib.count then []
       else validate_sample_idx_from calib rest)

/-- The indices at which `validate_sample` reads the sample buffer. -/
def validate_sample_idx (calib : Calibration) : List ℕ :=
  validate_sample_idx_from calib (List.range calib.count)

/-- The indices at which the body of the `for` loop of `collect_samples`
reads or writes the sample buffer of the instance visited: none if the instance
is at the quota or unhealthy; otherwise `samples[c - 1]` is read when `c >= 1`,
and then, if the reading is far enough, `samples[c]` is written and
`validate_sample` is called; when `c = 0`, `samples[c]` is written. -/
def collect_samples_body_idx (hw : Sensors) (s : CollectState) (instance_no : ℕ) : List ℕ :=
  let c := (s.calib instance_no).count
  if c = NUM_SAMPLES then []
  else
    let k := s.reads
    if !hw.healthy k instance_no then []
    else
      let mag := hw.get_field k instance_no
      let cal := s.calib instance_no
      if c ≥ 1 then
        (c - 1) ::
          (if ((cal.samples (c - 1)).sub mag).length_gt SAMPLE_DIST then
            c :: validate_sample_idx { cal with samples := setAt cal.samples c mag }
          else [])
      else [c]

/-- The sample-buffer indices used in one pass of the `while(1)` loop of
`collect_samples`, in order. -/
def collect_samples_pass_idx (hw : Sensors) (s : CollectState) : List ℕ :=
  ((List.range hw.get_count).foldl
    (fun (p : CollectState × List ℕ) i =>
      (collect_samples_body hw p.1 i, p.2 ++ collect_samples_body_idx hw p.1 i))
    (s, [])).2

/-- The sample-buffer indices used by the `while(1)` loop of `collect_samples`,
in order, as far as the fuel reaches (same recursion as
`collect_samples_loop`). -/
def collect_samples_loop_idx (hw : Sensors) : ℕ → CollectState → List ℕ
  | 0, _ => []
  | fuel + 1, s =>
    collect_samples_pass_idx hw s ++
      (if (collect_samples_pass hw s).sampling_over_cnt = hw.get_count then []
       else collect_samples_loop_idx hw fuel (collect_samples_pass hw s))

/-- The sample-buffer indices used by a call of `collect_samples` (including
those used by the calls of `validate_sample` it makes). -/
def collect_samples_idx (hw : Sensors) (fuel : ℕ) (calib : ℕ → Calibration) : List ℕ :=
  collect_samples_loop_idx hw fuel { calib := calib, sampling_over_cnt := 0, reads := 0 }

/-- The indices into the context array used by the `while(1)` loop of
`collect_samples`: `calib[instance]` for every `instance < get_count()` in every
pass (same recursion as `collect_samples_loop`). -/
def collect_samples_loop_calib_idx (hw : Sensors) : ℕ → CollectState → List ℕ
  | 0, _ => []
  | fuel + 1, s =>
    List.range hw.get_count ++
      (if (collect_samples_pass hw s).sampling_over_cnt = hw.get_count then []
       else collect_samples_loop_calib_idx hw fuel (collect_samples_pass hw s))

/-- The indices into the context array used by the processing loop of a round
(same recursion as `magnetometer_calib_process`): `calib[instance]` for every
instance visited until the loop ends or returns. -/
def magnetometer_calib_process_idx (alloc_ok : ℕ → ℕ → Bool) (fuel : ℕ) :
    List ℕ → (ℕ → Calibration) → List ℕ
  | [], _ => []
  | instance_no :: rest, calib =>
    instance_no ::
      (if (calib instance_no).complete then
        magnetometer_calib_process_idx alloc_ok fuel rest calib
      else
        match process_samples (alloc_ok instance_no) fuel (calib instance_no) with
        | none => []
        | some cal =>
          if cal.fault then []
          else magnetometer_calib_process_idx alloc_ok fuel rest (setAt calib instance_no cal))

/-- The indices into the context array used by the loop that computes `done`:
`calib[instance]` up to the first instance that is not complete. -/
def magnetometer_calib_done_idx (calib : ℕ → Calibration) : List ℕ → List ℕ
  | [] => []
  | instance_no :: rest =>
    instance_no ::
      (if (calib instance_no).complete then magnetometer_calib_done_idx calib rest else [])

/-- The indices into the context array used in outer round `r` of
`magnetometer_calib`: by the loop that resets the counts, by `collect_samples`,
by the processing loop and, if that loop ends, by the loop that computes
`done`. -/
def magnetometer_calib_round_idx (w : Session) (fuel : ℕ) (r : ℕ) (calib : ℕ → Calibration) :
    List ℕ :=
  let calib0 := (List.range w.get_count).foldl
    (fun calib i => setAt calib i { (calib i) with count := 0 }) calib
  List.range w.get_count ++
    collect_samples_loop_calib_idx (w.sensors r) fuel
      { calib := calib0, sampling_over_cnt := 0, reads := 0 } ++
    (match collect_samples (w.sensors r) fuel calib0 with
     | none => []
     | some calib1 =>
       magnetometer_calib_process_idx (w.alloc_ok r) fuel (List.range w.get_count) calib1 ++
         (match magnetometer_calib_process (w.alloc_ok r) fuel (List.range w.get_count) calib1
            with
          | some (Sum.inr calib2) => magnetometer_calib_done_idx calib2 (List.range w.get_count)
          | _ => []))

/-- The indices into the context array used by the outer loop of
`magnetometer_calib` (same recursion as `magnetometer_calib_loop`). -/
def magnetometer_calib_loop_idx (w : Session) (fuel : ℕ) :
    ℕ → ℕ → Bool → (ℕ → Calibration) → List ℕ
  | gas, iters, done, calib =>
    if iters < MAX_ITERS ∧ done = false then
      match gas with
      | 0 => []
      | gas + 1 =>
        magnetometer_calib_round_idx w fuel iters calib ++
          (match magnetometer_calib_round w fuel iters calib with
           | some (Sum.inr calib1) =>
             magnetometer_calib_loop_idx w fuel gas (iters + 1)
               (magnetometer_calib_done w.get_count calib1) calib1
           | _ => [])
    else []

/-- The indices into the context array `calib`, allocated with two elements,
that a call of `magnetometer_calib` uses, in order: those of the initialisation
loop, `calib[instance]` for `instance < get_count()`, then those of the outer
loop. None if the allocation fails. -/
def magnetometer_calib_idx (w : Session) (fuel : ℕ) (new_ok : Bool) (calib : ℕ → Calibration) :
    List ℕ :=
  if !new_ok then []
  else
    List.range w.get_count ++
      magnetometer_calib_loop_idx w fuel fuel 0 false (magnetometer_calib_init w.get_count calib)

/-! # The numerical routines in `double` arithmetic

The embedding above computes in exact rationals; the program computes in the
type `double`. This part repeats the numerical routines (`inverse4x4`,
`square_sum`, `sphere_fitness`, `calc_jacob`, `calc_JTJ_LI`, `calc_JTFI`,
`evaluatelm`) with every operation rounded. -/

/-! ## `double` values

The arithmetic of IEEE 754 binary64 with round to nearest, ties to even, one
rounding per operation (no fused multiply-add, no extended precision). -/

/-- The number of binary digits of `n`, with `fuel` an upper bound on it. -/
def bit_length : ℕ → ℕ → ℕ
  | 0, _ => 0
  | fuel + 1, n => if n = 0 then 0 else bit_length fuel (n / 2) + 1

/-- A value of the type `double` (IEEE 754 binary64): a finite value, given as
the rational it stands for, an infinity with its sign, or a NaN. Zero carries
no sign: `-0` and `+0` compare equal and differ only in the sign of a quotient
by zero. -/
inductive Dbl where
  | fin (q : ℚ)
  | inf (neg : Bool)
  | nan
deriving DecidableEq

/-- Rounding of a rational to `double`: round to nearest, ties to even, with
a significand of 53 bits, gradual underflow below `2^-1022` (quantum
`2^-1074`), and overflow to an infinity from `2^1024` on. -/
def Dbl.round (q : ℚ) : Dbl :=
  if q = 0 then Dbl.fin 0
  else
    let n : ℕ := q.num.natAbs
    let d : ℕ := q.den
    let k : ℤ := (bit_length 4096 n : ℤ) - (bit_length 4096 d : ℤ)
    -- `e` is the integer with `2^e <= n/d < 2^(e+1)`
    let e : ℤ :=
      if (if 0 ≤ k then d * Nat.pow 2 k.toNat ≤ n else d ≤ n * Nat.pow 2 (-k).toNat) then k
      else k - 1
    -- the quantum is `2^qe`
    let qe : ℤ := max e (-1022) - 52
    let a : ℕ := if 0 ≤ qe then n else n * Nat.pow 2 (-qe).toNat
    let b : ℕ := if 0 ≤ qe then d * Nat.pow 2 qe.toNat else d
    let f : ℕ := a / b
    let r : ℕ := a % b
    let m : ℕ :=
      if 2 * r < b then f else if b < 2 * r then f + 1 else if f % 2 = 0 then f else f + 1
    if 0 ≤ qe ∧ Nat.pow 2 1024 ≤ m * Nat.pow 2 qe.toNat then Dbl.inf (decide (q < 0))
    else
      let v : ℚ :=
        if 0 ≤ qe then ((m * Nat.pow 2 qe.toNat : ℕ) : ℚ)
        else ((m : ℕ) : ℚ) / ((Nat.pow 2 (-qe).toNat : ℕ) : ℚ)
      Dbl.fin (if q < 0 then -v else v)

/-- Unary minus on `double`: exact. -/
def Dbl.neg : Dbl → Dbl
  | Dbl.fin a => Dbl.fin (-a)
  | Dbl.inf s => Dbl.inf (!s)
  | Dbl.nan => Dbl.nan

/-- Sum on `double`: the exact sum of two finite values, rounded; an infinity
absorbs a finite value; infinities of opposite sign, and any NaN, give a NaN. -/
def Dbl.add : Dbl → Dbl → Dbl
  | Dbl.fin a, Dbl.fin b => Dbl.round (a + b)
  | Dbl.fin _, Dbl.inf t => Dbl.inf t
  | Dbl.inf s, Dbl.fin _ => Dbl.inf s
  | Dbl.inf s, Dbl.inf t => if s = t then Dbl.inf s else Dbl.nan
  | _, _ => Dbl.nan

/-- Difference on `double`: `a - b` is `a + (-b)`. -/
def Dbl.sub (a b : Dbl) : Dbl := Dbl.add a (Dbl.neg b)

/-- Product on `double`: the exact product of two finite values, rounded; zero
times an infinity, and any NaN, give a NaN. -/
def Dbl.mul : Dbl → Dbl → Dbl
  | Dbl.fin a, Dbl.fin b => Dbl.round (a * b)
  | Dbl.fin a, Dbl.inf t => if a = 0 then Dbl.nan else Dbl.inf (xor (decide (a < 0)) t)
  | Dbl.inf s, Dbl.fin b => if b = 0 then Dbl.nan else Dbl.inf (xor s (decide (b < 0)))
  | Dbl.inf s, Dbl.inf t => Dbl.inf (xor s t)
  | _, _ => Dbl.nan

/-- Quotient on `double`: the exact quotient of two finite values, rounded; a
non-zero value over zero is an infinity (zero counted as `+0`); zero over zero,
an infinity over an infinity, and any NaN, give a NaN. -/
def Dbl.div : Dbl → Dbl → Dbl
  | Dbl.fin a, Dbl.fin b =>
    if b = 0 then (if a = 0 then Dbl.nan else Dbl.inf (decide (a < 0)))
    else Dbl.round (a / b)
  | Dbl.fin _, Dbl.inf _ => Dbl.fin 0
  | Dbl.inf s, Dbl.fin b => Dbl.inf (xor s (decide (b < 0)))
  | _, _ => Dbl.nan

instance : Add Dbl := ⟨Dbl.add⟩

instance : Sub Dbl := ⟨Dbl.sub⟩

instance : Mul Dbl := ⟨Dbl.mul⟩

instance : Div Dbl := ⟨Dbl.div⟩

instance : Neg Dbl := ⟨Dbl.neg⟩

/-- `a == b` on `double`; false when either is a NaN. -/
def Dbl.eq : Dbl → Dbl → Bool
  | Dbl.fin a, Dbl.fin b => decide (a = b)
  | Dbl.inf s, Dbl.inf t => s == t
  | _, _ => false

/-- `GRADIENT` converted to `double`. -/
def GRADIENT_double : Dbl := Dbl.fin 5

/-- Modelled from the spec: `Vector3f` of AP_Math with its components
converted to `double`, as they are where the fit reads them. -/
structure Vector3f_double where
  x : Dbl
  y : Dbl
  z : Dbl

/-- The per-instance context `struct Calibration`, its `double` arrays holding
`double` values. -/
@[ext]
structure Calibration_double where
  /-- `double JTJ_LI[NUM_PARAMS*NUM_PARAMS]` -/
  JTJ_LI : ℕ → Dbl
  /-- `double JTFI[NUM_SAMPLES]` -/
  JTFI : ℕ → Dbl
  /-- `double jacob[NUM_SAMPLES*NUM_PARAMS]` -/
  jacob : ℕ → Dbl
  /-- `double sample_fitness[NUM_SAMPLES]` -/
  sample_fitness : ℕ → Dbl
  /-- `double sphere_param[NUM_PARAMS]`: radius, offset 1, 2, 3 -/
  sphere_param : ℕ → Dbl
  /-- `Vector3f samples[NUM_SAMPLES]` -/
  samples : ℕ → Vector3f_double
  /-- `uint8_t count` -/
  count : ℕ
  /-- `uint8_t passed` -/
  passed : ℕ
  /-- `bool complete` -/
  complete : Bool
  /-- `bool fault` -/
  fault : Bool
  /-- `uint8_t instance` -/
  inst : ℕ

/-- The local array `inv[16]` of `inverse4x4` in `double` arithmetic: the
sixteen cofactor expressions, written in the order of the source, every
operation rounded. -/
def inverse4x4_inv_double (m : ℕ → Dbl) : ℕ → Dbl := fun i =>
  match i with
  | 0 => m 5 * m 10 * m 15 - m 5 * m 11 * m 14 - m 9 * m 6 * m 15
          + m 9 * m 7 * m 14 + m 13 * m 6 * m 11 - m 13 * m 7 * m 10
  | 4 => -m 4 * m 10 * m 15 + m 4 * m 11 * m 14 + m 8 * m 6 * m 15
          - m 8 * m 7 * m 14 - m 12 * m 6 * m 11 + m 12 * m 7 * m 10
  | 8 => m 4 * m 9 * m 15 - m 4 * m 11 * m 13 - m 8 * m 5 * m 15
          + m 8 * m 7 * m 13 + m 12 * m 5 * m 11 - m 12 * m 7 * m 9
  | 12 => -m 4 * m 9 * m 14 + m 4 * m 10 * m 13 + m 8 * m 5 * m 14
          - m 8 * m 6 * m 13 - m 12 * m 5 * m 10 + m 12 * m 6 * m 9
  | 1 => -m 1 * m 10 * m 15 + m 1 * m 11 * m 14 + m 9 * m 2 * m 15
          - m 9 * m 3 * m 14 - m 13 * m 2 * m 11 + m 13 * m 3 * m 10
  | 5 => m 0 * m 10 * m 15 - m 0 * m 11 * m 14 - m 8 * m 2 * m 15
          + m 8 * m 3 * m 14 + m 12 * m 2 * m 11 - m 12 * m 3 * m 10
  | 9 => -m 0 * m 9 * m 15 + m 0 * m 11 * m 13 + m 8 * m 1 * m 15
          - m 8 * m 3 * m 13 - m 12 * m 1 * m 11 + m 12 * m 3 * m 9
  | 13 => m 0 * m 9 * m 14 - m 0 * m 10 * m 13 - m 8 * m 1 * m 14
          + m 8 * m 2 * m 13 + m 12 * m 1 * m 10 - m 12 * m 2 * m 9
  | 2 => m 1 * m 6 * m 15 - m 1 * m 7 * m 14 - m 5 * m 2 * m 15
          + m 5 * m 3 * m 14 + m 13 * m 2 * m 7 - m 13 * m 3 * m 6
  | 6 => -m 0 * m 6 * m 15 + m 0 * m 7 * m 14 + m 4 * m 2 * m 15
          - m 4 * m 3 * m 14 - m 12 * m 2 * m 7 + m 12 * m 3 * m 6
  | 10 => m 0 * m 5 * m 15 - m 0 * m 7 * m 13 - m 4 * m 1 * m 15
          + m 4 * m 3 * m 13 + m 12 * m 1 * m 7 - m 12 * m 3 * m 5
  | 14 => -m 0 * m 5 * m 14 + m 0 * m 6 * m 13 + m 4 * m 1 * m 14
          - m 4 * m 2 * m 13 - m 12 * m 1 * m 6 + m 12 * m 2 * m 5
  | 3 => -m 1 * m 6 * m 11 + m 1 * m 7 * m 10 + m 5 * m 2 * m 11
          - m 5 * m 3 * m 10 - m 9 * m 2 * m 7 + m 9 * m 3 * m 6
  | 7 => m 0 * m 6 * m 11 - m 0 * m 7 * m 10 - m 4 * m 2 * m 11
          + m 4 * m 3 * m 10 + m 8 * m 2 * m 7 - m 8 * m 3 * m 6
  | 11 => -m 0 * m 5 * m 11 + m 0 * m 7 * m 9 + m 4 * m 1 * m 11
          - m 4 * m 3 * m 9 - m 8 * m 1 * m 7 + m 8 * m 3 * m 5
  | 15 => m 0 * m 5 * m 10 - m 0 * m 6 * m 9 - m 4 * m 1 * m 10
          + m 4 * m 2 * m 9 + m 8 * m 1 * m 6 - m 8 * m 2 * m 5
  | _ => Dbl.fin 0

/-- The local `det` of `inverse4x4` before the test `det == 0`, in `double`
arithmetic. -/
def inverse4x4_det_double (m : ℕ → Dbl) : Dbl :=
  m 0 * inverse4x4_inv_double m 0 + m 1 * inverse4x4_inv_double m 4
    + m 2 * inverse4x4_inv_double m 8 + m 3 * inverse4x4_inv_double m 12

/-- `bool Compass::inverse4x4(double m[], double invOut[])` in `double`
arithmetic: the returned flag and the contents of `invOut` on return. -/
def inverse4x4_double (m invOut : ℕ → Dbl) : Bool × (ℕ → Dbl) :=
  let inv := inverse4x4_inv_double m
  let det := inverse4x4_det_double m
  if Dbl.eq det (Dbl.fin 0) then (false, invOut)
  else
    let det := Dbl.fin 1 / det
    (true, (List.range 16).foldl (fun out i => setAt out i (inv i * det)) invOut)

/-- `void Compass::calc_JTJ_LI(struct Calibration &calib, double lambda)` in
`double` arithmetic. -/
def calc_JTJ_LI_double (calib : Calibration_double) (lambda : Dbl) : Calibration_double :=
  let calib := (List.range NUM_PARAMS).foldl
    (fun calib i =>
      (List.range NUM_PARAMS).foldl
        (fun calib j =>
          (List.range NUM_SAMPLES).foldl
            (fun calib k =>
              { calib with
                JTJ_LI := setAt calib.JTJ_LI (i * NUM_PARAMS + j)
                  (calib.JTJ_LI (i * NUM_PARAMS + j)
                    + calib.jacob (i * NUM_SAMPLES + k) * calib.jacob (j * NUM_SAMPLES + k)) })
            calib)
        calib)
    calib
  let calib := (List.range NUM_PARAMS).foldl
    (fun calib diag =>
      { calib with
        JTJ_LI := setAt calib.JTJ_LI (diag * NUM_PARAMS + diag)
          (calib.JTJ_LI (diag * NUM_PARAMS + diag) + lambda) })
    calib
  let r := inverse4x4_double calib.JTJ_LI calib.JTJ_LI
  if r.1 then { calib with JTJ_LI := r.2 }
  else { calib with JTJ_LI := r.2, fault := true }

/-- The parameter update `sphere_param[row] += JTFI[col] * JTJ_LI[row*4 + col]`
in `double` arithmetic. -/
def evaluatelm_update_double (calib : Calibration_double) : Calibration_double :=
  (List.range NUM_PARAMS).foldl
    (fun calib row =>
      (List.range NUM_PARAMS).foldl
        (fun calib col =>
          { calib with
            sphere_param := setAt calib.sphere_param row
              (calib.sphere_param row + calib.JTFI col * calib.JTJ_LI (row * 4 + col)) })
        calib)
    calib

/-- The parameter update with the inverse read column first, in `double`
arithmetic: `sphere_param[row] += JTFI[col] * JTJ_LI[col*4 + row]`. -/
def evaluatelm_update_transposed_double (calib : Calibration_double) : Calibration_double :=
  (List.range NUM_PARAMS).foldl
    (fun calib row =>
      (List.range NUM_PARAMS).foldl
        (fun calib col =>
          { calib with
            sphere_param := setAt calib.sphere_param row
              (calib.sphere_param row + calib.JTFI col * calib.JTJ_LI (col * 4 + row)) })
        calib)
    calib

/-- The array that `calc_JTJ_LI` hands to `inverse4x4` in `double` arithmetic:
to each of the sixteen cells of `JTJ_LI` the products of two Jacobian rows have
been added one sample after the other, and then `lambda` to the four cells of
the diagonal. -/
def normal_matrix_double (c : Calibration_double) (lambda : Dbl) : ℕ → Dbl := fun t =>
  if t % (NUM_PARAMS + 1) = 0 ∧ t / (NUM_PARAMS + 1) < NUM_PARAMS then
    (if t < NUM_PARAMS * NUM_PARAMS then
      (List.range NUM_SAMPLES).foldl
        (fun s k => s + c.jacob (t / NUM_PARAMS * NUM_SAMPLES + k)
          * c.jacob (t % NUM_PARAMS * NUM_SAMPLES + k)) (c.JTJ_LI t)
    else c.JTJ_LI t) + lambda
  else
    (if t < NUM_PARAMS * NUM_PARAMS then
      (List.range NUM_SAMPLES).foldl
        (fun s k => s + c.jacob (t / NUM_PARAMS * NUM_SAMPLES + k)
          * c.jacob (t % NUM_PARAMS * NUM_SAMPLES + k)) (c.JTJ_LI t)
    else c.JTJ_LI t)

/-! ## Concrete inputs used to instantiate the theorems -/

/-- An invertible matrix with determinant `-3`. -/
def exMatrix : ℕ → ℚ := fun i =>
  match i with
  | 0 => 2 | 1 => 1 | 2 => 0 | 3 => 0
  | 4 => 1 | 5 => 1 | 6 => 0 | 7 => 0
  | 8 => 0 | 9 => 0 | 10 => 1 | 11 => 2
  | 12 => 0 | 13 => 0 | 14 => 3 | 15 => 3
  | _ => 0

/-- A singular matrix: rows `0` and `2` are the same. -/
def exSingular : ℕ → ℚ := fun i =>
  match i with
  | 0 => 1 | 1 => 2 | 2 => 3 | 3 => 4
  | 4 => 0 | 5 => 1 | 6 => 0 | 7 => 0
  | 8 => 1 | 9 => 2 | 10 => 3 | 11 => 4
  | 12 => 0 | 13 => 0 | 14 => 0 | 15 => 1
  | _ => 0

/-- Six points of the unit sphere, visited in turn. -/
def exSample (i : ℕ) : Vector3f :=
  match i % 6 with
  | 0 => ⟨1, 0, 0⟩
  | 1 => ⟨0, 1, 0⟩
  | 2 => ⟨0, 0, 1⟩
  | 3 => ⟨-1, 0, 0⟩
  | 4 => ⟨0, -1, 0⟩
  | _ => ⟨0, 0, -1⟩

/-- A context whose samples lie on the unit sphere about the origin and whose
parameters are that sphere: radius `1`, offsets `0`. Its pass counter holds the
largest value of a `uint8_t`. -/
def exCalib : Calibration :=
  { JTJ_LI := fun _ => 0, JTFI := fun _ => 0, jacob := fun _ => 0, sample_fitness := fun _ => 0,
    sphere_param := fun i => if i = 0 then 1 else 0,
    samples := exSample, count := 100, passed := 255, complete := false, fault := false,
    inst := 0 }

/-- What `evaluatelm` returns on `exCalib` when every allocation succeeds. -/
@[irreducible]
def exResult : ℚ × Calibration :=
  (evaluatelm (fun _ => true) 1 exCalib).getD (0, exCalib)

/-- A healthy single-instance sensor whose `k`-th reading is
`(k, 100 * (k mod 2), 0)`: consecutive readings are more than `100` apart,
readings two steps apart are at distance `2`. -/
def exSensors : Sensors :=
  { get_count := 1
    healthy := fun _ _ => true
    get_field := fun k _ => ⟨k, 100 * ((k % 2 : ℕ) : ℚ), 0⟩ }

/-- The context array at the start of a collection round: every count is `0`. -/
def exStart : ℕ → Calibration := fun _ => { exCalib with count := 0 }

/-- The context array that `collect_samples` returns on `exSensors`. -/
@[irreducible]
def exCollected : ℕ → Calibration :=
  (collect_samples exSensors 100 exStart).getD exStart

/-- The state of `collect_samples` on `exSensors` after the first reading has
been stored. -/
def exCollect : CollectState :=
  { calib := fun _ => { exCalib with samples := fun _ => ⟨0, 0, 0⟩, count := 1 }
    sampling_over_cnt := 0
    reads := 1 }

/-- A session with one healthy instance fed by `exSensors` in every round,
in which every scratch allocation fails. -/
def exSession : Session :=
  { get_count := 1
    healthy := fun _ _ _ => true
    get_field := fun _ k _ => ⟨k, 100 * ((k % 2 : ℕ) : ℚ), 0⟩
    alloc_ok := fun _ _ _ => false }

/-- The state in which `magnetometer_calib` returns on `exSession`. -/
@[irreducible]
def exEnd : SessionEnd :=
  (magnetometer_calib_run exSession 100 true exStart).getD
    { result := true, iters := 0, faulted := false, calib := exStart }

/-- A context like `exCalib` with the radius `-1`: its magnitude is `1`, and
the perturbed radius `-1 + JACOB_DELTA` has magnitude below `1`. -/
def exNegRadius : Calibration :=
  { exCalib with sphere_param := fun i => if i = 0 then -1 else 0 }

/-- The context `exCalib` after one passed round: `passed = 1`. -/
def exOnePass : Calibration := { exCalib with passed := 1 }

/-- The context `exOnePass` with a fault flag left set before the call:
`fault = true`, `passed = 1`, `complete = false`. -/
def exStalePass : Calibration := { exOnePass with fault := true }

/-- A point of the circle of radius `100` about the origin in the plane
`z = 0`, on alternating sides of the origin for successive `p`. -/
def exRing (p : ℕ) : Vector3f :=
  if p % 2 = 0 then
    ⟨100 * (1 - ((p : ℚ) + 2) * ((p : ℚ) + 2)) / (1 + ((p : ℚ) + 2) * ((p : ℚ) + 2)),
      200 * ((p : ℚ) + 2) / (1 + ((p : ℚ) + 2) * ((p : ℚ) + 2)), 0⟩
  else
    ⟨-(100 * (1 - ((p : ℚ) + 2) * ((p : ℚ) + 2)) / (1 + ((p : ℚ) + 2) * ((p : ℚ) + 2))),
      -(200 * ((p : ℚ) + 2) / (1 + ((p : ℚ) + 2) * ((p : ℚ) + 2))), 0⟩

/-- A session with two healthy instances whose allocations all succeed. The
two instances are read in turn, so reading `k` belongs to pass `k / 2`. In
round `r`, instance `0` reads `(p, 100 * (p mod 2), r)` in pass `p`; instance `1`
reads the point `exRing p`. -/
def exTwo : Session :=
  { get_count := 2
    healthy := fun _ _ _ => true
    get_field := fun r k i =>
      if i = 0 then ⟨((k / 2 : ℕ) : ℚ), 100 * (((k / 2) % 2 : ℕ) : ℚ), (r : ℚ)⟩
      else exRing (k / 2)
    alloc_ok := fun _ _ _ => true }

/-- A state of the session `exTwo` between two rounds. Instance `0` is complete
(`passed = 2`) and holds the hundred samples of the feed of round `1`; the
other instance is not complete, has `passed = 0`, the parameters of the sphere
of radius `100` about the origin and a hundred samples on it. -/
def exMid : ℕ → Calibration := fun i =>
  if i = 0 then
    { exCalib with
      sphere_param := fun _ => 20
      samples := fun j => ⟨(j : ℚ), 100 * ((j % 2 : ℕ) : ℚ), 1⟩
      passed := 2, complete := true }
  else
    { exCalib with
      sphere_param := fun t => if t = 0 then 100 else 0
      samples := exRing
      passed := 0, inst := 1 }

/-- The context array with which the round of `exTwo` entered in the state
`exMid` ends. -/
@[irreducible]
def exMidNext : ℕ → Calibration :=
  round_end ((magnetometer_calib_round exTwo 100 2 exMid).getD (Sum.inl exMid))

/-- The context array that `collect_samples` returns in the round of `exTwo`
entered in the state `exMid`. -/
@[irreducible]
def exMidCollected : ℕ → Calibration :=
  (collect_samples (exTwo.sensors 2) 100
    ((List.range exTwo.get_count).foldl
      (fun calib i => setAt calib i { (calib i) with count := 0 }) exMid)).getD exMid

/-! ### Inputs in `double` arithmetic -/

/-- The diagonal matrix with diagonal `2^200, 2^-600, 2^-600, 2^1000`: its
determinant is `1`, and each entry is a `double` value. -/
def exUnderflow : ℕ → ℚ := fun i =>
  match i with
  | 0 => 2 ^ 200
  | 5 => 1 / 2 ^ 600
  | 10 => 1 / 2 ^ 600
  | 15 => 2 ^ 1000
  | _ => 0

/-- A matrix of integers whose rows `0` and `2` are the same. -/
def exTwoRows : ℕ → ℚ := fun i =>
  match i with
  | 0 => 1 | 1 => 5 | 2 => 2 | 3 => 2
  | 4 => 1 | 5 => 134217729 | 6 => 3 | 7 => 2
  | 8 => 1 | 9 => 5 | 10 => 2 | 11 => 2
  | 12 => 5 | 13 => 3 | 14 => 5 | 15 => 268435461
  | _ => 0

/-- A context in `double` arithmetic with all work arrays zero, radius `1`,
offsets `0`, and every sample at the origin. -/
def exFlat_double : Calibration_double :=
  { JTJ_LI := fun _ => Dbl.fin 0, JTFI := fun _ => Dbl.fin 0, jacob := fun _ => Dbl.fin 0,
    sample_fitness := fun _ => Dbl.fin 0,
    sphere_param := fun i => if i = 0 then Dbl.fin 1 else Dbl.fin 0,
    samples := fun _ => ⟨Dbl.fin 0, Dbl.fin 0, Dbl.fin 0⟩,
    count := 100, passed := 0, complete := false, fault := false, inst := 0 }

/-- The context `exFlat_double` with a Jacobian whose only non-zero column is
that of sample `0`, with the entries `1, 1, 1, 3`, and with `JTFI = (0, 1, 0, 0)`. -/
def exSkew_double : Calibration_double :=
  { exFlat_double with
    jacob := fun t => if t = 0 then Dbl.fin 1 else if t = 100 then Dbl.fin 1
      else if t = 200 then Dbl.fin 1 else if t = 300 then Dbl.fin 3 else Dbl.fin 0
    JTFI := fun i => if i = 1 then Dbl.fin 1 else Dbl.fin 0 }

/-- The matrix `calc_JTJ_LI` forms in `double` arithmetic from `exSkew_double`
with `lambda = 1.0 / 5`: the entries `1, 1, 1, 3` give the products
`1, 3, 9`, and the diagonal receives the `double` nearest to `0.2`. -/
def exSkewM : ℕ → Dbl := fun t =>
  ([Dbl.fin (5404319552844595 / 4503599627370496), Dbl.fin 1, Dbl.fin 1, Dbl.fin 3,
    Dbl.fin 1, Dbl.fin (5404319552844595 / 4503599627370496), Dbl.fin 1, Dbl.fin 3,
    Dbl.fin 1, Dbl.fin 1, Dbl.fin (5404319552844595 / 4503599627370496), Dbl.fin 3,
    Dbl.fin 3, Dbl.fin 3, Dbl.fin 3, Dbl.fin (2589569785738035 / 281474976710656)]
    : List Dbl).getD t (Dbl.fin 0)

/-! ## Arrays and loops -/

theorem setAt_same {α : Type} (a : ℕ → α) (i : ℕ) (v : α) : setAt a i v i = v := by
  simp [setAt]

theorem setAt_other {α : Type} (a : ℕ → α) (i j : ℕ) (v : α) (h : j ≠ i) :
    setAt a i v j = a j := by
  simp [setAt, h]

/-- A loop that stores `f i` into cell `i` for `i < n`. -/
theorem foldl_setAt_apply {α : Type} (f : ℕ → α) (n : ℕ) (a : ℕ → α) (j : ℕ) :
    (List.range n).foldl (fun out i => setAt out i (f i)) a j = if j < n then f j else a j := by
  induction n with
  | zero => simp
  | succ n ih =>
    rw [List.range_succ, List.foldl_append]
    simp only [List.foldl_cons, List.foldl_nil, setAt]
    by_cases h : j = n
    · subst h; simp
    · rw [if_neg h, ih]
      by_cases h2 : j < n
      · simp [h2, Nat.lt_succ_of_lt h2]
      · have : ¬ j < n + 1 := by omega
        simp [h2, this]

/-- An invariant of the loop body is an invariant of the loop. -/
theorem foldl_range_invariant {σ : Type} (P : σ → Prop) (f : σ → ℕ → σ) (n : ℕ)
    (hf : ∀ s i, i < n → P s → P (f s i)) (s : σ) (hs : P s) :
    P ((List.range n).foldl f s) := by
  induction n with
  | zero => simpa using hs
  | succ n ih =>
    rw [List.range_succ, List.foldl_append]
    simp only [List.foldl_cons, List.foldl_nil]
    exact hf _ n (Nat.lt_succ_self n)
      (ih (fun s i hi hp => hf s i (Nat.lt_succ_of_lt hi) hp))

/-! ## `inverse4x4` -/

theorem inverse4x4_det_eq (m : ℕ → ℚ) : inverse4x4_det m = (toMatrix m).det := by
  have h0 : (toMatrix m).submatrix Fin.succ (Fin.succAbove (0 : Fin 4)) =
      !![m 5, m 6, m 7; m 9, m 10, m 11; m 13, m 14, m 15] := by
    ext i j; fin_cases i <;> fin_cases j <;> rfl
  have h1 : (toMatrix m).submatrix Fin.succ (Fin.succAbove (1 : Fin 4)) =
      !![m 4, m 6, m 7; m 8, m 10, m 11; m 12, m 14, m 15] := by
    ext i j; fin_cases i <;> fin_cases j <;> rfl
  have h2 : (toMatrix m).submatrix Fin.succ (Fin.succAbove (2 : Fin 4)) =
      !![m 4, m 5, m 7; m 8, m 9, m 11; m 12, m 13, m 15] := by
    ext i j; fin_cases i <;> fin_cases j <;> rfl
  have h3 : (toMatrix m).submatrix Fin.succ (Fin.succAbove (3 : Fin 4)) =
      !![m 4, m 5, m 6; m 8, m 9, m 10; m 12, m 13, m 14] := by
    ext i j; fin_cases i <;> fin_cases j <;> rfl
  have e0 : toMatrix m 0 0 = m 0 := rfl
  have e1 : toMatrix m 0 1 = m 1 := rfl
  have e2 : toMatrix m 0 2 = m 2 := rfl
  have e3 : toMatrix m 0 3 = m 3 := rfl
  have v3 : ((3 : Fin 4) : ℕ) = 3 := rfl
  rw [Matrix.det_succ_row_zero, Fin.sum_univ_four, h0, h1, h2, h3, e0, e1, e2, e3]
  simp [Matrix.det_fin_three, inverse4x4_det, inverse4x4_inv, v3]
  ring

set_option maxHeartbeats 1000000 in
theorem inverse4x4_mul_inv (m : ℕ → ℚ) (i j : ℕ) (hi : i < 4) (hj : j < 4) :
    m (4 * i) * inverse4x4_inv m j + m (4 * i + 1) * inverse4x4_inv m (4 + j)
      + m (4 * i + 2) * inverse4x4_inv m (8 + j) + m (4 * i + 3) * inverse4x4_inv m (12 + j)
      = if i = j then inverse4x4_det m else 0 := by
  interval_cases i <;> interval_cases j <;>
    simp only [inverse4x4_det, inverse4x4_inv, Nat.reduceMul, Nat.reduceAdd, Nat.reduceEqDiff,
      if_true, if_false] <;> ring

set_option maxHeartbeats 1000000 in
theorem inverse4x4_inv_mul (m : ℕ → ℚ) (i j : ℕ) (hi : i < 4) (hj : j < 4) :
    inverse4x4_inv m (4 * i) * m j + inverse4x4_inv m (4 * i + 1) * m (4 + j)
      + inverse4x4_inv m (4 * i + 2) * m (8 + j) + inverse4x4_inv m (4 * i + 3) * m (12 + j)
      = if i = j then inverse4x4_det m else 0 := by
  interval_cases i <;> interval_cases j <;>
    simp only [inverse4x4_det, inverse4x4_inv, Nat.reduceMul, Nat.reduceAdd, Nat.reduceEqDiff,
      if_true, if_false] <;> ring

/-- The flag returned by `inverse4x4`. -/
theorem inverse4x4_fst (m invOut : ℕ → ℚ) :
    (inverse4x4 m invOut).1 = !decide (inverse4x4_det m = 0) := by
  unfold inverse4x4
  by_cases h : inverse4x4_det m = 0 <;> simp [h]

/-- The cells of `invOut` after a successful `inverse4x4`. -/
theorem inverse4x4_snd_apply (m invOut : ℕ → ℚ) (h : inverse4x4_det m ≠ 0) (j : ℕ) :
    (inverse4x4 m invOut).2 j
      = if j < 16 then inverse4x4_inv m j * (1 / inverse4x4_det m) else invOut j := by
  unfold inverse4x4
  simp only [h, if_false]
  exact foldl_setAt_apply (fun i => inverse4x4_inv m i * (1 / inverse4x4_det m)) 16 invOut j

/-- `invOut` is left alone by a failed `inverse4x4`. -/
theorem inverse4x4_snd_singular (m invOut : ℕ → ℚ) (h : inverse4x4_det m = 0) :
    (inverse4x4 m invOut).2 = invOut := by
  unfold inverse4x4
  simp [h]

theorem toMatrix_inverse4x4 (m invOut : ℕ → ℚ) (h : inverse4x4_det m ≠ 0) (i j : Fin 4) :
    toMatrix (inverse4x4 m invOut).2 i j
      = inverse4x4_inv m (4 * i.val + j.val) * (1 / inverse4x4_det m) := by
  have hlt : 4 * i.val + j.val < 16 := by omega
  simp only [toMatrix, Matrix.of_apply]
  rw [inverse4x4_snd_apply m invOut h, if_pos hlt]

/-- C1. For every 4x4 matrix `m` (row-major, exact arithmetic) whose determinant
is not zero, `inverse4x4` returns `true` and the matrix it leaves in `invOut` is
a two-sided inverse of `m`. -/
theorem inverse4x4_true_inverse (m invOut : ℕ → ℚ) (h : (toMatrix m).det ≠ 0) :
    (inverse4x4 m invOut).1 = true
      ∧ toMatrix m * toMatrix (inverse4x4 m invOut).2 = 1
      ∧ toMatrix (inverse4x4 m invOut).2 * toMatrix m = 1 := by
  have hd : inverse4x4_det m ≠ 0 := by rw [inverse4x4_det_eq]; exact h
  refine ⟨by simp [inverse4x4_fst, hd], ?_, ?_⟩
  · ext i j
    rw [Matrix.mul_apply, Fin.sum_univ_four]
    simp only [toMatrix_inverse4x4 m invOut hd]
    have key := inverse4x4_mul_inv m i.val j.val i.isLt j.isLt
    have v3 : ((3 : Fin 4) : ℕ) = 3 := rfl
    have v2 : ((2 : Fin 4) : ℕ) = 2 := rfl
    simp only [toMatrix, Matrix.of_apply, Fin.val_zero, Fin.val_one, v2, v3, Nat.reduceMul,
      mul_zero, zero_add, add_zero, mul_one, Matrix.one_apply, Fin.ext_iff]
    simp only [Fin.ext_iff] at key
    by_cases hij : i.val = j.val
    · rw [if_pos hij] at key ⊢
      field_simp
      linear_combination key
    · rw [if_neg hij] at key ⊢
      field_simp
      linear_combination key
  · ext i j
    rw [Matrix.mul_apply, Fin.sum_univ_four]
    simp only [toMatrix_inverse4x4 m invOut hd]
    have key := inverse4x4_inv_mul m i.val j.val i.isLt j.isLt
    have v3 : ((3 : Fin 4) : ℕ) = 3 := rfl
    have v2 : ((2 : Fin 4) : ℕ) = 2 := rfl
    simp only [toMatrix, Matrix.of_apply, Fin.val_zero, Fin.val_one, v2, v3, Nat.reduceMul,
      mul_zero, zero_add, add_zero, mul_one, Matrix.one_apply, Fin.ext_iff]
    by_cases hij : i.val = j.val
    · rw [if_pos hij] at key ⊢
      field_simp
      linear_combination key
    · rw [if_neg hij] at key ⊢
      field_simp
      linear_combination key

theorem exMatrix_det : inverse4x4_det exMatrix = -3 := by
  simp only [inverse4x4_det, inverse4x4_inv, exMatrix]
  norm_num

/-- C1 at `exMatrix`. -/
theorem inverse4x4_true_inverse_witness :
    (toMatrix exMatrix).det ≠ 0
      ∧ (inverse4x4 exMatrix (fun _ => 0)).1 = true
      ∧ toMatrix exMatrix * toMatrix (inverse4x4 exMatrix (fun _ => 0)).2 = 1
      ∧ toMatrix (inverse4x4 exMatrix (fun _ => 0)).2 * toMatrix exMatrix = 1 :=
  have h : (toMatrix exMatrix).det ≠ 0 := by
    rw [← inverse4x4_det_eq, exMatrix_det]; norm_num
  ⟨h, inverse4x4_true_inverse exMatrix (fun _ => 0) h⟩

/-- The amended C2. In exact arithmetic `inverse4x4` returns `false` exactly
when the determinant of its input is zero and `true` otherwise; so it returns
`false` for the all-zero matrix and for every matrix with two identical rows. -/
theorem inverse4x4_false_iff_singular :
    (∀ m invOut : ℕ → ℚ, ((inverse4x4 m invOut).1 = false ↔ (toMatrix m).det = 0)
        ∧ ((inverse4x4 m invOut).1 = true ↔ (toMatrix m).det ≠ 0))
      ∧ (∀ invOut : ℕ → ℚ, (inverse4x4 (fun _ => 0) invOut).1 = false)
      ∧ (∀ (m invOut : ℕ → ℚ) (i j : Fin 4), i ≠ j → toMatrix m i = toMatrix m j →
          (inverse4x4 m invOut).1 = false) := by
  have main : ∀ m invOut : ℕ → ℚ,
      ((inverse4x4 m invOut).1 = false ↔ (toMatrix m).det = 0) := by
    intro m invOut
    rw [inverse4x4_fst, ← inverse4x4_det_eq]
    by_cases h : inverse4x4_det m = 0 <;> simp [h]
  refine ⟨fun m invOut => ⟨main m invOut, ?_⟩, ?_, ?_⟩
  · rw [← Bool.not_eq_false, main m invOut]
  · intro invOut
    rw [main]
    have hz : toMatrix (fun _ => 0) = 0 := by
      ext i j; simp [toMatrix]
    rw [hz]
    exact Matrix.det_zero ⟨0⟩
  · intro m invOut i j hij hrow
    rw [main]
    exact Matrix.det_zero_of_row_eq hij hrow

/-- The amended C2 at `exSingular`, whose rows `0` and `2` coincide. -/
theorem inverse4x4_false_iff_singular_witness :
    (0 : Fin 4) ≠ 2 ∧ toMatrix exSingular 0 = toMatrix exSingular 2
      ∧ (inverse4x4 exSingular (fun _ => 0)).1 = false :=
  have hrow : toMatrix exSingular 0 = toMatrix exSingular 2 := by
    funext k; fin_cases k <;> rfl
  ⟨by decide, hrow,
    inverse4x4_false_iff_singular.2.2 exSingular (fun _ => 0) 0 2 (by decide) hrow⟩

/-! ## `sphere_fitness` and `square_sum` -/

/-- The radius as `sphere_fitness` leaves it. -/
theorem sphere_fitness_clamp_cases (r : ℚ) :
    (|r| < 1 ∧ (if |r| < 1 then (1 : ℚ) else r) = 1)
      ∨ (¬ |r| < 1 ∧ (if |r| < 1 then (1 : ℚ) else r) = r) := by
  by_cases h : |r| < 1
  · left; simp [h]
  · right; simp [h]

/-- The residual loop of `sphere_fitness` run for `n` slots: only
`sample_fitness` changes, slot `j < n` holds the residual of sample `j`. -/
theorem sphere_fitness_loop (a : ℚ) (n : ℕ) (c : Calibration) :
    (List.range n).foldl
      (fun calib i =>
        { calib with
          sample_fitness := setAt calib.sample_fitness i
            (1 - a * (((calib.samples i).x + calib.sphere_param 1)
                        * ((calib.samples i).x + calib.sphere_param 1)
                      + ((calib.samples i).y + calib.sphere_param 2)
                        * ((calib.samples i).y + calib.sphere_param 2)
                      + ((calib.samples i).z + calib.sphere_param 3)
                        * ((calib.samples i).z + calib.sphere_param 3))) })
      c
    = { c with
        sample_fitness := fun j =>
          if j < n then
            1 - a * (((c.samples j).x + c.sphere_param 1) * ((c.samples j).x + c.sphere_param 1)
                      + ((c.samples j).y + c.sphere_param 2) * ((c.samples j).y + c.sphere_param 2)
                      + ((c.samples j).z + c.sphere_param 3) * ((c.samples j).z + c.sphere_param 3))
          else c.sample_fitness j } := by
  induction n with
  | zero => simp
  | succ n ih =>
    rw [List.range_succ, List.foldl_append, ih]
    simp only [List.foldl_cons, List.foldl_nil]
    ext j <;> try rfl
    simp only [setAt]
    by_cases h : j = n
    · subst h; simp
    · by_cases h2 : j < n
      · simp [h, h2, Nat.lt_succ_of_lt h2]
      · have : ¬ j < n + 1 := by omega
        simp [h, h2, this]

/-- Closed form of `sphere_fitness`. -/
theorem sphere_fitness_eq (c : Calibration) :
    sphere_fitness c
      = { c with
          sphere_param :=
            if |c.sphere_param 0| < 1 then setAt c.sphere_param 0 1 else c.sphere_param
          sample_fitness := fun j =>
            if j < NUM_SAMPLES then
              1 - (if |c.sphere_param 0| < 1 then 1 else 1 / (c.sphere_param 0 * c.sphere_param 0))
                * (((c.samples j).x + c.sphere_param 1) * ((c.samples j).x + c.sphere_param 1)
                    + ((c.samples j).y + c.sphere_param 2) * ((c.samples j).y + c.sphere_param 2)
                    + ((c.samples j).z + c.sphere_param 3) * ((c.samples j).z + c.sphere_param 3))
            else c.sample_fitness j } := by
  unfold sphere_fitness
  simp only []
  rw [sphere_fitness_loop]
  by_cases h : |c.sphere_param 0| < 1
  · simp only [h, if_true]
    ext j <;> try rfl
  · simp only [h, if_false]

/-- C3. For every parameter vector and sample set, `sphere_fitness` stores in
each of the 100 slots `i` the residual `1 - a * ((x_i + o1)^2 + (y_i + o2)^2 +
(z_i + o3)^2)`, with `a = 1` if `|radius| < 1` on entry and `a = 1 / radius^2`
otherwise. -/
theorem sphere_fitness_residual (calib : Calibration) (i : Fin NUM_SAMPLES) :
    (sphere_fitness calib).sample_fitness i.val
      = 1 - (if |calib.sphere_param 0| < 1 then 1 else 1 / (calib.sphere_param 0) ^ 2)
          * (((calib.samples i.val).x + calib.sphere_param 1) ^ 2
              + ((calib.samples i.val).y + calib.sphere_param 2) ^ 2
              + ((calib.samples i.val).z + calib.sphere_param 3) ^ 2) := by
  rw [sphere_fitness_eq]
  simp only [i.isLt, if_true]
  ring_nf

theorem Calibration.frame_refl (c : Calibration) : c.frame c :=
  ⟨rfl, rfl, rfl, rfl, rfl⟩

theorem Calibration.frame_trans {c1 c2 c3 : Calibration} (h12 : c1.frame c2)
    (h23 : c2.frame c3) : c1.frame c3 := by
  obtain ⟨a1, a2, a3, a4, a5⟩ := h12
  obtain ⟨b1, b2, b3, b4, b5⟩ := h23
  exact ⟨b1.trans a1, b2.trans a2, b3.trans a3, b4.trans a4, b5.trans a5⟩

theorem Calibration.frameF_refl (c : Calibration) : c.frameF c :=
  ⟨c.frame_refl, rfl⟩

theorem Calibration.frameF_trans {c1 c2 c3 : Calibration} (h12 : c1.frameF c2)
    (h23 : c2.frameF c3) : c1.frameF c3 :=
  ⟨Calibration.frame_trans h12.1 h23.1, h23.2.trans h12.2⟩

theorem Calibration.frameF_sphere_param {c x : Calibration} (p : ℕ → ℚ) (h : c.frameF x) :
    c.frameF { x with sphere_param := p } :=
  h

/-- A loop over a context whose body keeps the frame and the fault flag keeps
them. -/
theorem foldl_frameF (c : Calibration) (f : Calibration → ℕ → Calibration) (n : ℕ)
    (hf : ∀ (s : Calibration) (i : ℕ), s.frameF (f s i)) (s : Calibration) (hs : c.frameF s) :
    c.frameF ((List.range n).foldl f s) :=
  foldl_range_invariant (fun x : Calibration => c.frameF x) f n
    (fun s i _ h => Calibration.frameF_trans h (hf s i)) s hs

theorem sphere_fitness_frameF (c : Calibration) : c.frameF (sphere_fitness c) := by
  rw [sphere_fitness_eq]
  exact ⟨⟨rfl, rfl, rfl, rfl, rfl⟩, rfl⟩

theorem evaluatelm_zero_frameF (c : Calibration) : c.frameF (evaluatelm_zero c) := by
  unfold evaluatelm_zero
  simp only []
  apply foldl_frameF c _ _ ?_ _ ?_
  · intro s _; exact ⟨⟨rfl, rfl, rfl, rfl, rfl⟩, rfl⟩
  apply foldl_frameF c _ _ ?_ _ ?_
  · intro s _; exact ⟨⟨rfl, rfl, rfl, rfl, rfl⟩, rfl⟩
  apply foldl_frameF c _ _ ?_ _ ?_
  · intro s _; exact ⟨⟨rfl, rfl, rfl, rfl, rfl⟩, rfl⟩
  exact c.frameF_refl

theorem calc_jacob_false (c : Calibration) :
    calc_jacob false c = { c with fault := true } := by
  simp [calc_jacob]

theorem calc_jacob_true_frameF (c : Calibration) : c.frameF (calc_jacob true c) := by
  unfold calc_jacob
  simp only [Bool.not_true, Bool.false_eq_true, if_false]
  apply foldl_frameF c _ _ ?_ _ (sphere_fitness_frameF c)
  intro s row
  have h1 : s.frameF { s with
      sphere_param := setAt s.sphere_param row (s.sphere_param row + JACOB_DELTA) } :=
    ⟨⟨rfl, rfl, rfl, rfl, rfl⟩, rfl⟩
  have h2 := Calibration.frameF_trans h1 (sphere_fitness_frameF _)
  apply Calibration.frameF_sphere_param
  apply foldl_frameF s _ _ ?_ _ h2
  intro t _; exact ⟨⟨rfl, rfl, rfl, rfl, rfl⟩, rfl⟩

theorem calc_jacob_frame (ok : Bool) (c : Calibration) : c.frame (calc_jacob ok c) := by
  cases ok
  · rw [calc_jacob_false]; exact ⟨rfl, rfl, rfl, rfl, rfl⟩
  · exact (calc_jacob_true_frameF c).1

theorem calc_jacob_fault (ok : Bool) (c : Calibration) :
    (calc_jacob ok c).fault = (!ok || c.fault) := by
  cases ok
  · rw [calc_jacob_false]; rfl
  · simpa using (calc_jacob_true_frameF c).2

theorem calc_JTJ_LI_frame (c : Calibration) (lambda : ℚ) : c.frame (calc_JTJ_LI c lambda) := by
  unfold calc_JTJ_LI
  simp only []
  have key : ∀ x : Calibration, c.frameF x →
      c.frame (if (inverse4x4 x.JTJ_LI x.JTJ_LI).1 = true
        then { x with JTJ_LI := (inverse4x4 x.JTJ_LI x.JTJ_LI).2 }
        else { x with JTJ_LI := (inverse4x4 x.JTJ_LI x.JTJ_LI).2, fault := true }) := by
    intro x hx
    split <;> exact hx.1
  apply key
  apply foldl_frameF c _ _ ?_ _ ?_
  · intro s _; exact ⟨⟨rfl, rfl, rfl, rfl, rfl⟩, rfl⟩
  apply foldl_frameF c _ _ ?_ _ c.frameF_refl
  intro s i
  apply foldl_frameF s _ _ ?_ _ s.frameF_refl
  intro s j
  apply foldl_frameF s _ _ ?_ _ s.frameF_refl
  intro s _; exact ⟨⟨rfl, rfl, rfl, rfl, rfl⟩, rfl⟩

theorem calc_JTFI_frameF (c : Calibration) : c.frameF (calc_JTFI c) := by
  unfold calc_JTFI
  simp only []
  apply foldl_frameF c _ _ ?_ _ (sphere_fitness_frameF c)
  intro s i
  apply foldl_frameF s _ _ ?_ _ s.frameF_refl
  intro s _; exact ⟨⟨rfl, rfl, rfl, rfl, rfl⟩, rfl⟩

theorem evaluatelm_update_frameF (c : Calibration) : c.frameF (evaluatelm_update c) := by
  unfold evaluatelm_update
  apply foldl_frameF c _ _ ?_ _ c.frameF_refl
  intro s i
  apply foldl_frameF s _ _ ?_ _ s.frameF_refl
  intro s _; exact ⟨⟨rfl, rfl, rfl, rfl, rfl⟩, rfl⟩

/-! ## `square_sum` and the residuals -/

theorem foldl_add_eq_sum (g : ℕ → ℚ) (n : ℕ) :
    (List.range n).foldl (fun acc i => acc + g i) 0 = ∑ i in Finset.range n, g i := by
  induction n with
  | zero => simp
  | succ n ih =>
    rw [List.range_succ, List.foldl_append, ih, Finset.sum_range_succ]
    simp

theorem square_sum_eq (c : Calibration) :
    square_sum c = ∑ i in Finset.range NUM_SAMPLES, c.sample_fitness i * c.sample_fitness i := by
  unfold square_sum
  exact foldl_add_eq_sum (fun i => c.sample_fitness i * c.sample_fitness i) NUM_SAMPLES

/-- `sphere_fitness` applied to its own result changes nothing. -/
theorem sphere_fitness_idem (c : Calibration) :
    sphere_fitness (sphere_fitness c) = sphere_fitness c := by
  rw [sphere_fitness_eq (sphere_fitness c), sphere_fitness_eq c]
  by_cases h : |c.sphere_param 0| < 1
  · simp only [h, if_true]
    ext j <;> try rfl
    · simp only [setAt]
      by_cases hj : j < NUM_SAMPLES
      · simp [hj]
      · simp [hj]
  · simp only [h, if_false]
    ext j <;> try rfl
    by_cases hj : j < NUM_SAMPLES
    · simp [hj]
    · simp [hj]

/-- The residuals depend on the samples and the four parameters only. -/
theorem sphere_fitness_congr (c1 c2 : Calibration) (hs : c1.samples = c2.samples)
    (hp : ∀ i, i < NUM_PARAMS → c1.sphere_param i = c2.sphere_param i) (j : ℕ)
    (hj : j < NUM_SAMPLES) :
    (sphere_fitness c1).sample_fitness j = (sphere_fitness c2).sample_fitness j := by
  rw [sphere_fitness_eq, sphere_fitness_eq]
  simp only [hj, if_true]
  rw [hs, hp 0 (by decide), hp 1 (by decide), hp 2 (by decide), hp 3 (by decide)]

/-- A loop that stores `g i` into `sphere_param[i]` for `i < n`. -/
theorem foldl_set_sphere_param (g : ℕ → ℚ) (n : ℕ) (c : Calibration) :
    (List.range n).foldl
      (fun calib i => { calib with sphere_param := setAt calib.sphere_param i (g i) }) c
    = { c with sphere_param := fun j => if j < n then g j else c.sphere_param j } := by
  induction n with
  | zero => simp
  | succ n ih =>
    rw [List.range_succ, List.foldl_append, ih]
    simp only [List.foldl_cons, List.foldl_nil]
    ext j <;> try rfl
    simp only [setAt]
    by_cases h : j = n
    · subst h; simp
    · by_cases h2 : j < n
      · simp [h, h2, Nat.lt_succ_of_lt h2]
      · have : ¬ j < n + 1 := by omega
        simp [h, h2, this]

/-! ## One pass of the optimiser -/

/-- What one pass through the body of the loop of `evaluatelm` does. -/
theorem evaluatelm_body_spec (ok : Bool) (s : LMState) :
    match evaluatelm_body ok s with
    | LMStep.fault c => c.fault = true ∧ s.calib.frame c
    | LMStep.brk s1 => evaluatelm_step_ok s s1 ∧ square_sum s1.calib < AIMED_FITNESS / 2
    | LMStep.next s1 => evaluatelm_step_ok s s1 ∧ ¬ square_sum s1.calib < AIMED_FITNESS / 2 := by
  have hz := evaluatelm_zero_frameF s.calib
  have hj := calc_jacob_frame ok (evaluatelm_zero s.calib)
  have hjf := calc_jacob_fault ok (evaluatelm_zero s.calib)
  have hJ := calc_JTJ_LI_frame (calc_jacob ok (evaluatelm_zero s.calib)) s.lambda
  have hF := calc_JTFI_frameF (calc_JTJ_LI (calc_jacob ok (evaluatelm_zero s.calib)) s.lambda)
  have hU := evaluatelm_update_frameF
    (calc_JTFI (calc_JTJ_LI (calc_jacob ok (evaluatelm_zero s.calib)) s.lambda))
  have hS := sphere_fitness_frameF (evaluatelm_update
    (calc_JTFI (calc_JTJ_LI (calc_jacob ok (evaluatelm_zero s.calib)) s.lambda)))
  have hI := sphere_fitness_idem (evaluatelm_update
    (calc_JTFI (calc_JTJ_LI (calc_jacob ok (evaluatelm_zero s.calib)) s.lambda)))
  have h01 : s.calib.frame (calc_jacob ok (evaluatelm_zero s.calib)) :=
    Calibration.frame_trans hz.1 hj
  have h02 := Calibration.frame_trans h01 hJ
  have hFUS := Calibration.frameF_trans (Calibration.frameF_trans hF hU) hS
  have h03 := Calibration.frame_trans h02 hFUS.1
  have hfault := hFUS.2
  unfold evaluatelm_body
  simp only []
  generalize sphere_fitness (evaluatelm_update
    (calc_JTFI (calc_JTJ_LI (calc_jacob ok (evaluatelm_zero s.calib)) s.lambda))) = c3 at *
  generalize calc_JTJ_LI (calc_jacob ok (evaluatelm_zero s.calib)) s.lambda = c2 at *
  generalize calc_jacob ok (evaluatelm_zero s.calib) = c1 at *
  by_cases h1 : c1.fault = true
  · simp only [h1, if_true]
    exact ⟨trivial, h01⟩
  by_cases h2 : c2.fault = true
  · simp only [h1, h2, if_true, if_false]
    exact ⟨h2, h02⟩
  have h1f : c1.fault = false := by simpa using h1
  have h2f : c2.fault = false := by simpa using h2
  simp only [h1f, h2f, Bool.false_eq_true, if_false]
  have hs0 : s.calib.fault = false := by
    rw [hz.2] at hjf
    cases hsf : s.calib.fault
    · rfl
    · rw [hsf, Bool.or_true] at hjf
      exact absurd hjf h1
  have hc3 : c3.fault = false := by
    rw [hfault]
    simpa using h2
  have hgb : ∀ (gb : ℕ → ℚ) (i : ℕ), i < NUM_PARAMS →
      (List.range NUM_PARAMS).foldl (fun global_best j => setAt global_best j (c3.sphere_param j))
        gb i = c3.sphere_param i := by
    intro gb i hi
    rw [foldl_setAt_apply (fun j => c3.sphere_param j) NUM_PARAMS gb i, if_pos hi]
  unfold evaluatelm_step_ok
  by_cases h4 : square_sum c3 ≥ s.last_fitness
  · by_cases h5 : square_sum c3 < s.global_best_f
    · by_cases h3 : square_sum c3 < AIMED_FITNESS / 2
      · simp only [if_pos h3, if_pos h4, if_pos h5]
        exact ⟨⟨hs0, hc3, h03, hI, Or.inl ⟨h4, trivial, trivial, trivial⟩,
          Or.inl ⟨h5, trivial, hgb s.global_best⟩⟩, h3⟩
      · simp only [if_neg h3, if_pos h4, if_pos h5]
        exact ⟨⟨hs0, hc3, h03, hI, Or.inl ⟨h4, trivial, trivial, trivial⟩,
          Or.inl ⟨h5, trivial, hgb s.global_best⟩⟩, h3⟩
    · by_cases h3 : square_sum c3 < AIMED_FITNESS / 2
      · simp only [if_pos h3, if_pos h4, if_neg h5]
        exact ⟨⟨hs0, hc3, h03, hI, Or.inl ⟨h4, trivial, trivial, trivial⟩,
          Or.inr ⟨not_lt.mp h5, trivial, trivial⟩⟩, h3⟩
      · simp only [if_neg h3, if_pos h4, if_neg h5]
        exact ⟨⟨hs0, hc3, h03, hI, Or.inl ⟨h4, trivial, trivial, trivial⟩,
          Or.inr ⟨not_lt.mp h5, trivial, trivial⟩⟩, h3⟩
  · by_cases h5 : square_sum c3 < s.global_best_f
    · by_cases h3 : square_sum c3 < AIMED_FITNESS / 2
      · simp only [if_pos h3, if_neg h4, if_pos h5]
        exact ⟨⟨hs0, hc3, h03, hI, Or.inr ⟨not_le.mp h4, trivial, trivial, trivial⟩,
          Or.inl ⟨h5, trivial, hgb s.global_best⟩⟩, h3⟩
      · simp only [if_neg h3, if_neg h4, if_pos h5]
        exact ⟨⟨hs0, hc3, h03, hI, Or.inr ⟨not_le.mp h4, trivial, trivial, trivial⟩,
          Or.inl ⟨h5, trivial, hgb s.global_best⟩⟩, h3⟩
    · by_cases h3 : square_sum c3 < AIMED_FITNESS / 2
      · simp only [if_pos h3, if_neg h4, if_neg h5]
        exact ⟨⟨hs0, hc3, h03, hI, Or.inr ⟨not_le.mp h4, trivial, trivial, trivial⟩,
          Or.inr ⟨not_lt.mp h5, trivial, trivial⟩⟩, h3⟩
      · simp only [if_neg h3, if_neg h4, if_neg h5]
        exact ⟨⟨hs0, hc3, h03, hI, Or.inr ⟨not_le.mp h4, trivial, trivial, trivial⟩,
          Or.inr ⟨not_lt.mp h5, trivial, trivial⟩⟩, h3⟩

/-! ## Order of the samples -/

/-- The residual of slot `j` of the permuted buffer is the residual of slot
`σ j` of the original one. -/
theorem sphere_fitness_permute_samples (σ : Equiv.Perm (Fin NUM_SAMPLES)) (c : Calibration)
    (j : Fin NUM_SAMPLES) :
    (sphere_fitness (permute_samples σ c)).sample_fitness j.val
      = (sphere_fitness c).sample_fitness (σ j).val := by
  rw [sphere_fitness_eq, sphere_fitness_eq]
  simp only [permute_samples, j.isLt, (σ j).isLt, if_true, dif_pos]

/-- C13. For every parameter vector (with `|radius| >= 1` or not) and every
permutation of the `100`-sample sequence, the residual vector computed by
`sphere_fitness` on the permuted sequence is the same permutation of the
original residual vector, and the sum of squares `square_sum` of the residuals
is the same. -/
theorem sphere_fitness_permutation (σ : Equiv.Perm (Fin NUM_SAMPLES)) (calib : Calibration) :
    square_sum (sphere_fitness (permute_samples σ calib)) = square_sum (sphere_fitness calib)
      ∧ ∀ j : Fin NUM_SAMPLES,
          (sphere_fitness (permute_samples σ calib)).sample_fitness j.val
            = (sphere_fitness calib).sample_fitness (σ j).val := by
  refine ⟨?_, sphere_fitness_permute_samples σ calib⟩
  rw [square_sum_eq, square_sum_eq]
  rw [← Fin.sum_univ_eq_sum_range
      (fun i => (sphere_fitness (permute_samples σ calib)).sample_fitness i
        * (sphere_fitness (permute_samples σ calib)).sample_fitness i) NUM_SAMPLES,
    ← Fin.sum_univ_eq_sum_range
      (fun i => (sphere_fitness calib).sample_fitness i
        * (sphere_fitness calib).sample_fitness i) NUM_SAMPLES]
  rw [← Equiv.sum_comp σ
    (fun i : Fin NUM_SAMPLES => (sphere_fitness calib).sample_fitness i.val
        * (sphere_fitness calib).sample_fitness i.val)]
  apply Finset.sum_congr rfl
  intro j _
  rw [sphere_fitness_permute_samples σ calib j]

/-! ## The loop of `evaluatelm` -/

theorem evaluatelm_loop_unfold (alloc_ok : ℕ → Bool) (fuel n : ℕ) (s : LMState) :
    evaluatelm_loop alloc_ok fuel n s =
      if s.gradient_power ≤ GRADIENT_POW_LIMIT then
        match fuel with
        | 0 => none
        | fuel + 1 =>
          match evaluatelm_body (alloc_ok n) s with
          | LMStep.fault calib => some (Sum.inl calib)
          | LMStep.brk s1 => some (Sum.inr s1)
          | LMStep.next s1 => evaluatelm_loop alloc_ok fuel (n + 1) s1
      else some (Sum.inr s) := by
  cases fuel <;> rw [evaluatelm_loop]

theorem evaluatelm_init_calib (c : Calibration) :
    (evaluatelm_init c).calib = sphere_fitness c := by
  unfold evaluatelm_init; simp only []

theorem evaluatelm_init_global_best_f (c : Calibration) :
    (evaluatelm_init c).global_best_f = square_sum (sphere_fitness c) := by
  unfold evaluatelm_init; simp only []

theorem evaluatelm_init_gradient_power (c : Calibration) :
    (evaluatelm_init c).gradient_power = 0 := by
  unfold evaluatelm_init; simp only []

/-- A `return -1` leaves the fault flag set. -/
theorem evaluatelm_loop_fault (alloc_ok : ℕ → Bool) (fuel : ℕ) :
    ∀ (n : ℕ) (s : LMState) (c : Calibration),
      evaluatelm_loop alloc_ok fuel n s = some (Sum.inl c) →
      c.fault = true ∧ s.calib.frame c := by
  induction fuel with
  | zero =>
    intro n s c hloop
    rw [evaluatelm_loop_unfold] at hloop
    by_cases hgp : s.gradient_power ≤ GRADIENT_POW_LIMIT <;> simp [hgp] at hloop
  | succ fuel ih =>
    intro n s c hloop
    rw [evaluatelm_loop_unfold] at hloop
    by_cases hgp : s.gradient_power ≤ GRADIENT_POW_LIMIT
    · simp only [hgp, if_true] at hloop
      have hspec := evaluatelm_body_spec (alloc_ok n) s
      cases hbody : evaluatelm_body (alloc_ok n) s with
      | fault c1 =>
        rw [hbody] at hloop hspec
        simp only [Option.some.injEq, Sum.inl.injEq] at hloop
        rw [← hloop]; exact hspec
      | brk s1 =>
        rw [hbody] at hloop
        simp at hloop
      | next s1 =>
        rw [hbody] at hloop hspec
        simp only at hloop
        have h := ih (n + 1) s1 c hloop
        exact ⟨h.1, Calibration.frame_trans hspec.1.2.2.1 h.2⟩
    · simp [hgp] at hloop

/-- On leaving the loop without a fault the fault flag is as on entering it,
and it is clear if a pass was made. -/
theorem evaluatelm_loop_ok (alloc_ok : ℕ → Bool) (fuel : ℕ) :
    ∀ (n : ℕ) (s sf : LMState),
      evaluatelm_loop alloc_ok fuel n s = some (Sum.inr sf) →
      s.calib.frame sf.calib
        ∧ (sf.calib.fault = false ∨ (sf = s ∧ ¬ s.gradient_power ≤ GRADIENT_POW_LIMIT)) := by
  induction fuel with
  | zero =>
    intro n s sf hloop
    rw [evaluatelm_loop_unfold] at hloop
    by_cases hgp : s.gradient_power ≤ GRADIENT_POW_LIMIT
    · simp [hgp] at hloop
    · simp only [hgp, if_false, Option.some.injEq, Sum.inr.injEq] at hloop
      rw [← hloop]
      exact ⟨s.calib.frame_refl, Or.inr ⟨rfl, hgp⟩⟩
  | succ fuel ih =>
    intro n s sf hloop
    rw [evaluatelm_loop_unfold] at hloop
    by_cases hgp : s.gradient_power ≤ GRADIENT_POW_LIMIT
    · simp only [hgp, if_true] at hloop
      have hspec := evaluatelm_body_spec (alloc_ok n) s
      cases hbody : evaluatelm_body (alloc_ok n) s with
      | fault c1 =>
        rw [hbody] at hloop
        simp at hloop
      | brk s1 =>
        rw [hbody] at hloop hspec
        simp only [Option.some.injEq, Sum.inr.injEq] at hloop
        rw [← hloop]
        exact ⟨hspec.1.2.2.1, Or.inl hspec.1.2.1⟩
      | next s1 =>
        rw [hbody] at hloop hspec
        simp only at hloop
        have h := ih (n + 1) s1 sf hloop
        refine ⟨Calibration.frame_trans hspec.1.2.2.1 h.1, Or.inl ?_⟩
        rcases h.2 with h2 | ⟨h2, _⟩
        · exact h2
        · rw [h2]; exact hspec.1.2.1
    · simp only [hgp, if_false, Option.some.injEq, Sum.inr.injEq] at hloop
      rw [← hloop]
      exact ⟨s.calib.frame_refl, Or.inr ⟨rfl, hgp⟩⟩

/-! ## The normal matrix of `calc_JTJ_LI` -/

/-- The innermost loop of `calc_JTJ_LI` run for `n` samples adds to cell
`i * 4 + j` the sum of the products of the Jacobian rows `i` and `j`. -/
theorem calc_JTJ_LI_inner (i j n : ℕ) (c : Calibration) :
    (List.range n).foldl
      (fun calib k =>
        { calib with
          JTJ_LI := setAt calib.JTJ_LI (i * NUM_PARAMS + j)
            (calib.JTJ_LI (i * NUM_PARAMS + j)
              + calib.jacob (i * NUM_SAMPLES + k) * calib.jacob (j * NUM_SAMPLES + k)) })
      c
    = { c with
        JTJ_LI := fun t =>
          if t = i * NUM_PARAMS + j then
            c.JTJ_LI t + ∑ k in Finset.range n,
              c.jacob (i * NUM_SAMPLES + k) * c.jacob (j * NUM_SAMPLES + k)
          else c.JTJ_LI t } := by
  induction n with
  | zero =>
    simp only [List.range_zero, List.foldl_nil, Finset.range_zero, Finset.sum_empty, add_zero]
    ext t <;> try rfl
    simp only []
    split_ifs <;> rfl
  | succ n ih =>
    rw [List.range_succ, List.foldl_append, ih]
    simp only [List.foldl_cons, List.foldl_nil, Finset.sum_range_succ]
    ext t <;> try rfl
    simp only [setAt]
    by_cases h : t = i * NUM_PARAMS + j
    · simp only [h, if_true]
      ring
    · simp only [h, if_false]

/-- The middle loop of `calc_JTJ_LI` run for `m` columns. -/
theorem calc_JTJ_LI_middle (i m : ℕ) (c : Calibration) :
    (List.range m).foldl
      (fun calib j =>
        (List.range NUM_SAMPLES).foldl
          (fun calib k =>
            { calib with
              JTJ_LI := setAt calib.JTJ_LI (i * NUM_PARAMS + j)
                (calib.JTJ_LI (i * NUM_PARAMS + j)
                  + calib.jacob (i * NUM_SAMPLES + k) * calib.jacob (j * NUM_SAMPLES + k)) })
          calib)
      c
    = { c with
        JTJ_LI := fun t =>
          if i * NUM_PARAMS ≤ t ∧ t < i * NUM_PARAMS + m then
            c.JTJ_LI t + ∑ k in Finset.range NUM_SAMPLES,
              c.jacob (i * NUM_SAMPLES + k) * c.jacob ((t - i * NUM_PARAMS) * NUM_SAMPLES + k)
          else c.JTJ_LI t } := by
  induction m with
  | zero =>
    simp only [List.range_zero, List.foldl_nil]
    ext t <;> try rfl
    simp only []
    rw [if_neg (by omega)]
  | succ m ih =>
    rw [show List.range (m + 1) = List.range m ++ [m] from List.range_succ m,
      List.foldl_append, ih]
    simp only [List.foldl_cons, List.foldl_nil, calc_JTJ_LI_inner]
    ext t <;> try rfl
    simp only []
    by_cases h : t = i * NUM_PARAMS + m
    · subst h
      rw [if_pos rfl, if_neg (by omega), if_pos (by omega)]
      simp only [Nat.add_sub_cancel_left]
    · rw [if_neg h]
      by_cases h2 : i * NUM_PARAMS ≤ t ∧ t < i * NUM_PARAMS + m
      · rw [if_pos h2, if_pos (by omega)]
      · rw [if_neg h2, if_neg (by omega)]

/-- The three accumulation loops of `calc_JTJ_LI` run for `n` rows. -/
theorem calc_JTJ_LI_outer (n : ℕ) (c : Calibration) :
    (List.range n).foldl
      (fun calib i =>
        (List.range NUM_PARAMS).foldl
          (fun calib j =>
            (List.range NUM_SAMPLES).foldl
              (fun calib k =>
                { calib with
                  JTJ_LI := setAt calib.JTJ_LI (i * NUM_PARAMS + j)
                    (calib.JTJ_LI (i * NUM_PARAMS + j)
                      + calib.jacob (i * NUM_SAMPLES + k) * calib.jacob (j * NUM_SAMPLES + k)) })
              calib)
          calib)
      c
    = { c with
        JTJ_LI := fun t =>
          if t < n * NUM_PARAMS then
            c.JTJ_LI t + ∑ k in Finset.range NUM_SAMPLES,
              c.jacob (t / NUM_PARAMS * NUM_SAMPLES + k)
                * c.jacob (t % NUM_PARAMS * NUM_SAMPLES + k)
          else c.JTJ_LI t } := by
  induction n with
  | zero =>
    simp only [List.range_zero, List.foldl_nil]
    ext t <;> rfl
  | succ n ih =>
    rw [show List.range (n + 1) = List.range n ++ [n] from List.range_succ n,
      List.foldl_append, ih]
    simp only [List.foldl_cons, List.foldl_nil, calc_JTJ_LI_middle]
    ext t <;> try rfl
    simp only []
    by_cases h : n * NUM_PARAMS ≤ t ∧ t < n * NUM_PARAMS + NUM_PARAMS
    · have h1 : t / NUM_PARAMS = n := by
        have := h.1; have := h.2
        simp only [NUM_PARAMS] at *
        omega
      have h2 : t % NUM_PARAMS = t - n * NUM_PARAMS := by
        have := h.1; have := h.2
        simp only [NUM_PARAMS] at *
        omega
      rw [if_pos h, if_neg (by simp only [NUM_PARAMS] at *; omega), if_pos (by simp only [NUM_PARAMS] at *; omega), h1, h2]
    · rw [if_neg h]
      by_cases h3 : t < n * NUM_PARAMS
      · rw [if_pos h3, if_pos (by simp only [NUM_PARAMS] at *; omega)]
      · rw [if_neg h3, if_neg (by simp only [NUM_PARAMS] at *; omega)]

/-- The loop of `calc_JTJ_LI` that adds `lambda` along the diagonal, run for
`n` rows. -/
theorem calc_JTJ_LI_diag (lambda : ℚ) (n : ℕ) (c : Calibration) :
    (List.range n).foldl
      (fun calib diag =>
        { calib with
          JTJ_LI := setAt calib.JTJ_LI (diag * NUM_PARAMS + diag)
            (calib.JTJ_LI (diag * NUM_PARAMS + diag) + lambda) })
      c
    = { c with
        JTJ_LI := fun t =>
          if t % (NUM_PARAMS + 1) = 0 ∧ t / (NUM_PARAMS + 1) < n then c.JTJ_LI t + lambda
          else c.JTJ_LI t } := by
  induction n with
  | zero =>
    simp only [List.range_zero, List.foldl_nil]
    ext t <;> try rfl
    simp
  | succ n ih =>
    rw [show List.range (n + 1) = List.range n ++ [n] from List.range_succ n,
      List.foldl_append, ih]
    simp only [List.foldl_cons, List.foldl_nil]
    ext t <;> try rfl
    simp only [setAt]
    by_cases h : t = n * NUM_PARAMS + n
    · subst h
      have e1 : (n * NUM_PARAMS + n) % (NUM_PARAMS + 1) = 0 := by
        simp only [NUM_PARAMS]; omega
      have e2 : (n * NUM_PARAMS + n) / (NUM_PARAMS + 1) = n := by
        simp only [NUM_PARAMS]; omega
      rw [if_pos rfl, if_neg (by rw [e2]; omega), if_pos (by rw [e1, e2]; omega)]
    · rw [if_neg h]
      have hne : ¬ (t % (NUM_PARAMS + 1) = 0 ∧ t / (NUM_PARAMS + 1) = n) := by
        simp only [NUM_PARAMS] at *
        omega
      by_cases h2 : t % (NUM_PARAMS + 1) = 0 ∧ t / (NUM_PARAMS + 1) < n
      · rw [if_pos h2, if_pos ⟨h2.1, by simp only [NUM_PARAMS] at *; omega⟩]
      · rw [if_neg h2, if_neg (by
          intro h3
          exact h2 ⟨h3.1, by
            have : t / (NUM_PARAMS + 1) ≠ n := fun h4 => hne ⟨h3.1, h4⟩
            omega⟩)]

/-- The determinant of a Gram matrix with a positive multiple of the identity
added is positive. -/
theorem gram_add_diag_det_pos (J : Matrix (Fin 4) (Fin 100) ℚ) (lambda : ℚ) (h : 0 < lambda) :
    0 < (J * J.transpose + Matrix.diagonal (fun _ => lambda)).det := by
  have hcast : ((J * J.transpose + Matrix.diagonal (fun _ => lambda)).det : ℝ)
      = ((J.map (Rat.cast : ℚ → ℝ)) * (J.map (Rat.cast : ℚ → ℝ)).conjTranspose
          + Matrix.diagonal (fun _ => (lambda : ℝ))).det := by
    have := (Rat.castHom ℝ).map_det (J * J.transpose + Matrix.diagonal (fun _ => lambda))
    rw [Rat.coe_castHom] at this
    rw [this]
    congr 1
    ext i j
    simp [Matrix.mul_apply, Matrix.diagonal_apply, Matrix.map_apply]
    split_ifs <;> simp
  have hpd : ((J.map (Rat.cast : ℚ → ℝ)) * (J.map (Rat.cast : ℚ → ℝ)).conjTranspose
      + Matrix.diagonal (fun _ => (lambda : ℝ))).PosDef := by
    rw [add_comm]
    apply Matrix.PosDef.add_posSemidef
    · exact Matrix.PosDef.diagonal (fun _ => by exact_mod_cast h)
    · exact Matrix.posSemidef_self_mul_conjTranspose _
  have := hpd.det_pos
  rw [← hcast] at this
  exact_mod_cast this

/-- Closed form of `calc_JTJ_LI`: the normal matrix is formed and inverted in
place; the fault flag is set if it is singular. -/
theorem calc_JTJ_LI_eq (c : Calibration) (lambda : ℚ) :
    calc_JTJ_LI c lambda
      = if (inverse4x4 (normal_matrix c lambda) (normal_matrix c lambda)).1 = true then
          { c with JTJ_LI := (inverse4x4 (normal_matrix c lambda) (normal_matrix c lambda)).2 }
        else
          { c with
            JTJ_LI := (inverse4x4 (normal_matrix c lambda) (normal_matrix c lambda)).2
            fault := true } := by
  unfold calc_JTJ_LI
  simp only []
  rw [calc_JTJ_LI_outer, calc_JTJ_LI_diag]
  have hM : (fun t =>
      if t % (NUM_PARAMS + 1) = 0 ∧ t / (NUM_PARAMS + 1) < NUM_PARAMS then
        (if t < NUM_PARAMS * NUM_PARAMS then
          c.JTJ_LI t + ∑ k in Finset.range NUM_SAMPLES,
            c.jacob (t / NUM_PARAMS * NUM_SAMPLES + k)
              * c.jacob (t % NUM_PARAMS * NUM_SAMPLES + k)
        else c.JTJ_LI t) + lambda
      else
        (if t < NUM_PARAMS * NUM_PARAMS then
          c.JTJ_LI t + ∑ k in Finset.range NUM_SAMPLES,
            c.jacob (t / NUM_PARAMS * NUM_SAMPLES + k)
              * c.jacob (t % NUM_PARAMS * NUM_SAMPLES + k)
        else c.JTJ_LI t)) = normal_matrix c lambda := by
    funext t
    unfold normal_matrix
    by_cases h : t % (NUM_PARAMS + 1) = 0 ∧ t / (NUM_PARAMS + 1) < NUM_PARAMS
    · rw [if_pos h, if_pos h]
    · rw [if_neg h, if_neg h, add_zero]
  simp only [hM]

/-- The normal matrix as a matrix: the content of `JTJ_LI` on entry, plus the
Jacobian times its transpose, plus `lambda` on the diagonal. -/
theorem toMatrix_normal_matrix (c : Calibration) (lambda : ℚ) :
    toMatrix (normal_matrix c lambda)
      = toMatrix c.JTJ_LI + jacobMatrix c * (jacobMatrix c).transpose
          + Matrix.diagonal (fun _ => lambda) := by
  ext i j
  have hi := i.isLt
  have hj := j.isLt
  have h16 : 4 * i.val + j.val < NUM_PARAMS * NUM_PARAMS := by simp only [NUM_PARAMS]; omega
  have hdiv : (4 * i.val + j.val) / NUM_PARAMS = i.val := by simp only [NUM_PARAMS]; omega
  have hmod : (4 * i.val + j.val) % NUM_PARAMS = j.val := by simp only [NUM_PARAMS]; omega
  simp only [toMatrix, normal_matrix, Matrix.of_apply, Matrix.add_apply, Matrix.mul_apply,
    Matrix.transpose_apply, Matrix.diagonal_apply, jacobMatrix, if_pos h16, hdiv, hmod]
  have hsum : ∑ k in Finset.range NUM_SAMPLES,
      c.jacob (i.val * NUM_SAMPLES + k) * c.jacob (j.val * NUM_SAMPLES + k)
      = ∑ k : Fin 100, c.jacob (i.val * NUM_SAMPLES + k.val) * c.jacob (j.val * NUM_SAMPLES + k.val) :=
    (Fin.sum_univ_eq_sum_range
      (fun k => c.jacob (i.val * NUM_SAMPLES + k) * c.jacob (j.val * NUM_SAMPLES + k)) 100).symm
  rw [hsum]
  have hd : ((4 * i.val + j.val) % (NUM_PARAMS + 1) = 0
      ∧ (4 * i.val + j.val) / (NUM_PARAMS + 1) < NUM_PARAMS) ↔ i = j := by
    rw [Fin.ext_iff]
    simp only [NUM_PARAMS]
    omega
  by_cases hij : i = j
  · rw [if_pos (hd.mpr hij), if_pos hij]
  · rw [if_neg (fun h => hij (hd.mp h)), if_neg hij]

/-- With `JTJ_LI` zeroed on entry and positive damping the normal matrix has a
positive determinant. -/
theorem normal_matrix_det_pos (c : Calibration) (lambda : ℚ)
    (hz : ∀ t, t < NUM_PARAMS * NUM_PARAMS → c.JTJ_LI t = 0) (hl : 0 < lambda) :
    0 < inverse4x4_det (normal_matrix c lambda) := by
  rw [inverse4x4_det_eq, toMatrix_normal_matrix]
  have h0 : toMatrix c.JTJ_LI = 0 := by
    ext i j
    have hi := i.isLt
    have hj := j.isLt
    simp only [toMatrix, Matrix.of_apply, Matrix.zero_apply]
    exact hz _ (by simp only [NUM_PARAMS]; omega)
  rw [h0, zero_add]
  exact gram_add_diag_det_pos _ lambda hl

/-- With `JTJ_LI` zeroed on entry and positive damping `calc_JTJ_LI` raises no
fault and writes `JTJ_LI` only. -/
theorem calc_JTJ_LI_pos (c : Calibration) (lambda : ℚ)
    (hz : ∀ t, t < NUM_PARAMS * NUM_PARAMS → c.JTJ_LI t = 0) (hl : 0 < lambda) :
    calc_JTJ_LI c lambda
      = { c with JTJ_LI := (inverse4x4 (normal_matrix c lambda) (normal_matrix c lambda)).2 } := by
  have hdet := normal_matrix_det_pos c lambda hz hl
  have hflag : (inverse4x4 (normal_matrix c lambda) (normal_matrix c lambda)).1 = true := by
    rw [inverse4x4_fst]
    simp [ne_of_gt hdet]
  rw [calc_JTJ_LI_eq, if_pos hflag]

/-! ## `calc_JTJ_LI` -/

/-- The matrix left in `invOut` by a successful `inverse4x4` is a right inverse
of the input. -/
theorem inverse4x4_mul_eq_one (m invOut : ℕ → ℚ) (hd : inverse4x4_det m ≠ 0) :
    toMatrix m * toMatrix (inverse4x4 m invOut).2 = 1 := by
  ext i j
  rw [Matrix.mul_apply, Fin.sum_univ_four]
  simp only [toMatrix_inverse4x4 m invOut hd]
  have key := inverse4x4_mul_inv m i.val j.val i.isLt j.isLt
  have v3 : ((3 : Fin 4) : ℕ) = 3 := rfl
  have v2 : ((2 : Fin 4) : ℕ) = 2 := rfl
  simp only [toMatrix, Matrix.of_apply, Fin.val_zero, Fin.val_one, v2, v3, Nat.reduceMul,
    mul_zero, zero_add, add_zero, mul_one, Matrix.one_apply, Fin.ext_iff]
  simp only [Fin.ext_iff] at key
  by_cases hij : i.val = j.val
  · rw [if_pos hij] at key ⊢
    field_simp
    linear_combination key
  · rw [if_neg hij] at key ⊢
    field_simp
    linear_combination key

/-- The cells of the normal matrix when `JTJ_LI` is zero on entry. -/
theorem normal_matrix_apply (c : Calibration) (lambda : ℚ)
    (hz : ∀ t, t < NUM_PARAMS * NUM_PARAMS → c.JTJ_LI t = 0) (i j : ℕ) (hi : i < 4)
    (hj : j < 4) :
    normal_matrix c lambda (i * 4 + j)
      = (∑ k in Finset.range 100, c.jacob (i * 100 + k) * c.jacob (j * 100 + k))
        + (if i = j then lambda else 0) := by
  have h16 : i * 4 + j < NUM_PARAMS * NUM_PARAMS := by simp only [NUM_PARAMS]; omega
  have hdiv : (i * 4 + j) / NUM_PARAMS = i := by simp only [NUM_PARAMS]; omega
  have hmod : (i * 4 + j) % NUM_PARAMS = j := by simp only [NUM_PARAMS]; omega
  have hd : ((i * 4 + j) % (NUM_PARAMS + 1) = 0
      ∧ (i * 4 + j) / (NUM_PARAMS + 1) < NUM_PARAMS) ↔ i = j := by
    simp only [NUM_PARAMS]
    omega
  unfold normal_matrix
  rw [if_pos h16, hz _ h16, zero_add, hdiv, hmod]
  by_cases hij : i = j
  · rw [if_pos (hd.mpr hij), if_pos hij]
  · rw [if_neg (fun h => hij (hd.mp h)), if_neg hij]

/-- The amended C16. In exact arithmetic `calc_JTJ_LI`, entered with `JTJ_LI`
all zero, forms the 4x4 matrix `M` with `M[i][j]` the sum over `k` in `0..99`
of `jacob[i*100+k] * jacob[j*100+k]`, plus `lambda` when `i = j`
(`normal_matrix`).
If `det M` is not zero it overwrites `JTJ_LI` with the two-sided inverse of `M`
and leaves `fault` as it is, and the result is the one `inverse4x4` writes into
any separate buffer; if `det M = 0` it sets `fault` and leaves `JTJ_LI` equal
to `M`. -/
theorem calc_JTJ_LI_normal_inverse (calib : Calibration) (lambda : ℚ)
    (hz : ∀ t, t < 16 → calib.JTJ_LI t = 0) :
    (∀ i j, i < 4 → j < 4 →
        normal_matrix calib lambda (i * 4 + j)
          = (∑ k in Finset.range 100, calib.jacob (i * 100 + k) * calib.jacob (j * 100 + k))
            + (if i = j then lambda else 0))
      ∧ ((toMatrix (normal_matrix calib lambda)).det ≠ 0 →
          toMatrix (normal_matrix calib lambda)
              * toMatrix (calc_JTJ_LI calib lambda).JTJ_LI = 1
            ∧ toMatrix (calc_JTJ_LI calib lambda).JTJ_LI
              * toMatrix (normal_matrix calib lambda) = 1
            ∧ (calc_JTJ_LI calib lambda).fault = calib.fault
            ∧ ∀ (out : ℕ → ℚ) (t : ℕ), t < 16 →
                (calc_JTJ_LI calib lambda).JTJ_LI t
                  = (inverse4x4 (normal_matrix calib lambda) out).2 t)
      ∧ ((toMatrix (normal_matrix calib lambda)).det = 0 →
          (calc_JTJ_LI calib lambda).fault = true
            ∧ ∀ t, t < 16 → (calc_JTJ_LI calib lambda).JTJ_LI t = normal_matrix calib lambda t) := by
  refine ⟨fun i j hi hj => normal_matrix_apply calib lambda hz i j hi hj, ?_, ?_⟩
  · intro hdet
    have hd : inverse4x4_det (normal_matrix calib lambda) ≠ 0 := by
      rw [inverse4x4_det_eq]; exact hdet
    have hflag : (inverse4x4 (normal_matrix calib lambda) (normal_matrix calib lambda)).1
        = true := by
      rw [inverse4x4_fst]; simp [hd]
    have hres : calc_JTJ_LI calib lambda = { calib with
        JTJ_LI := (inverse4x4 (normal_matrix calib lambda) (normal_matrix calib lambda)).2 } := by
      rw [calc_JTJ_LI_eq, if_pos hflag]
    have hright := inverse4x4_mul_eq_one (normal_matrix calib lambda)
      (normal_matrix calib lambda) hd
    rw [hres]
    refine ⟨hright, Matrix.mul_eq_one_comm.mp hright, rfl, ?_⟩
    intro out t ht
    show (inverse4x4 (normal_matrix calib lambda) (normal_matrix calib lambda)).2 t = _
    rw [inverse4x4_snd_apply _ _ hd, inverse4x4_snd_apply _ _ hd, if_pos ht, if_pos ht]
  · intro hdet
    have hd : inverse4x4_det (normal_matrix calib lambda) = 0 := by
      rw [inverse4x4_det_eq]; exact hdet
    have hflag : ¬ (inverse4x4 (normal_matrix calib lambda) (normal_matrix calib lambda)).1
        = true := by
      rw [inverse4x4_fst]; simp [hd]
    have hres : calc_JTJ_LI calib lambda = { calib with
        JTJ_LI := (inverse4x4 (normal_matrix calib lambda) (normal_matrix calib lambda)).2
        fault := true } := by
      rw [calc_JTJ_LI_eq, if_neg hflag]
    rw [hres]
    refine ⟨rfl, fun t _ => ?_⟩
    show (inverse4x4 (normal_matrix calib lambda) (normal_matrix calib lambda)).2 t = _
    rw [inverse4x4_snd_singular _ _ hd]

/-- The amended C16 at `exCalib`, whose `JTJ_LI` and Jacobian are zero, with `lambda = 1`:
the cell in row `0`, column `0` of the matrix formed is `1`. -/
theorem calc_JTJ_LI_normal_inverse_witness :
    (∀ t, t < 16 → exCalib.JTJ_LI t = 0)
      ∧ normal_matrix exCalib 1 (0 * 4 + 0)
          = (∑ k in Finset.range 100, exCalib.jacob (0 * 100 + k) * exCalib.jacob (0 * 100 + k))
            + (if 0 = 0 then 1 else 0) :=
  ⟨fun _ _ => rfl,
    (calc_JTJ_LI_normal_inverse exCalib 1 (fun _ _ => rfl)).1 0 0 (by decide) (by decide)⟩

/-! ## `evaluatelm` -/

/-- The two ways `evaluatelm` returns. -/
theorem evaluatelm_cases (alloc_ok : ℕ → Bool) (fuel : ℕ) (calib : Calibration)
    (r : ℚ × Calibration) (hret : evaluatelm alloc_ok fuel calib = some r) :
    (evaluatelm_loop alloc_ok fuel 0 (evaluatelm_init calib) = some (Sum.inl r.2) ∧ r.1 = -1)
      ∨ ∃ sf, evaluatelm_loop alloc_ok fuel 0 (evaluatelm_init calib) = some (Sum.inr sf)
          ∧ r.1 = sf.global_best_f
          ∧ r.2 = { sf.calib with
              sphere_param := fun j =>
                if j < NUM_PARAMS then sf.global_best j else sf.calib.sphere_param j } := by
  unfold evaluatelm at hret
  cases hloop : evaluatelm_loop alloc_ok fuel 0 (evaluatelm_init calib) with
  | none => rw [hloop] at hret; simp at hret
  | some x =>
    rw [hloop] at hret
    cases x with
    | inl c =>
      simp only [Option.some.injEq] at hret
      left
      rw [← hret]
      exact ⟨rfl, rfl⟩
    | inr sf =>
      simp only [Option.some.injEq] at hret
      right
      refine ⟨sf, rfl, ?_, ?_⟩
      · rw [← hret]
      · rw [← hret]
        exact foldl_set_sphere_param sf.global_best NUM_PARAMS sf.calib

/-- The fault flag on return tells which way `evaluatelm` returned. -/
theorem evaluatelm_fault_iff (alloc_ok : ℕ → Bool) (fuel : ℕ) (calib : Calibration)
    (r : ℚ × Calibration) (hret : evaluatelm alloc_ok fuel calib = some r) :
    (r.2.fault = true ↔
      evaluatelm_loop alloc_ok fuel 0 (evaluatelm_init calib) = some (Sum.inl r.2)) := by
  rcases evaluatelm_cases alloc_ok fuel calib r hret with ⟨hl, _⟩ | ⟨sf, hl, _, hc⟩
  · exact ⟨fun _ => hl, fun _ => (evaluatelm_loop_fault alloc_ok fuel 0 _ _ hl).1⟩
  · have hok := (evaluatelm_loop_ok alloc_ok fuel 0 _ sf hl).2
    have hf : r.2.fault = false := by
      rw [hc]
      rcases hok with h | ⟨_, h⟩
      · exact h
      · rw [evaluatelm_init_gradient_power] at h
        exact absurd (by decide : (0 : ℤ) ≤ GRADIENT_POW_LIMIT) h
    constructor
    · intro h; rw [hf] at h; exact absurd h (by decide)
    · intro h; rw [hl] at h; simp at h

theorem evaluatelm_raised_unfold (alloc_ok : ℕ → Bool) (fuel n : ℕ) (s : LMState) :
    evaluatelm_raised alloc_ok fuel n s =
      if s.gradient_power ≤ GRADIENT_POW_LIMIT then
        match fuel with
        | 0 => false
        | fuel + 1 =>
          evaluatelm_raises (alloc_ok n) s ||
            match evaluatelm_body (alloc_ok n) s with
            | LMStep.next s1 => evaluatelm_raised alloc_ok fuel (n + 1) s1
            | _ => false
      else false := by
  cases fuel <;> rw [evaluatelm_raised]

/-- A pass entered with the flag clear returns through `return -1` exactly
when a fault is raised in it. -/
theorem evaluatelm_body_fault_iff (ok : Bool) (s : LMState) (hs : s.calib.fault = false) :
    (∃ c, evaluatelm_body ok s = LMStep.fault c) ↔ evaluatelm_raises ok s = true := by
  have hjf := calc_jacob_fault ok (evaluatelm_zero s.calib)
  rw [(evaluatelm_zero_frameF s.calib).2, hs, Bool.or_false] at hjf
  unfold evaluatelm_raises evaluatelm_body
  simp only []
  generalize sphere_fitness (evaluatelm_update
    (calc_JTFI (calc_JTJ_LI (calc_jacob ok (evaluatelm_zero s.calib)) s.lambda))) = c3 at *
  generalize calc_JTJ_LI (calc_jacob ok (evaluatelm_zero s.calib)) s.lambda = c2 at *
  generalize calc_jacob ok (evaluatelm_zero s.calib) = c1 at *
  cases ok
  · simp only [Bool.not_false] at hjf
    simp [hjf]
  · simp only [Bool.not_true] at hjf
    cases h2 : c2.fault
    · simp only [hjf, Bool.false_eq_true, if_false, Bool.not_true, Bool.not_false,
        Bool.and_false, Bool.or_false, iff_false, not_exists]
      intro c
      split_ifs <;> simp
    · simp [hjf]

/-- With the flag clear on entering the loop, the loop is left through
`return -1` exactly when a fault is raised in one of its passes. -/
theorem evaluatelm_loop_fault_iff (alloc_ok : ℕ → Bool) (fuel : ℕ) :
    ∀ (n : ℕ) (s : LMState) (x : Calibration ⊕ LMState), s.calib.fault = false →
      evaluatelm_loop alloc_ok fuel n s = some x →
      ((∃ c, x = Sum.inl c) ↔ evaluatelm_raised alloc_ok fuel n s = true) := by
  induction fuel with
  | zero =>
    intro n s x _ hloop
    rw [evaluatelm_loop_unfold] at hloop
    rw [evaluatelm_raised_unfold]
    by_cases hgp : s.gradient_power ≤ GRADIENT_POW_LIMIT
    · simp [hgp] at hloop
    · simp only [hgp, if_false, Option.some.injEq] at hloop
      simp [hgp, ← hloop]
  | succ fuel ih =>
    intro n s x hs hloop
    rw [evaluatelm_loop_unfold] at hloop
    rw [evaluatelm_raised_unfold]
    by_cases hgp : s.gradient_power ≤ GRADIENT_POW_LIMIT
    · simp only [hgp, if_true] at hloop ⊢
      have hspec := evaluatelm_body_spec (alloc_ok n) s
      have hiff := evaluatelm_body_fault_iff (alloc_ok n) s hs
      cases hbody : evaluatelm_body (alloc_ok n) s with
      | fault c =>
        rw [hbody] at hloop hiff
        simp only [Option.some.injEq] at hloop
        have hr : evaluatelm_raises (alloc_ok n) s = true := hiff.mp ⟨c, rfl⟩
        simp [hr, ← hloop]
      | brk s1 =>
        rw [hbody] at hloop hiff
        simp only [Option.some.injEq] at hloop
        have hr : evaluatelm_raises (alloc_ok n) s = false := by
          cases h : evaluatelm_raises (alloc_ok n) s
          · rfl
          · obtain ⟨c, hc⟩ := hiff.mpr h
            simp at hc
        simp [hr, ← hloop]
      | next s1 =>
        rw [hbody] at hloop hiff hspec
        simp only at hloop
        have hr : evaluatelm_raises (alloc_ok n) s = false := by
          cases h : evaluatelm_raises (alloc_ok n) s
          · rfl
          · obtain ⟨c, hc⟩ := hiff.mpr h
            simp at hc
        simp only [hr, Bool.false_or]
        exact ih (n + 1) s1 x hspec.1.2.1 hloop
    · simp only [hgp, if_false, Option.some.injEq] at hloop
      simp [hgp, ← hloop]

theorem foldl_zero_jacob (n : ℕ) (c : Calibration) :
    (List.range n).foldl (fun calib j => { calib with jacob := setAt calib.jacob j 0 }) c
      = { c with jacob := fun t => if t < n then 0 else c.jacob t } := by
  induction n with
  | zero => simp
  | succ n ih =>
    rw [List.range_succ, List.foldl_append, ih]
    simp only [List.foldl_cons, List.foldl_nil]
    ext t <;> try rfl
    simp only [setAt]
    by_cases h : t = n
    · subst h; simp
    · by_cases h2 : t < n
      · simp [h, h2, Nat.lt_succ_of_lt h2]
      · have : ¬ t < n + 1 := by omega
        simp [h, h2, this]

theorem foldl_zero_JTJ_LI (n : ℕ) (c : Calibration) :
    (List.range n).foldl (fun calib j => { calib with JTJ_LI := setAt calib.JTJ_LI j 0 }) c
      = { c with JTJ_LI := fun t => if t < n then 0 else c.JTJ_LI t } := by
  induction n with
  | zero => simp
  | succ n ih =>
    rw [List.range_succ, List.foldl_append, ih]
    simp only [List.foldl_cons, List.foldl_nil]
    ext t <;> try rfl
    simp only [setAt]
    by_cases h : t = n
    · subst h; simp
    · by_cases h2 : t < n
      · simp [h, h2, Nat.lt_succ_of_lt h2]
      · have : ¬ t < n + 1 := by omega
        simp [h, h2, this]

theorem foldl_zero_JTFI (n : ℕ) (c : Calibration) :
    (List.range n).foldl (fun calib j => { calib with JTFI := setAt calib.JTFI j 0 }) c
      = { c with JTFI := fun t => if t < n then 0 else c.JTFI t } := by
  induction n with
  | zero => simp
  | succ n ih =>
    rw [List.range_succ, List.foldl_append, ih]
    simp only [List.foldl_cons, List.foldl_nil]
    ext t <;> try rfl
    simp only [setAt]
    by_cases h : t = n
    · subst h; simp
    · by_cases h2 : t < n
      · simp [h, h2, Nat.lt_succ_of_lt h2]
      · have : ¬ t < n + 1 := by omega
        simp [h, h2, this]

/-- The three clearing loops at the head of a pass of `evaluatelm`. -/
theorem evaluatelm_zero_eq (c : Calibration) :
    evaluatelm_zero c
      = { c with
          jacob := fun t => if t < NUM_PARAMS * NUM_SAMPLES then 0 else c.jacob t
          JTJ_LI := fun t => if t < NUM_PARAMS * NUM_PARAMS then 0 else c.JTJ_LI t
          JTFI := fun t => if t < NUM_PARAMS then 0 else c.JTFI t } := by
  unfold evaluatelm_zero
  simp only []
  rw [foldl_zero_jacob, foldl_zero_JTJ_LI, foldl_zero_JTFI]

/-- Where the radius is at least `1`, `sphere_fitness` writes the residuals
only. -/
theorem sphere_fitness_noclamp (c : Calibration) (h : ¬ |c.sphere_param 0| < 1) :
    (sphere_fitness c).sphere_param = c.sphere_param
      ∧ (sphere_fitness c).JTJ_LI = c.JTJ_LI ∧ (sphere_fitness c).JTFI = c.JTFI := by
  rw [sphere_fitness_eq]
  simp only [h, if_false]
  exact ⟨trivial, trivial, trivial⟩

/-- The column loop of `calc_jacob` for one row: the cells of that row of the
Jacobian receive the differences of the residuals. -/
theorem calc_jacob_cols (g : ℕ → ℚ) (row n : ℕ) (x : Calibration) :
    (List.range n).foldl
      (fun calib col =>
        { calib with
          jacob := setAt calib.jacob (row * NUM_SAMPLES + col) (g col - calib.sample_fitness col) })
      x
    = { x with
        jacob := fun t =>
          if row * NUM_SAMPLES ≤ t ∧ t < row * NUM_SAMPLES + n then
            g (t - row * NUM_SAMPLES) - x.sample_fitness (t - row * NUM_SAMPLES)
          else x.jacob t } := by
  induction n with
  | zero =>
    simp only [List.range_zero, List.foldl_nil]
    ext t <;> try rfl
    have : ¬ (row * NUM_SAMPLES ≤ t ∧ t < row * NUM_SAMPLES + 0) := by omega
    simp only [if_neg this]
  | succ n ih =>
    rw [List.range_succ, List.foldl_append, ih]
    simp only [List.foldl_cons, List.foldl_nil]
    ext t <;> try rfl
    simp only [setAt]
    by_cases h : t = row * NUM_SAMPLES + n
    · subst h
      have h1 : row * NUM_SAMPLES ≤ row * NUM_SAMPLES + n
          ∧ row * NUM_SAMPLES + n < row * NUM_SAMPLES + (n + 1) := by omega
      rw [if_pos rfl, if_pos h1, Nat.add_sub_cancel_left]
    · rw [if_neg h]
      by_cases h2 : row * NUM_SAMPLES ≤ t ∧ t < row * NUM_SAMPLES + n
      · have h3 : row * NUM_SAMPLES ≤ t ∧ t < row * NUM_SAMPLES + (n + 1) := by omega
        rw [if_pos h2, if_pos h3]
      · have h3 : ¬ (row * NUM_SAMPLES ≤ t ∧ t < row * NUM_SAMPLES + (n + 1)) := by omega
        rw [if_neg h2, if_neg h3]

/-- With no clamp of the radius in between, `calc_jacob` hands back the
parameters it was given, and it does not touch `JTJ_LI` and `JTFI`. -/
theorem calc_jacob_keep (c : Calibration)
    (h : 1 ≤ c.sphere_param 0 ∨ c.sphere_param 0 ≤ -1 - JACOB_DELTA) :
    (calc_jacob true c).sphere_param = c.sphere_param
      ∧ (calc_jacob true c).JTJ_LI = c.JTJ_LI ∧ (calc_jacob true c).JTFI = c.JTFI := by
  have hd : (0 : ℚ) < JACOB_DELTA := by unfold JACOB_DELTA; norm_num
  have hd1 : JACOB_DELTA < 1 := by unfold JACOB_DELTA; norm_num
  have h0 : ¬ |c.sphere_param 0| < 1 := by
    rw [abs_lt]; rintro ⟨h1, h2⟩
    rcases h with h | h <;> linarith
  unfold calc_jacob
  simp only [Bool.not_true, Bool.false_eq_true, if_false]
  apply foldl_range_invariant
    (fun x : Calibration => x.sphere_param = c.sphere_param
      ∧ x.JTJ_LI = c.JTJ_LI ∧ x.JTFI = c.JTFI) _ _ ?_ _ (sphere_fitness_noclamp c h0)
  intro s row _ hs
  obtain ⟨hsp, hsJ, hsF⟩ := hs
  have hne : ¬ |setAt s.sphere_param row (s.sphere_param row + JACOB_DELTA) 0| < 1 := by
    rw [hsp, abs_lt]; rintro ⟨h1, h2⟩
    unfold setAt at h1 h2
    by_cases hr : 0 = row
    · subst hr
      simp only [if_true] at h1 h2
      rcases h with h | h <;> linarith
    · simp only [hr, if_false] at h1 h2
      rcases h with h | h <;> linarith
  have hsf := sphere_fitness_noclamp { s with
    sphere_param := setAt s.sphere_param row (s.sphere_param row + JACOB_DELTA) } hne
  simp only [] at hsf
  simp only []
  rw [calc_jacob_cols]
  simp only []
  rw [hsf.1, hsf.2.1, hsf.2.2]
  refine ⟨?_, hsJ, hsF⟩
  rw [← hsp]
  funext t
  unfold setAt
  by_cases ht : t = row
  · subst ht; simp
  · simp [ht]

/-- Where every residual is zero, `calc_JTFI` leaves `JTFI` as it is. -/
theorem calc_JTFI_zero (c : Calibration)
    (h0 : ∀ j, j < NUM_SAMPLES → (sphere_fitness c).sample_fitness j = 0) :
    (calc_JTFI c).JTFI = c.JTFI
      ∧ (calc_JTFI c).sphere_param = (sphere_fitness c).sphere_param := by
  have hJ : (sphere_fitness c).JTFI = c.JTFI := by rw [sphere_fitness_eq]
  unfold calc_JTFI
  simp only []
  rw [← hJ]
  apply foldl_range_invariant
    (fun x : Calibration => (x.JTFI = (sphere_fitness c).JTFI
        ∧ x.sphere_param = (sphere_fitness c).sphere_param)
      ∧ x.sample_fitness = (sphere_fitness c).sample_fitness) _ _ ?_ _ ⟨⟨rfl, rfl⟩, rfl⟩ |>.1
  intro s row _ hs
  apply foldl_range_invariant
    (fun x : Calibration => (x.JTFI = (sphere_fitness c).JTFI
        ∧ x.sphere_param = (sphere_fitness c).sphere_param)
      ∧ x.sample_fitness = (sphere_fitness c).sample_fitness) _ _ ?_ _ hs
  intro x col hcol hx
  refine ⟨⟨?_, hx.1.2⟩, hx.2⟩
  simp only []
  rw [hx.2, h0 col hcol, mul_zero, add_zero, ← hx.1.1]
  funext t
  unfold setAt
  by_cases ht : t = row
  · subst ht; simp
  · simp [ht]

/-- Where `JTFI` is zero the update step leaves the parameters as they are. -/
theorem evaluatelm_update_zero (c : Calibration) (h0 : ∀ j, j < NUM_PARAMS → c.JTFI j = 0) :
    (evaluatelm_update c).sphere_param = c.sphere_param := by
  unfold evaluatelm_update
  apply foldl_range_invariant
    (fun x : Calibration => x.sphere_param = c.sphere_param ∧ x.JTFI = c.JTFI)
      _ _ ?_ _ ⟨rfl, rfl⟩ |>.1
  intro s row _ hs
  apply foldl_range_invariant
    (fun x : Calibration => x.sphere_param = c.sphere_param ∧ x.JTFI = c.JTFI) _ _ ?_ _ hs
  intro x col hcol hx
  refine ⟨?_, hx.2⟩
  simp only []
  rw [hx.2, h0 col hcol, zero_mul, add_zero, ← hx.1]
  funext t
  unfold setAt
  by_cases ht : t = row
  · subst ht; simp
  · simp [ht]

/-- Where every residual is zero the sum of their squares is zero. -/
theorem square_sum_zero (c : Calibration) (h0 : ∀ j, j < NUM_SAMPLES → c.sample_fitness j = 0) :
    square_sum c = 0 := by
  rw [square_sum_eq]
  apply Finset.sum_eq_zero
  intro j hj
  rw [h0 j (Finset.mem_range.mp hj), mul_zero]

/-- The context a pass of the loop of `evaluatelm` ends with. -/
theorem evaluatelm_body_calib (ok : Bool) (s : LMState) :
    match evaluatelm_body ok s with
    | LMStep.fault _ => True
    | LMStep.brk s1 => s1.calib = sphere_fitness (evaluatelm_update
        (calc_JTFI (calc_JTJ_LI (calc_jacob ok (evaluatelm_zero s.calib)) s.lambda)))
    | LMStep.next s1 => s1.calib = sphere_fitness (evaluatelm_update
        (calc_JTFI (calc_JTJ_LI (calc_jacob ok (evaluatelm_zero s.calib)) s.lambda))) := by
  unfold evaluatelm_body
  simp only []
  generalize sphere_fitness (evaluatelm_update
    (calc_JTFI (calc_JTJ_LI (calc_jacob ok (evaluatelm_zero s.calib)) s.lambda))) = c3
  generalize calc_JTJ_LI (calc_jacob ok (evaluatelm_zero s.calib)) s.lambda = c2
  generalize calc_jacob ok (evaluatelm_zero s.calib) = c1
  split_ifs <;> simp only []

/-- A pass of the loop of `evaluatelm` entered at a perfect fit (every residual
zero, radius at least `1`, positive damping, allocation succeeding) raises no
fault, leaves the parameters where they are and takes the early exit. -/
theorem evaluatelm_body_perfect (ok : Bool) (hok : ok = true) (s : LMState)
    (hf : s.calib.fault = false) (hl : 0 < s.lambda)
    (hr : 1 ≤ s.calib.sphere_param 0)
    (h0 : ∀ j, j < NUM_SAMPLES → (sphere_fitness s.calib).sample_fitness j = 0)
    (hg : s.global_best_f ≤ 0) :
    ∃ s1, evaluatelm_body ok s = LMStep.brk s1 ∧ s1.calib.fault = false
      ∧ s1.global_best_f = s.global_best_f := by
  have hzF := evaluatelm_zero_frameF s.calib
  have hzp : (evaluatelm_zero s.calib).sphere_param = s.calib.sphere_param := by
    rw [evaluatelm_zero_eq]
  have hzJ : ∀ t, t < NUM_PARAMS * NUM_PARAMS → (evaluatelm_zero s.calib).JTJ_LI t = 0 := by
    intro t ht
    rw [evaluatelm_zero_eq]
    simp only [ht, if_true]
  have hzT : ∀ t, t < NUM_PARAMS → (evaluatelm_zero s.calib).JTFI t = 0 := by
    intro t ht
    rw [evaluatelm_zero_eq]
    simp only [ht, if_true]
  have hjk : (calc_jacob ok (evaluatelm_zero s.calib)).sphere_param
        = (evaluatelm_zero s.calib).sphere_param
      ∧ (calc_jacob ok (evaluatelm_zero s.calib)).JTJ_LI = (evaluatelm_zero s.calib).JTJ_LI
      ∧ (calc_jacob ok (evaluatelm_zero s.calib)).JTFI = (evaluatelm_zero s.calib).JTFI := by
    rw [hok]
    exact calc_jacob_keep (evaluatelm_zero s.calib) (Or.inl (by rw [hzp]; exact hr))
  have hjF : (evaluatelm_zero s.calib).frameF (calc_jacob ok (evaluatelm_zero s.calib)) := by
    rw [hok]
    exact calc_jacob_true_frameF (evaluatelm_zero s.calib)
  have hJ := calc_JTJ_LI_pos (calc_jacob ok (evaluatelm_zero s.calib)) s.lambda
    (fun t ht => by rw [hjk.2.1]; exact hzJ t ht) hl
  have hJf : (calc_JTJ_LI (calc_jacob ok (evaluatelm_zero s.calib)) s.lambda).fault
      = false := by
    rw [hJ]
    simp only []
    rw [hjF.2, hzF.2, hf]
  have hJp : (calc_JTJ_LI (calc_jacob ok (evaluatelm_zero s.calib)) s.lambda).sphere_param
      = s.calib.sphere_param := by
    rw [hJ]
    simp only []
    rw [hjk.1, hzp]
  have hJT : (calc_JTJ_LI (calc_jacob ok (evaluatelm_zero s.calib)) s.lambda).JTFI
      = (evaluatelm_zero s.calib).JTFI := by
    rw [hJ]
    simp only []
    rw [hjk.2.2]
  have hJs : (calc_JTJ_LI (calc_jacob ok (evaluatelm_zero s.calib)) s.lambda).samples
      = s.calib.samples := by
    rw [hJ]
    simp only []
    rw [hjF.1.1, hzF.1.1]
  have hraise : evaluatelm_raises ok s = false := by
    unfold evaluatelm_raises
    rw [hJf, hok]
    simp
  have hFF := calc_JTFI_frameF
    (calc_JTJ_LI (calc_jacob ok (evaluatelm_zero s.calib)) s.lambda)
  have hUF := evaluatelm_update_frameF
    (calc_JTFI (calc_JTJ_LI (calc_jacob ok (evaluatelm_zero s.calib)) s.lambda))
  have hspec := evaluatelm_body_spec ok s
  have hcal := evaluatelm_body_calib ok s
  have hnf : ¬ ∃ c, evaluatelm_body ok s = LMStep.fault c := by
    intro h
    have h1 := (evaluatelm_body_fault_iff ok s hf).mp h
    rw [hraise] at h1
    exact Bool.false_ne_true h1
  generalize calc_JTJ_LI (calc_jacob ok (evaluatelm_zero s.calib)) s.lambda = c2 at *
  have hnc : ¬ |c2.sphere_param 0| < 1 := by
    rw [hJp, abs_lt]; rintro ⟨_, h2⟩; linarith
  have hres2 : ∀ j, j < NUM_SAMPLES → (sphere_fitness c2).sample_fitness j = 0 := by
    intro j hj
    rw [sphere_fitness_congr c2 s.calib hJs (fun i _ => by rw [hJp]) j hj]
    exact h0 j hj
  have hF := calc_JTFI_zero c2 hres2
  have hFp : (calc_JTFI c2).sphere_param = s.calib.sphere_param := by
    rw [hF.2, (sphere_fitness_noclamp c2 hnc).1, hJp]
  have hU := evaluatelm_update_zero (calc_JTFI c2)
    (fun j hj => by rw [hF.1, hJT]; exact hzT j hj)
  have hUs : (evaluatelm_update (calc_JTFI c2)).samples = s.calib.samples := by
    rw [hUF.1.1, hFF.1.1, hJs]
  have hres3 : ∀ j, j < NUM_SAMPLES →
      (sphere_fitness (evaluatelm_update (calc_JTFI c2))).sample_fitness j = 0 := by
    intro j hj
    rw [sphere_fitness_congr _ s.calib hUs (fun i _ => by rw [hU, hFp]) j hj]
    exact h0 j hj
  have hsq := square_sum_zero _ hres3
  generalize sphere_fitness (evaluatelm_update (calc_JTFI c2)) = c3 at *
  have hhalf : (0 : ℚ) < AIMED_FITNESS / 2 := by unfold AIMED_FITNESS; norm_num
  cases hbody : evaluatelm_body ok s with
  | fault c => exact absurd ⟨c, hbody⟩ hnf
  | next s1 =>
    rw [hbody] at hspec hcal
    simp only [] at hspec hcal
    rw [hcal, hsq] at hspec
    exact absurd hhalf hspec.2
  | brk s1 =>
    rw [hbody] at hspec hcal
    simp only [] at hspec hcal
    obtain ⟨⟨_, hf1, _, _, _, hbest⟩, _⟩ := hspec
    refine ⟨s1, rfl, hf1, ?_⟩
    rcases hbest with ⟨hlt, _, _⟩ | ⟨_, heq, _⟩
    · rw [hcal, hsq] at hlt
      exact absurd hlt (not_lt.mpr hg)
    · exact heq

/-- At a perfect fit `evaluatelm` returns after a single pass: where the flag is
clear, the first allocation succeeds, the radius is at least `1` and every
residual is zero, it returns the fitness `0` without a fault. -/
theorem evaluatelm_perfect (alloc_ok : ℕ → Bool) (fuel : ℕ) (calib : Calibration)
    (hf : calib.fault = false) (ha : alloc_ok 0 = true) (hr : 1 ≤ calib.sphere_param 0)
    (h0 : ∀ j, j < NUM_SAMPLES → (sphere_fitness calib).sample_fitness j = 0) :
    ∃ r, evaluatelm alloc_ok (fuel + 1) calib = some r ∧ r.1 = 0 ∧ r.2.fault = false := by
  have hnc : ¬ |calib.sphere_param 0| < 1 := by
    rw [abs_lt]; rintro ⟨_, h2⟩; linarith
  have hsq : square_sum (sphere_fitness calib) = 0 := square_sum_zero _ h0
  have hinit_f : (evaluatelm_init calib).calib.fault = false := by
    rw [evaluatelm_init_calib, (sphere_fitness_frameF calib).2, hf]
  have hinit_l : 0 < (evaluatelm_init calib).lambda := by
    unfold evaluatelm_init; simp only []; norm_num
  have hinit_r : 1 ≤ (evaluatelm_init calib).calib.sphere_param 0 := by
    rw [evaluatelm_init_calib, (sphere_fitness_noclamp calib hnc).1]; exact hr
  have hinit_0 : ∀ j, j < NUM_SAMPLES →
      (sphere_fitness (evaluatelm_init calib).calib).sample_fitness j = 0 := by
    intro j hj
    rw [evaluatelm_init_calib, sphere_fitness_idem]; exact h0 j hj
  have hinit_g : (evaluatelm_init calib).global_best_f ≤ 0 := by
    rw [evaluatelm_init_global_best_f, hsq]
  obtain ⟨s1, hbody, hf1, hg1⟩ :=
    evaluatelm_body_perfect (alloc_ok 0) ha (evaluatelm_init calib) hinit_f hinit_l hinit_r hinit_0 hinit_g
  have hloop : evaluatelm_loop alloc_ok (fuel + 1) 0 (evaluatelm_init calib)
      = some (Sum.inr s1) := by
    rw [evaluatelm_loop_unfold, evaluatelm_init_gradient_power,
      if_pos (by decide : (0 : ℤ) ≤ GRADIENT_POW_LIMIT)]
    simp only []
    rw [hbody]
  have hret : evaluatelm alloc_ok (fuel + 1) calib
      = some (s1.global_best_f,
          { s1.calib with
            sphere_param := fun j =>
              if j < NUM_PARAMS then s1.global_best j else s1.calib.sphere_param j }) := by
    unfold evaluatelm
    rw [hloop]
    simp only []
    rw [foldl_set_sphere_param]
  refine ⟨_, hret, ?_, hf1⟩
  simp only []
  rw [hg1, evaluatelm_init_global_best_f, hsq]

/-! ## The damping schedule of `evaluatelm` -/

theorem wrap_int16_id (z : ℤ) (h1 : -32768 ≤ z) (h2 : z ≤ 32767) : wrap_int16 z = z := by
  unfold wrap_int16
  omega

theorem wrap_int16_underflow : wrap_int16 (-32768 - 1) = 32767 := by
  unfold wrap_int16
  omega

theorem evaluatelm_heads_unfold (alloc_ok : ℕ → Bool) (fuel n : ℕ) (s : LMState) :
    evaluatelm_heads alloc_ok fuel n s =
      if s.gradient_power ≤ GRADIENT_POW_LIMIT then
        match fuel with
        | 0 => []
        | fuel + 1 =>
          s :: match evaluatelm_body (alloc_ok n) s with
            | LMStep.next s1 => evaluatelm_heads alloc_ok fuel (n + 1) s1
            | _ => []
      else [] := by
  cases fuel <;> rw [evaluatelm_heads]

/-- What a pass that raises no fault does to the damping schedule. -/
theorem evaluatelm_step_schedule (s s1 : LMState) (h : evaluatelm_step_ok s s1) :
    (s.last_fitness ≤ square_sum s1.calib →
        s1.lambda = s.lambda * 5 ∧ s1.gradient_power = wrap_int16 (s.gradient_power + 1)
          ∧ s1.last_fitness = s.last_fitness)
      ∧ (square_sum s1.calib < s.last_fitness →
        s1.lambda = s.lambda / 5 ∧ s1.gradient_power = wrap_int16 (s.gradient_power - 1)
          ∧ s1.last_fitness = square_sum s1.calib) := by
  obtain ⟨_, _, _, _, hsched, _⟩ := h
  have hg : GRADIENT = 5 := rfl
  rw [hg] at hsched
  constructor
  · intro hle
    rcases hsched with ⟨_, h1, h2, h3⟩ | ⟨hlt, _⟩
    · exact ⟨h1, h2, h3⟩
    · exact absurd hle (not_le.mpr hlt)
  · intro hlt
    rcases hsched with ⟨hle, _⟩ | ⟨_, h1, h2, h3⟩
    · exact absurd hlt (not_lt.mpr hle)
    · exact ⟨h1, h2, h3⟩

/-- The result of a pass that raises no fault. -/
theorem evaluatelm_body_step_ok (ok : Bool) (s s1 : LMState)
    (h : evaluatelm_body ok s = LMStep.brk s1 ∨ evaluatelm_body ok s = LMStep.next s1) :
    evaluatelm_step_ok s s1 := by
  have hspec := evaluatelm_body_spec ok s
  rcases h with h | h
  · rw [h] at hspec; exact hspec.1
  · rw [h] at hspec; exact hspec.1

/-- A pass keeps the coupling of `lambda` and `gradient_power`. -/
theorem evaluatelm_damping_step (s s1 : LMState) (h : evaluatelm_step_ok s s1)
    (hd : evaluatelm_damping s) (hgp : s.gradient_power ≤ GRADIENT_POW_LIMIT) :
    evaluatelm_damping s1 := by
  obtain ⟨hlow, hlam⟩ := hd hgp
  have hlim : GRADIENT_POW_LIMIT = 8 := rfl
  rw [hlim] at hgp
  have hs := evaluatelm_step_schedule s s1 h
  intro hgp1
  rw [hlim] at hgp1
  by_cases hle : s.last_fitness ≤ square_sum s1.calib
  · obtain ⟨h1, h2, _⟩ := hs.1 hle
    rw [wrap_int16_id _ (by omega) (by omega)] at h2
    refine ⟨by omega, ?_⟩
    rw [h1, h2, hlam, zpow_add₀ (by norm_num : (5 : ℚ) ≠ 0), zpow_one]
  · obtain ⟨h1, h2, _⟩ := hs.2 (not_le.mp hle)
    by_cases hmin : s.gradient_power = -32768
    · rw [hmin, wrap_int16_underflow] at h2
      omega
    · rw [wrap_int16_id _ (by omega) (by omega)] at h2
      refine ⟨by omega, ?_⟩
      rw [h1, h2, hlam, zpow_sub₀ (by norm_num : (5 : ℚ) ≠ 0), zpow_one]

theorem evaluatelm_damping_init (calib : Calibration) :
    evaluatelm_damping (evaluatelm_init calib) := by
  intro _
  rw [evaluatelm_init_gradient_power]
  refine ⟨by norm_num, ?_⟩
  unfold evaluatelm_init
  simp only [zpow_zero]

/-- At the start of every iteration the coupling holds and the loop test has
let the iteration begin. -/
theorem evaluatelm_heads_damping (alloc_ok : ℕ → Bool) (fuel : ℕ) :
    ∀ (n : ℕ) (s : LMState), evaluatelm_damping s →
      ∀ h ∈ evaluatelm_heads alloc_ok fuel n s,
        h.gradient_power ≤ 8 ∧ -32768 ≤ h.gradient_power
          ∧ h.lambda = (5 : ℚ) ^ h.gradient_power := by
  induction fuel with
  | zero =>
    intro n s _ h hmem
    rw [evaluatelm_heads_unfold] at hmem
    by_cases hgp : s.gradient_power ≤ GRADIENT_POW_LIMIT <;> simp [hgp] at hmem
  | succ fuel ih =>
    intro n s hd h hmem
    rw [evaluatelm_heads_unfold] at hmem
    by_cases hgp : s.gradient_power ≤ GRADIENT_POW_LIMIT
    · simp only [hgp, if_true, List.mem_cons] at hmem
      rcases hmem with hhead | htail
      · rw [hhead]
        exact ⟨hgp, (hd hgp).1, (hd hgp).2⟩
      · cases hbody : evaluatelm_body (alloc_ok n) s with
        | fault c => rw [hbody] at htail; simp at htail
        | brk s1 => rw [hbody] at htail; simp at htail
        | next s1 =>
          rw [hbody] at htail
          exact ih (n + 1) s1
            (evaluatelm_damping_step s s1
              (evaluatelm_body_step_ok _ s s1 (Or.inr hbody)) hd hgp) h htail
    · simp [hgp] at hmem

/-- The state in which the loop of `evaluatelm` is entered is the first in
which its body is entered. -/
theorem evaluatelm_heads_init (alloc_ok : ℕ → Bool) (fuel : ℕ) (calib : Calibration) :
    evaluatelm_init calib ∈ evaluatelm_heads alloc_ok (fuel + 1) 0 (evaluatelm_init calib) := by
  rw [evaluatelm_heads_unfold, evaluatelm_init_gradient_power,
    if_pos (by decide : (0 : ℤ) ≤ GRADIENT_POW_LIMIT)]
  exact List.mem_cons_self _ _

/-- C14. At the start of every iteration of the loop of `evaluatelm`,
`lambda = 5 ^ gradient_power` (the exponent an integer, possibly negative) and
`gradient_power <= 8`, so the damping handed to `calc_JTJ_LI` is positive and
at most `5 ^ 8`. In the iteration, a step whose new fitness is `>=
last_fitness` multiplies `lambda` by `5`, increments `gradient_power` and keeps
`last_fitness`; a step whose new fitness is `< last_fitness` divides `lambda` by
`5`, decrements `gradient_power` (the decrement of an `int16_t`: the value less
one unless the counter holds `-32768`) and sets `last_fitness` to the new
fitness. -/
theorem evaluatelm_damping_schedule (alloc_ok : ℕ → Bool) (fuel : ℕ) (calib : Calibration) :
    ∀ s ∈ evaluatelm_heads alloc_ok fuel 0 (evaluatelm_init calib),
      (s.lambda = (5 : ℚ) ^ s.gradient_power ∧ s.gradient_power ≤ 8
          ∧ 0 < s.lambda ∧ s.lambda ≤ 5 ^ 8)
        ∧ ∀ (ok : Bool) (s1 : LMState),
            (evaluatelm_body ok s = LMStep.brk s1 ∨ evaluatelm_body ok s = LMStep.next s1) →
            (s.last_fitness ≤ square_sum s1.calib →
                s1.lambda = s.lambda * 5 ∧ s1.gradient_power = s.gradient_power + 1
                  ∧ s1.last_fitness = s.last_fitness)
              ∧ (square_sum s1.calib < s.last_fitness →
                s1.lambda = s.lambda / 5
                  ∧ s1.gradient_power = wrap_int16 (s.gradient_power - 1)
                  ∧ (-32768 < s.gradient_power → s1.gradient_power = s.gradient_power - 1)
                  ∧ s1.last_fitness = square_sum s1.calib) := by
  intro s hs
  obtain ⟨hle, hlow, hlam⟩ :=
    evaluatelm_heads_damping alloc_ok fuel 0 _ (evaluatelm_damping_init calib) s hs
  have h5 : (0 : ℚ) < 5 := by norm_num
  refine ⟨⟨hlam, hle, ?_, ?_⟩, ?_⟩
  · rw [hlam]; exact zpow_pos h5 _
  · rw [hlam]
    have h8 : (5 : ℚ) ^ (8 : ℤ) = 5 ^ 8 := zpow_natCast 5 8
    rw [← h8]
    exact zpow_le_zpow_right₀ (by norm_num) hle
  · intro ok s1 hbody
    have hsched := evaluatelm_step_schedule s s1 (evaluatelm_body_step_ok ok s s1 hbody)
    constructor
    · intro h
      obtain ⟨h1, h2, h3⟩ := hsched.1 h
      rw [wrap_int16_id _ (by omega) (by omega)] at h2
      exact ⟨h1, h2, h3⟩
    · intro h
      obtain ⟨h1, h2, h3⟩ := hsched.2 h
      refine ⟨h1, h2, ?_, h3⟩
      intro hgt
      rw [h2, wrap_int16_id _ (by omega) (by omega)]

/-- C14 at the first iteration of a call on `exCalib`: the damping is
`5 ^ 0 = 1`. -/
theorem evaluatelm_damping_schedule_witness :
    evaluatelm_init exCalib ∈ evaluatelm_heads (fun _ => true) 1 0 (evaluatelm_init exCalib)
      ∧ (evaluatelm_init exCalib).lambda = (5 : ℚ) ^ (evaluatelm_init exCalib).gradient_power
      ∧ (evaluatelm_init exCalib).gradient_power ≤ 8
      ∧ 0 < (evaluatelm_init exCalib).lambda
      ∧ (evaluatelm_init exCalib).lambda ≤ 5 ^ 8 :=
  ⟨evaluatelm_heads_init (fun _ => true) 0 exCalib,
    (evaluatelm_damping_schedule (fun _ => true) 1 exCalib (evaluatelm_init exCalib)
      (evaluatelm_heads_init (fun _ => true) 0 exCalib)).1⟩

/-! ## `calc_jacob` -/

/-- The residuals computed by `sphere_fitness` where the radius is not
clamped. -/
theorem sphere_fitness_residual_noclamp (c : Calibration) (h : ¬ |c.sphere_param 0| < 1)
    (j : ℕ) (hj : j < NUM_SAMPLES) :
    (sphere_fitness c).sample_fitness j = residual c.sphere_param (c.samples j) := by
  rw [sphere_fitness_eq]
  simp only [hj, h, if_true, if_false]
  unfold residual
  ring

/-- The amended C18. `calc_jacob` restores every parameter to its value on
entry after perturbing it: for every context whose radius is `>= 1` or
`<= -1 - JACOB_DELTA` on entry (so that no perturbed radius is clamped), with a
successful scratch allocation, all four entries of `sphere_param` after
`calc_jacob` are equal to their values before the call. -/
theorem calc_jacob_restores (calib : Calibration)
    (h : 1 ≤ calib.sphere_param 0 ∨ calib.sphere_param 0 ≤ -1 - JACOB_DELTA) :
    ∀ i, i < 4 → (calc_jacob true calib).sphere_param i = calib.sphere_param i := by
  intro i _
  rw [(calc_jacob_keep calib h).1]

/-- The amended C18 at `exCalib`, radius `1`. -/
theorem calc_jacob_restores_witness :
    (1 ≤ exCalib.sphere_param 0 ∨ exCalib.sphere_param 0 ≤ -1 - JACOB_DELTA)
      ∧ (calc_jacob true exCalib).sphere_param 0 = exCalib.sphere_param 0 :=
  have h : 1 ≤ exCalib.sphere_param 0 ∨ exCalib.sphere_param 0 ≤ -1 - JACOB_DELTA :=
    Or.inl (le_refl 1)
  ⟨h, calc_jacob_restores exCalib h 0 (by decide)⟩

set_option maxRecDepth 100000 in
/-- C18 as stated fails at the radius `-1`, whose magnitude is `1`: the
perturbed radius `-1 + JACOB_DELTA` has magnitude below `1` and is clamped to
`1` by `sphere_fitness`, so `calc_jacob` returns with the radius `1`. -/
theorem calc_jacob_clamp_not_restored :
    1 ≤ |exNegRadius.sphere_param 0|
      ∧ (calc_jacob true exNegRadius).sphere_param 0 = 1
      ∧ exNegRadius.sphere_param 0 = -1
      ∧ (calc_jacob true exNegRadius).sphere_param 0 ≠ exNegRadius.sphere_param 0 := by
  decide!

/-! ## Runs of `evaluatelm` on concrete contexts -/

theorem getD_of_map_eq_some {α β : Type} (o : Option α) (f : α → β) (b : β) (d : α)
    (h : o.map f = some b) : o = some (o.getD d) ∧ f (o.getD d) = b := by
  cases o with
  | none => simp at h
  | some a =>
    simp only [Option.map_some', Option.some.injEq] at h
    exact ⟨rfl, h⟩

/-- Every sample of `exSample` lies on the unit sphere about the origin. -/
theorem exSample_unit (j : ℕ) :
    (exSample j).x * (exSample j).x + (exSample j).y * (exSample j).y
      + (exSample j).z * (exSample j).z = 1 := by
  unfold exSample
  split <;> norm_num

/-- The residuals of `exCalib` are all zero. -/
theorem exCalib_residual (j : ℕ) (hj : j < NUM_SAMPLES) :
    (sphere_fitness exCalib).sample_fitness j = 0 := by
  have hnc : ¬ |exCalib.sphere_param 0| < 1 := by
    have : exCalib.sphere_param 0 = 1 := rfl
    rw [this]
    norm_num
  have hu := exSample_unit j
  rw [sphere_fitness_residual_noclamp exCalib hnc j hj]
  unfold residual exCalib
  simp only [if_true, one_ne_zero, if_false]
  norm_num
  linarith

/-- On `exCalib` the optimiser makes one pass, finds fitness `0` and leaves
through the early exit. -/
theorem exResult_spec :
    evaluatelm (fun _ => true) 1 exCalib = some exResult
      ∧ exResult.1 = 0 ∧ exResult.2.fault = false := by
  obtain ⟨r, hr, h1, h2⟩ := evaluatelm_perfect (fun _ => true) 0 exCalib
    (by unfold exCalib; simp only [])
    rfl
    (by unfold exCalib; simp only [if_true]; exact le_refl 1)
    exCalib_residual
  have hr1 : evaluatelm (fun _ => true) 1 exCalib = some r := hr
  have he : exResult = r := by
    unfold exResult
    rw [hr1]
    rfl
  rw [he]
  exact ⟨hr1, h1, h2⟩

/-- A Gram matrix with a positive multiple of the identity added is positive
definite. -/
theorem gram_add_diag_posDef (J : Matrix (Fin 4) (Fin 100) ℚ) (lambda : ℚ) (h : 0 < lambda)
    (x : Fin 4 → ℚ) (hx : x ≠ 0) :
    0 < Matrix.dotProduct x ((J * J.transpose + Matrix.diagonal (fun _ => lambda)).mulVec x) := by
  have key : Matrix.dotProduct x ((J * J.transpose + Matrix.diagonal (fun _ => lambda)).mulVec x)
      = Matrix.dotProduct (J.transpose.mulVec x) (J.transpose.mulVec x)
        + lambda * Matrix.dotProduct x x := by
    rw [Matrix.add_mulVec, Matrix.dotProduct_add, ← Matrix.mulVec_mulVec,
      Matrix.dotProduct_mulVec, ← Matrix.mulVec_transpose]
    congr 1
    simp only [Matrix.dotProduct, Matrix.mulVec_diagonal, Finset.mul_sum]
    apply Finset.sum_congr rfl
    intro i _
    ring
  rw [key]
  have h1 : 0 ≤ Matrix.dotProduct (J.transpose.mulVec x) (J.transpose.mulVec x) :=
    Finset.sum_nonneg (fun i _ => mul_self_nonneg _)
  have h2 : 0 ≤ Matrix.dotProduct x x := Finset.sum_nonneg (fun i _ => mul_self_nonneg _)
  have h3 : Matrix.dotProduct x x ≠ 0 := fun h0 => hx (Matrix.dotProduct_self_eq_zero.mp h0)
  have h4 : 0 < Matrix.dotProduct x x := lt_of_le_of_ne h2 (Ne.symm h3)
  have := mul_pos h h4
  linarith

/-- With `JTJ_LI` zeroed on entry and positive damping the normal matrix is
positive definite. -/
theorem normal_matrix_posDef (c : Calibration) (lambda : ℚ)
    (hz : ∀ t, t < NUM_PARAMS * NUM_PARAMS → c.JTJ_LI t = 0) (hl : 0 < lambda)
    (x : Fin 4 → ℚ) (hx : x ≠ 0) :
    0 < Matrix.dotProduct x ((toMatrix (normal_matrix c lambda)).mulVec x) := by
  rw [toMatrix_normal_matrix]
  have h0 : toMatrix c.JTJ_LI = 0 := by
    ext i j
    have hi := i.isLt
    have hj := j.isLt
    simp only [toMatrix, Matrix.of_apply, Matrix.zero_apply]
    exact hz _ (by simp only [NUM_PARAMS]; omega)
  rw [h0, zero_add]
  exact gram_add_diag_posDef _ lambda hl x hx

/-- `calc_jacob` leaves `JTJ_LI` alone. -/
theorem calc_jacob_JTJ_LI (ok : Bool) (c : Calibration) :
    (calc_jacob ok c).JTJ_LI = c.JTJ_LI := by
  cases ok
  · rw [calc_jacob_false]
  · unfold calc_jacob
    simp only [Bool.not_true, Bool.false_eq_true, if_false]
    apply foldl_range_invariant (fun x : Calibration => x.JTJ_LI = c.JTJ_LI)
    · intro s row _ hs
      simp only []
      have hin : ((List.range NUM_SAMPLES).foldl
          (fun calib col =>
            { calib with
              jacob := setAt calib.jacob (row * NUM_SAMPLES + col)
                ((List.range NUM_SAMPLES).foldl
                    (fun temp i => setAt temp i ((sphere_fitness c).sample_fitness i))
                    (fun _ => 0) col - calib.sample_fitness col) })
          (sphere_fitness { s with
            sphere_param := setAt s.sphere_param row (s.sphere_param row + JACOB_DELTA) })).JTJ_LI
            = c.JTJ_LI := by
        apply foldl_range_invariant (fun x : Calibration => x.JTJ_LI = c.JTJ_LI)
        · intro t col _ ht
          exact ht
        · rw [sphere_fitness_eq]
          exact hs
      exact hin
    · rw [sphere_fitness_eq]

/-- With positive damping a pass of the loop of `evaluatelm` raises a fault
exactly when its allocation fails. -/
theorem evaluatelm_raises_eq (ok : Bool) (s : LMState) (hl : 0 < s.lambda) :
    evaluatelm_raises ok s = !ok := by
  have hz : ∀ t, t < NUM_PARAMS * NUM_PARAMS →
      (calc_jacob ok (evaluatelm_zero s.calib)).JTJ_LI t = 0 := by
    intro t ht
    rw [calc_jacob_JTJ_LI, evaluatelm_zero_eq]
    simp only [ht, if_true]
  have hpos := calc_JTJ_LI_pos (calc_jacob ok (evaluatelm_zero s.calib)) s.lambda hz hl
  unfold evaluatelm_raises
  rw [hpos]
  simp only []
  cases ok <;> cases (calc_jacob _ (evaluatelm_zero s.calib)).fault <;> rfl

/-- The damping stays positive over a pass. -/
theorem evaluatelm_step_lambda_pos (s s1 : LMState) (h : evaluatelm_step_ok s s1)
    (hl : 0 < s.lambda) : 0 < s1.lambda := by
  obtain ⟨_, _, _, _, hsched, _⟩ := h
  have hg : GRADIENT = 5 := rfl
  rw [hg] at hsched
  rcases hsched with ⟨_, h1, _⟩ | ⟨_, h1, _⟩
  · rw [h1]; positivity
  · rw [h1]; positivity

/-- With positive damping a fault is raised in the loop of `evaluatelm` exactly
when the allocation of one of the passes entered fails. -/
theorem evaluatelm_raised_iff_alloc (alloc_ok : ℕ → Bool) (fuel : ℕ) :
    ∀ (n : ℕ) (s : LMState), 0 < s.lambda →
      (evaluatelm_raised alloc_ok fuel n s = true ↔
        ∃ k, k < (evaluatelm_heads alloc_ok fuel n s).length ∧ alloc_ok (n + k) = false) := by
  induction fuel with
  | zero =>
    intro n s _
    rw [evaluatelm_raised_unfold, evaluatelm_heads_unfold]
    by_cases hgp : s.gradient_power ≤ GRADIENT_POW_LIMIT <;> simp [hgp]
  | succ fuel ih =>
    intro n s hl
    rw [evaluatelm_raised_unfold, evaluatelm_heads_unfold]
    by_cases hgp : s.gradient_power ≤ GRADIENT_POW_LIMIT
    · simp only [hgp, if_true]
      rw [evaluatelm_raises_eq _ s hl]
      have hn0 : alloc_ok (n + 0) = alloc_ok n := rfl
      generalize alloc_ok n = ok at hn0 ⊢
      by_cases ha : ok = true
      · have hnot : (!ok) = false := by rw [ha]; rfl
        rw [hnot, Bool.false_or]
        cases hb : evaluatelm_body ok s with
        | fault c =>
          simp only [List.length_singleton, Bool.false_eq_true, false_iff, not_exists, not_and]
          intro k hk
          have : k = 0 := by omega
          subst this
          rw [hn0, ha]
          decide
        | brk s1 =>
          simp only [List.length_singleton, Bool.false_eq_true, false_iff, not_exists, not_and]
          intro k hk
          have : k = 0 := by omega
          subst this
          rw [hn0, ha]
          decide
        | next s1 =>
          simp only [List.length_cons]
          have hl1 : 0 < s1.lambda :=
            evaluatelm_step_lambda_pos s s1
              (evaluatelm_body_step_ok ok s s1 (Or.inr hb)) hl
          rw [ih (n + 1) s1 hl1]
          constructor
          · rintro ⟨k, hk, hf⟩
            exact ⟨k + 1, by omega, by rw [← hf]; congr 1; omega⟩
          · rintro ⟨k, hk, hf⟩
            cases k with
            | zero => rw [hn0, ha] at hf; exact absurd hf (by decide)
            | succ k => exact ⟨k, by omega, by rw [← hf]; congr 1; omega⟩
      · have hf : ok = false := by simpa using ha
        have hnot : (!ok) = true := by rw [hf]; rfl
        rw [hnot, Bool.true_or]
        simp only [true_iff]
        exact ⟨0, by simp, by rw [hn0, hf]⟩
    · simp [hgp]

/-- The normal matrix formed from a zeroed `JTJ_LI` equals its transpose. -/
theorem toMatrix_normal_matrix_transpose (c : Calibration) (lambda : ℚ)
    (hz : ∀ t, t < NUM_PARAMS * NUM_PARAMS → c.JTJ_LI t = 0) :
    (toMatrix (normal_matrix c lambda)).transpose = toMatrix (normal_matrix c lambda) := by
  rw [toMatrix_normal_matrix]
  have h0 : toMatrix c.JTJ_LI = 0 := by
    ext i j
    have hi := i.isLt
    have hj := j.isLt
    simp only [toMatrix, Matrix.of_apply, Matrix.zero_apply]
    exact hz _ (by simp only [NUM_PARAMS]; omega)
  rw [h0, zero_add, Matrix.transpose_add, Matrix.transpose_mul, Matrix.transpose_transpose,
    Matrix.diagonal_transpose]

/-- What an `evaluatelm` entered with the flag clear returns carries the fault
flag exactly when a fault was raised in its loop. -/
theorem evaluatelm_fault_iff_raised (alloc_ok : ℕ → Bool) (fuel : ℕ) (calib : Calibration)
    (r : ℚ × Calibration) (hentry : calib.fault = false)
    (hret : evaluatelm alloc_ok fuel calib = some r) :
    (r.2.fault = true ↔ evaluatelm_raised alloc_ok fuel 0 (evaluatelm_init calib) = true) := by
  have hiff := evaluatelm_fault_iff alloc_ok fuel calib r hret
  have hinit : (evaluatelm_init calib).calib.fault = false := by
    rw [evaluatelm_init_calib, (sphere_fitness_frameF calib).2]; exact hentry
  rw [hiff]
  rcases evaluatelm_cases alloc_ok fuel calib r hret with ⟨hl, _⟩ | ⟨sf, hl, _, _⟩
  · have hraised := (evaluatelm_loop_fault_iff alloc_ok fuel 0 _ _ hinit hl).mp ⟨r.2, rfl⟩
    exact ⟨fun _ => hraised, fun _ => hl⟩
  · have hno := (evaluatelm_loop_fault_iff alloc_ok fuel 0 _ _ hinit hl)
    constructor
    · intro h
      rw [hl] at h
      simp at h
    · intro h
      obtain ⟨c, hc⟩ := hno.mpr h
      simp at hc

/-- C25. The singular-matrix fault is unreachable with positive damping. For
every context with `JTJ_LI` zeroed on entry (whatever its Jacobian buffer) and
every `lambda > 0`, the matrix `M = J*J^T + lambda*I` that `calc_JTJ_LI` forms is
symmetric positive definite, the determinant computed by `inverse4x4` is
strictly positive, `inverse4x4` returns `true` and `calc_JTJ_LI` writes the
inverse into `JTJ_LI` and leaves `fault` as it is. At the start of every
iteration of the loop of `evaluatelm`, `lambda = 5 ^ gradient_power > 0`; so a
fault is raised in the loop exactly when the scratch allocation of one of the
passes entered fails, and an `evaluatelm` entered with the flag clear returns
with `fault` set exactly then. -/
theorem calc_JTJ_LI_fault_unreachable :
    (∀ (calib : Calibration) (lambda : ℚ), (∀ t, t < 16 → calib.JTJ_LI t = 0) → 0 < lambda →
        (toMatrix (normal_matrix calib lambda)).transpose = toMatrix (normal_matrix calib lambda)
          ∧ (∀ x : Fin 4 → ℚ, x ≠ 0 →
              0 < Matrix.dotProduct x ((toMatrix (normal_matrix calib lambda)).mulVec x))
          ∧ 0 < inverse4x4_det (normal_matrix calib lambda)
          ∧ (inverse4x4 (normal_matrix calib lambda) (normal_matrix calib lambda)).1 = true
          ∧ calc_JTJ_LI calib lambda
              = { calib with
                  JTJ_LI :=
                    (inverse4x4 (normal_matrix calib lambda) (normal_matrix calib lambda)).2 }
          ∧ (calc_JTJ_LI calib lambda).fault = calib.fault)
      ∧ ∀ (alloc_ok : ℕ → Bool) (fuel : ℕ) (calib : Calibration),
          (∀ s ∈ evaluatelm_heads alloc_ok fuel 0 (evaluatelm_init calib),
              s.lambda = (5 : ℚ) ^ s.gradient_power ∧ 0 < s.lambda
                ∧ ∀ ok : Bool,
                    (calc_JTJ_LI (calc_jacob ok (evaluatelm_zero s.calib)) s.lambda).fault
                      = (calc_jacob ok (evaluatelm_zero s.calib)).fault)
            ∧ (evaluatelm_raised alloc_ok fuel 0 (evaluatelm_init calib) = true ↔
                ∃ n, n < (evaluatelm_heads alloc_ok fuel 0 (evaluatelm_init calib)).length
                  ∧ alloc_ok n = false)
            ∧ ∀ r, calib.fault = false → evaluatelm alloc_ok fuel calib = some r →
                (r.2.fault = true ↔
                  ∃ n, n < (evaluatelm_heads alloc_ok fuel 0 (evaluatelm_init calib)).length
                    ∧ alloc_ok n = false) := by
  have hinit : ∀ calib : Calibration, 0 < (evaluatelm_init calib).lambda := by
    intro calib
    unfold evaluatelm_init
    simp only []
    norm_num
  have hraised : ∀ (alloc_ok : ℕ → Bool) (fuel : ℕ) (calib : Calibration),
      (evaluatelm_raised alloc_ok fuel 0 (evaluatelm_init calib) = true ↔
        ∃ n, n < (evaluatelm_heads alloc_ok fuel 0 (evaluatelm_init calib)).length
          ∧ alloc_ok n = false) := by
    intro alloc_ok fuel calib
    rw [evaluatelm_raised_iff_alloc alloc_ok fuel 0 _ (hinit calib)]
    simp only [Nat.zero_add]
  refine ⟨?_, ?_⟩
  · intro calib lambda hz hl
    have hdet := normal_matrix_det_pos calib lambda hz hl
    refine ⟨toMatrix_normal_matrix_transpose calib lambda hz,
      normal_matrix_posDef calib lambda hz hl, hdet, ?_, ?_, ?_⟩
    · rw [inverse4x4_fst]
      simp [ne_of_gt hdet]
    · exact calc_JTJ_LI_pos calib lambda hz hl
    · rw [calc_JTJ_LI_pos calib lambda hz hl]
  · intro alloc_ok fuel calib
    refine ⟨?_, hraised alloc_ok fuel calib, ?_⟩
    · intro s hs
      obtain ⟨_, _, hlam⟩ := evaluatelm_heads_damping alloc_ok fuel 0 _
        (evaluatelm_damping_init calib) s hs
      have hpos : 0 < s.lambda := by
        rw [hlam]
        exact zpow_pos (by norm_num) _
      refine ⟨hlam, hpos, fun ok => ?_⟩
      have hz : ∀ t, t < NUM_PARAMS * NUM_PARAMS →
          (calc_jacob ok (evaluatelm_zero s.calib)).JTJ_LI t = 0 := by
        intro t ht
        rw [calc_jacob_JTJ_LI, evaluatelm_zero_eq]
        simp only [ht, if_true]
      rw [calc_JTJ_LI_pos _ s.lambda hz hpos]
    · intro r hentry hret
      rw [evaluatelm_fault_iff_raised alloc_ok fuel calib r hentry hret]
      exact hraised alloc_ok fuel calib

/-- C25 at `exCalib`, whose `JTJ_LI` is zero, with `lambda = 1`, and at the run
of `evaluatelm` on it in which every allocation succeeds. -/
theorem calc_JTJ_LI_fault_unreachable_witness :
    (∀ t, t < 16 → exCalib.JTJ_LI t = 0) ∧ (0 : ℚ) < 1
      ∧ 0 < inverse4x4_det (normal_matrix exCalib 1)
      ∧ (calc_JTJ_LI exCalib 1).fault = exCalib.fault
      ∧ exCalib.fault = false
      ∧ evaluatelm (fun _ => true) 1 exCalib = some exResult
      ∧ (exResult.2.fault = true ↔
          ∃ n, n < (evaluatelm_heads (fun _ => true) 1 0 (evaluatelm_init exCalib)).length
            ∧ (fun _ => true) n = false) :=
  ⟨fun _ _ => rfl, one_pos,
    (calc_JTJ_LI_fault_unreachable.1 exCalib 1 (fun _ _ => rfl) one_pos).2.2.1,
    (calc_JTJ_LI_fault_unreachable.1 exCalib 1 (fun _ _ => rfl) one_pos).2.2.2.2.2,
    rfl, exResult_spec.1,
    (calc_JTJ_LI_fault_unreachable.2 (fun _ => true) 1 exCalib).2.2 exResult rfl
      exResult_spec.1⟩

/-! ## Closed forms of `calc_JTFI` and of the update step -/

/-- The inner loop of `calc_JTFI` run for `n` samples adds to `JTFI[row]` the
sum of the products of the Jacobian row and the residuals. -/
theorem calc_JTFI_inner (row n : ℕ) (c : Calibration) :
    (List.range n).foldl
      (fun calib col =>
        { calib with
          JTFI := setAt calib.JTFI row
            (calib.JTFI row + calib.jacob (row * NUM_SAMPLES + col) * calib.sample_fitness col) })
      c
    = { c with
        JTFI := fun t =>
          if t = row then
            c.JTFI t + ∑ k in Finset.range n,
              c.jacob (row * NUM_SAMPLES + k) * c.sample_fitness k
          else c.JTFI t } := by
  induction n with
  | zero =>
    simp only [List.range_zero, List.foldl_nil, Finset.range_zero, Finset.sum_empty, add_zero]
    ext t <;> try rfl
    simp only []
    split_ifs <;> rfl
  | succ n ih =>
    rw [List.range_succ, List.foldl_append, ih]
    simp only [List.foldl_cons, List.foldl_nil, Finset.sum_range_succ]
    ext t <;> try rfl
    simp only [setAt]
    by_cases h : t = row
    · simp only [h, if_true]
      ring
    · simp only [h, if_false]

/-- The two loops of `calc_JTFI` run for `n` rows. -/
theorem calc_JTFI_rows (n : ℕ) (c : Calibration) :
    (List.range n).foldl
      (fun calib row =>
        (List.range NUM_SAMPLES).foldl
          (fun calib col =>
            { calib with
              JTFI := setAt calib.JTFI row
                (calib.JTFI row
                  + calib.jacob (row * NUM_SAMPLES + col) * calib.sample_fitness col) })
          calib)
      c
    = { c with
        JTFI := fun t =>
          if t < n then
            c.JTFI t + ∑ k in Finset.range NUM_SAMPLES,
              c.jacob (t * NUM_SAMPLES + k) * c.sample_fitness k
          else c.JTFI t } := by
  induction n with
  | zero =>
    simp only [List.range_zero, List.foldl_nil]
    ext t <;> rfl
  | succ n ih =>
    rw [show List.range (n + 1) = List.range n ++ [n] from List.range_succ n,
      List.foldl_append, ih]
    simp only [List.foldl_cons, List.foldl_nil, calc_JTFI_inner]
    ext t <;> try rfl
    simp only []
    by_cases h : t = n
    · subst h
      rw [if_pos rfl, if_neg (by omega), if_pos (by omega)]
    · rw [if_neg h]
      by_cases h2 : t < n
      · rw [if_pos h2, if_pos (by omega)]
      · rw [if_neg h2, if_neg (by omega)]

/-- Closed form of `calc_JTFI`: the residuals are recomputed, and to each of
the four cells of `JTFI` the product of a Jacobian row and the residual vector
is added. -/
theorem calc_JTFI_eq (c : Calibration) :
    calc_JTFI c
      = { sphere_fitness c with
          JTFI := fun t =>
            if t < NUM_PARAMS then
              (sphere_fitness c).JTFI t + ∑ k in Finset.range NUM_SAMPLES,
                (sphere_fitness c).jacob (t * NUM_SAMPLES + k)
                  * (sphere_fitness c).sample_fitness k
            else (sphere_fitness c).JTFI t } := by
  unfold calc_JTFI
  simp only []
  rw [calc_JTFI_rows]

/-- The inner loop of the update step of `evaluatelm` run for `n` columns. -/
theorem evaluatelm_update_inner (row n : ℕ) (c : Calibration) :
    (List.range n).foldl
      (fun calib col =>
        { calib with
          sphere_param := setAt calib.sphere_param row
            (calib.sphere_param row + calib.JTFI col * calib.JTJ_LI (row * 4 + col)) })
      c
    = { c with
        sphere_param := fun t =>
          if t = row then
            c.sphere_param t + ∑ k in Finset.range n, c.JTFI k * c.JTJ_LI (row * 4 + k)
          else c.sphere_param t } := by
  induction n with
  | zero =>
    simp only [List.range_zero, List.foldl_nil, Finset.range_zero, Finset.sum_empty, add_zero]
    ext t <;> try rfl
    simp only []
    split_ifs <;> rfl
  | succ n ih =>
    rw [List.range_succ, List.foldl_append, ih]
    simp only [List.foldl_cons, List.foldl_nil, Finset.sum_range_succ]
    ext t <;> try rfl
    simp only [setAt]
    by_cases h : t = row
    · simp only [h, if_true]
      ring
    · simp only [h, if_false]

/-- Closed form of the update step of `evaluatelm`: to each parameter the
product of a row of `JTJ_LI` and `JTFI` is added. -/
theorem evaluatelm_update_eq (c : Calibration) :
    evaluatelm_update c
      = { c with
          sphere_param := fun t =>
            if t < NUM_PARAMS then
              c.sphere_param t + ∑ k in Finset.range NUM_PARAMS, c.JTFI k * c.JTJ_LI (t * 4 + k)
            else c.sphere_param t } := by
  unfold evaluatelm_update
  have key : ∀ n : ℕ,
      (List.range n).foldl
        (fun calib row =>
          (List.range NUM_PARAMS).foldl
            (fun calib col =>
              { calib with
                sphere_param := setAt calib.sphere_param row
                  (calib.sphere_param row + calib.JTFI col * calib.JTJ_LI (row * 4 + col)) })
            calib)
        c
      = { c with
          sphere_param := fun t =>
            if t < n then
              c.sphere_param t + ∑ k in Finset.range NUM_PARAMS, c.JTFI k * c.JTJ_LI (t * 4 + k)
            else c.sphere_param t } := by
    intro n
    induction n with
    | zero =>
      simp only [List.range_zero, List.foldl_nil]
      ext t <;> rfl
    | succ n ih =>
      rw [show List.range (n + 1) = List.range n ++ [n] from List.range_succ n,
        List.foldl_append, ih]
      simp only [List.foldl_cons, List.foldl_nil, evaluatelm_update_inner]
      ext t <;> try rfl
      simp only []
      by_cases h : t = n
      · subst h
        rw [if_pos rfl, if_neg (by omega), if_pos (by omega)]
      · rw [if_neg h]
        by_cases h2 : t < n
        · rw [if_pos h2, if_pos (by omega)]
        · rw [if_neg h2, if_neg (by omega)]
  exact key NUM_PARAMS

/-! ## Symmetry of the normal matrix and its inverse -/

/-- The cofactor array of a symmetric matrix is symmetric. -/
theorem inverse4x4_inv_symmetric (m : ℕ → ℚ) (hs : symmetric4 m) :
    symmetric4 (inverse4x4_inv m) := by
  have h1 : m 4 = m 1 := hs 1 0 (by decide) (by decide)
  have h2 : m 8 = m 2 := hs 2 0 (by decide) (by decide)
  have h3 : m 12 = m 3 := hs 3 0 (by decide) (by decide)
  have h4 : m 9 = m 6 := hs 2 1 (by decide) (by decide)
  have h5 : m 13 = m 7 := hs 3 1 (by decide) (by decide)
  have h6 : m 14 = m 11 := hs 3 2 (by decide) (by decide)
  intro row col hrow hcol
  interval_cases row <;> interval_cases col <;>
    simp only [inverse4x4_inv, Nat.reduceMul, Nat.reduceAdd, h1, h2, h3, h4, h5, h6] <;> ring

/-- `inverse4x4` maps a symmetric matrix to a symmetric matrix, also when the
result is written over a symmetric buffer and the inversion fails. -/
theorem inverse4x4_symmetric (m invOut : ℕ → ℚ) (hs : symmetric4 m)
    (ho : (inverse4x4 m invOut).1 = true ∨ symmetric4 invOut) :
    symmetric4 (inverse4x4 m invOut).2 := by
  by_cases hd : inverse4x4_det m = 0
  · rw [inverse4x4_snd_singular m invOut hd]
    rcases ho with ho | ho
    · rw [inverse4x4_fst] at ho
      simp [hd] at ho
    · exact ho
  · intro row col hrow hcol
    rw [inverse4x4_snd_apply m invOut hd, inverse4x4_snd_apply m invOut hd,
      if_pos (by omega), if_pos (by omega), inverse4x4_inv_symmetric m hs row col hrow hcol]

/-- The normal matrix formed from a zeroed `JTJ_LI` is symmetric. -/
theorem normal_matrix_symmetric (c : Calibration) (lambda : ℚ)
    (hz : ∀ t, t < NUM_PARAMS * NUM_PARAMS → c.JTJ_LI t = 0) :
    symmetric4 (normal_matrix c lambda) := by
  intro row col hrow hcol
  rw [normal_matrix_apply c lambda hz row col hrow hcol,
    normal_matrix_apply c lambda hz col row hcol hrow]
  congr 1
  · exact Finset.sum_congr rfl (fun k _ => mul_comm _ _)
  · by_cases h : row = col
    · rw [if_pos h, if_pos h.symm]
    · rw [if_neg h, if_neg (fun h2 => h h2.symm)]

/-- The matrix left in `JTJ_LI` by `calc_JTJ_LI` entered with `JTJ_LI` zeroed
is symmetric. -/
theorem calc_JTJ_LI_symmetric4 (c : Calibration) (lambda : ℚ)
    (hz : ∀ t, t < NUM_PARAMS * NUM_PARAMS → c.JTJ_LI t = 0) :
    symmetric4 (calc_JTJ_LI c lambda).JTJ_LI := by
  have hs := normal_matrix_symmetric c lambda hz
  have hres : (calc_JTJ_LI c lambda).JTJ_LI
      = (inverse4x4 (normal_matrix c lambda) (normal_matrix c lambda)).2 := by
    rw [calc_JTJ_LI_eq]
    split_ifs <;> rfl
  rw [hres]
  exact inverse4x4_symmetric _ _ hs (Or.inr hs)

/-- The inner loop of the transposed update run for `n` columns. -/
theorem evaluatelm_update_transposed_inner (row n : ℕ) (c : Calibration) :
    (List.range n).foldl
      (fun calib col =>
        { calib with
          sphere_param := setAt calib.sphere_param row
            (calib.sphere_param row + calib.JTFI col * calib.JTJ_LI (col * 4 + row)) })
      c
    = { c with
        sphere_param := fun t =>
          if t = row then
            c.sphere_param t + ∑ k in Finset.range n, c.JTFI k * c.JTJ_LI (k * 4 + row)
          else c.sphere_param t } := by
  induction n with
  | zero =>
    simp only [List.range_zero, List.foldl_nil, Finset.range_zero, Finset.sum_empty, add_zero]
    ext t <;> try rfl
    simp only []
    split_ifs <;> rfl
  | succ n ih =>
    rw [List.range_succ, List.foldl_append, ih]
    simp only [List.foldl_cons, List.foldl_nil, Finset.sum_range_succ]
    ext t <;> try rfl
    simp only [setAt]
    by_cases h : t = row
    · simp only [h, if_true]
      ring
    · simp only [h, if_false]

/-- Closed form of the transposed update: to each parameter the product of a
column of `JTJ_LI` and `JTFI` is added. -/
theorem evaluatelm_update_transposed_eq (c : Calibration) :
    evaluatelm_update_transposed c
      = { c with
          sphere_param := fun t =>
            if t < NUM_PARAMS then
              c.sphere_param t + ∑ k in Finset.range NUM_PARAMS, c.JTFI k * c.JTJ_LI (k * 4 + t)
            else c.sphere_param t } := by
  unfold evaluatelm_update_transposed
  have key : ∀ n : ℕ,
      (List.range n).foldl
        (fun calib row =>
          (List.range NUM_PARAMS).foldl
            (fun calib col =>
              { calib with
                sphere_param := setAt calib.sphere_param row
                  (calib.sphere_param row + calib.JTFI col * calib.JTJ_LI (col * 4 + row)) })
            calib)
        c
      = { c with
          sphere_param := fun t =>
            if t < n then
              c.sphere_param t + ∑ k in Finset.range NUM_PARAMS, c.JTFI k * c.JTJ_LI (k * 4 + t)
            else c.sphere_param t } := by
    intro n
    induction n with
    | zero =>
      simp only [List.range_zero, List.foldl_nil]
      ext t <;> rfl
    | succ n ih =>
      rw [show List.range (n + 1) = List.range n ++ [n] from List.range_succ n,
        List.foldl_append, ih]
      simp only [List.foldl_cons, List.foldl_nil, evaluatelm_update_transposed_inner]
      ext t <;> try rfl
      simp only []
      by_cases h : t = n
      · subst h
        rw [if_pos rfl, if_neg (by omega), if_pos (by omega)]
      · rw [if_neg h]
        by_cases h2 : t < n
        · rw [if_pos h2, if_pos (by omega)]
        · rw [if_neg h2, if_neg (by omega)]
  exact key NUM_PARAMS

/-- On a context whose `JTJ_LI` is symmetric the two updates agree. -/
theorem evaluatelm_update_of_symmetric (c : Calibration) (hs : symmetric4 c.JTJ_LI) :
    evaluatelm_update c = evaluatelm_update_transposed c := by
  rw [evaluatelm_update_eq, evaluatelm_update_transposed_eq]
  ext t <;> try rfl
  simp only []
  by_cases ht : t < NUM_PARAMS
  · rw [if_pos ht, if_pos ht]
    congr 1
    apply Finset.sum_congr rfl
    intro k hk
    rw [hs t k ht (Finset.mem_range.mp hk)]
  · rw [if_neg ht, if_neg ht]

/-- `calc_JTFI` leaves `JTJ_LI` alone. -/
theorem calc_JTFI_JTJ_LI (c : Calibration) : (calc_JTFI c).JTJ_LI = c.JTJ_LI := by
  rw [calc_JTFI_eq, sphere_fitness_eq]

/-- The amended C26. In exact arithmetic the normal matrix and its inverse are
symmetric. `inverse4x4` maps symmetric matrices to symmetric matrices; for
`JTJ_LI` zeroed on entry, every Jacobian buffer and every `lambda`, the matrix
`calc_JTJ_LI` forms is symmetric and so is the matrix it leaves in `JTJ_LI`
(whether or not it faults): `JTJ_LI[row*4+col] = JTJ_LI[col*4+row]` for all
`row`, `col`. Hence the parameter update of `evaluatelm`, which follows
`calc_JTFI`, yields the same context as the update that indexes the inverse as
`JTJ_LI[col*4+row]`. -/
theorem calc_JTJ_LI_inverse_symmetric :
    (∀ m invOut : ℕ → ℚ,
        (∀ row col, row < 4 → col < 4 → m (row * 4 + col) = m (col * 4 + row)) →
        (inverse4x4 m invOut).1 = true →
        ∀ row col, row < 4 → col < 4 →
          (inverse4x4 m invOut).2 (row * 4 + col) = (inverse4x4 m invOut).2 (col * 4 + row))
      ∧ ∀ (calib : Calibration) (lambda : ℚ), (∀ t, t < 16 → calib.JTJ_LI t = 0) →
          (∀ row col, row < 4 → col < 4 →
            normal_matrix calib lambda (row * 4 + col) = normal_matrix calib lambda (col * 4 + row))
          ∧ (∀ row col, row < 4 → col < 4 →
            (calc_JTJ_LI calib lambda).JTJ_LI (row * 4 + col)
              = (calc_JTJ_LI calib lambda).JTJ_LI (col * 4 + row))
          ∧ evaluatelm_update (calc_JTFI (calc_JTJ_LI calib lambda))
              = evaluatelm_update_transposed (calc_JTFI (calc_JTJ_LI calib lambda))
          ∧ ∀ row, row < 4 →
              (evaluatelm_update (calc_JTFI (calc_JTJ_LI calib lambda))).sphere_param row
                = (calc_JTFI (calc_JTJ_LI calib lambda)).sphere_param row
                  + ∑ col in Finset.range 4,
                      (calc_JTFI (calc_JTJ_LI calib lambda)).JTFI col
                        * (calc_JTJ_LI calib lambda).JTJ_LI (col * 4 + row) := by
  refine ⟨fun m invOut hs hflag => inverse4x4_symmetric m invOut hs (Or.inl hflag), ?_⟩
  intro calib lambda hz
  have hsym := calc_JTJ_LI_symmetric4 calib lambda hz
  have hsym2 : symmetric4 (calc_JTFI (calc_JTJ_LI calib lambda)).JTJ_LI := by
    rw [calc_JTFI_JTJ_LI]; exact hsym
  refine ⟨normal_matrix_symmetric calib lambda hz, hsym,
    evaluatelm_update_of_symmetric _ hsym2, ?_⟩
  intro row hrow
  rw [evaluatelm_update_of_symmetric _ hsym2, evaluatelm_update_transposed_eq]
  simp only []
  rw [if_pos hrow, calc_JTFI_JTJ_LI]

/-- The amended C26 at `exCalib`, whose `JTJ_LI` and Jacobian are zero, with `lambda = 1`. -/
theorem calc_JTJ_LI_inverse_symmetric_witness :
    (∀ t, t < 16 → exCalib.JTJ_LI t = 0)
      ∧ (∀ row col, row < 4 → col < 4 →
          (calc_JTJ_LI exCalib 1).JTJ_LI (row * 4 + col)
            = (calc_JTJ_LI exCalib 1).JTJ_LI (col * 4 + row))
      ∧ evaluatelm_update (calc_JTFI (calc_JTJ_LI exCalib 1))
          = evaluatelm_update_transposed (calc_JTFI (calc_JTJ_LI exCalib 1)) :=
  ⟨fun _ _ => rfl,
    (calc_JTJ_LI_inverse_symmetric.2 exCalib 1 (fun _ _ => rfl)).2.1,
    (calc_JTJ_LI_inverse_symmetric.2 exCalib 1 (fun _ _ => rfl)).2.2.1⟩

/-! ## Exit accounting of `evaluatelm` -/

/-- The value `evaluatelm` returns when its loop ends without a fault. -/
theorem evaluatelm_fst_of_loop (alloc_ok : ℕ → Bool) (fuel : ℕ) (calib : Calibration)
    (sf : LMState)
    (h : evaluatelm_loop alloc_ok fuel 0 (evaluatelm_init calib) = some (Sum.inr sf)) :
    (evaluatelm alloc_ok fuel calib).map Prod.fst = some sf.global_best_f := by
  unfold evaluatelm
  rw [h]
  rfl

/-- `evaluatelm` leaves the samples, `count`, `passed`, `complete` and
`instance` alone. -/
theorem evaluatelm_frame (alloc_ok : ℕ → Bool) (fuel : ℕ) (calib : Calibration)
    (r : ℚ × Calibration) (hret : evaluatelm alloc_ok fuel calib = some r) :
    calib.frame r.2 := by
  rcases evaluatelm_cases alloc_ok fuel calib r hret with ⟨hl, _⟩ | ⟨sf, hl, _, hc⟩
  · have hfr := (evaluatelm_loop_fault alloc_ok fuel 0 _ _ hl).2
    rw [evaluatelm_init_calib] at hfr
    exact Calibration.frame_trans (sphere_fitness_frameF calib).1 hfr
  · have hfr := (evaluatelm_loop_ok alloc_ok fuel 0 _ sf hl).1
    rw [evaluatelm_init_calib] at hfr
    rw [hc]
    exact Calibration.frame_trans (sphere_fitness_frameF calib).1 hfr

/-- `process_samples` runs the optimiser on the context with the fault flag
cleared and applies the policy to what it returns. -/
theorem process_samples_eq (alloc_ok : ℕ → Bool) (fuel : ℕ) (calib calib' : Calibration)
    (hret : process_samples alloc_ok fuel calib = some calib') :
    ∃ r, evaluatelm alloc_ok fuel { calib with fault := false } = some r
      ∧ calib' = process_samples_policy r.1 r.2 := by
  unfold process_samples at hret
  simp only [Bool.false_eq_true, if_false] at hret
  cases h : evaluatelm alloc_ok fuel { calib with fault := false } with
  | none => rw [h] at hret; simp at hret
  | some r =>
    rw [h] at hret
    simp only [Option.some.injEq] at hret
    exact ⟨r, rfl, hret.symm⟩

theorem process_samples_policy_passed (f : ℚ) (c : Calibration) :
    (process_samples_policy f c).passed = (if f ≤ 1 then (c.passed + 1) % 256 else 0) := by
  unfold process_samples_policy AIMED_FITNESS
  by_cases hf : f ≤ 1
  · simp only [hf, if_true]
    split_ifs <;> rfl
  · simp only [hf, if_false]
    split_ifs <;> rfl

theorem process_samples_policy_complete (f : ℚ) (c : Calibration) :
    ((process_samples_policy f c).complete = true ↔ (process_samples_policy f c).passed = 2) := by
  unfold process_samples_policy AIMED_FITNESS
  by_cases hf : f ≤ 1
  · simp only [hf, if_true]
    split_ifs with h <;> simp [h]
  · simp [hf]

/-- The amended C7. `process_samples` applies the pass/complete policy to the
fitness `f` returned by the optimiser: if `f <= 1` then `passed` becomes
`passed + 1` reduced modulo `256` (so `passed + 1` whenever `passed < 255`),
otherwise `0`; afterwards `complete` is true exactly when the new `passed` is
`2`. Hence a context with `passed = 0` is not complete after one round, and is
complete after a second round exactly when both rounds had `f <= 1`. -/
theorem process_samples_pass_policy :
    (∀ (alloc_ok : ℕ → Bool) (fuel : ℕ) (calib calib' : Calibration),
        process_samples alloc_ok fuel calib = some calib' →
        ∃ r, evaluatelm alloc_ok fuel { calib with fault := false } = some r
          ∧ calib'.passed = (if r.1 ≤ 1 then (calib.passed + 1) % 256 else 0)
          ∧ (calib.passed < 255 → r.1 ≤ 1 → calib'.passed = calib.passed + 1)
          ∧ (¬ r.1 ≤ 1 → calib'.passed = 0)
          ∧ (calib'.complete = true ↔ calib'.passed = 2))
      ∧ (∀ (a1 a2 : ℕ → Bool) (fuel1 fuel2 : ℕ) (c0 c1 d1 c2 : Calibration),
          c0.passed = 0 → process_samples a1 fuel1 c0 = some c1 →
          d1.passed = c1.passed → process_samples a2 fuel2 d1 = some c2 →
          ∃ r1 r2, evaluatelm a1 fuel1 { c0 with fault := false } = some r1
            ∧ evaluatelm a2 fuel2 { d1 with fault := false } = some r2
            ∧ c1.complete = false
            ∧ (c2.complete = true ↔ r1.1 ≤ 1 ∧ r2.1 ≤ 1)) := by
  have single : ∀ (alloc_ok : ℕ → Bool) (fuel : ℕ) (calib calib' : Calibration),
      process_samples alloc_ok fuel calib = some calib' →
      ∃ r, evaluatelm alloc_ok fuel { calib with fault := false } = some r
        ∧ calib'.passed = (if r.1 ≤ 1 then (calib.passed + 1) % 256 else 0)
        ∧ (calib'.complete = true ↔ calib'.passed = 2) := by
    intro alloc_ok fuel calib calib' hret
    obtain ⟨r, hr, hc⟩ := process_samples_eq alloc_ok fuel calib calib' hret
    have hp : r.2.passed = calib.passed := (evaluatelm_frame alloc_ok fuel _ r hr).2.2.1
    refine ⟨r, hr, ?_, ?_⟩
    · rw [hc, process_samples_policy_passed, hp]
    · rw [hc]; exact process_samples_policy_complete r.1 r.2
  constructor
  · intro alloc_ok fuel calib calib' hret
    obtain ⟨r, hr, hp, hc⟩ := single alloc_ok fuel calib calib' hret
    refine ⟨r, hr, hp, ?_, ?_, hc⟩
    · intro hlt hf
      rw [hp, if_pos hf]
      exact Nat.mod_eq_of_lt (by omega)
    · intro hf
      rw [hp, if_neg hf]
  · intro a1 a2 fuel1 fuel2 c0 c1 d1 c2 h0 hret1 hd hret2
    obtain ⟨r1, hr1, hp1, hc1⟩ := single a1 fuel1 c0 c1 hret1
    obtain ⟨r2, hr2, hp2, hc2⟩ := single a2 fuel2 d1 c2 hret2
    refine ⟨r1, r2, hr1, hr2, ?_, ?_⟩
    · rw [h0] at hp1
      cases hcomp : c1.complete
      · rfl
      · have := hc1.mp hcomp
        rw [this] at hp1
        split_ifs at hp1
        omega
    · rw [hc2, hp2, hd, hp1, h0]
      by_cases hf1 : r1.1 ≤ 1 <;> by_cases hf2 : r2.1 ≤ 1 <;> simp [hf1, hf2]

/-- `process_samples` on a context whose fault flag is clear. -/
theorem process_samples_of_clear (alloc_ok : ℕ → Bool) (fuel : ℕ) (calib : Calibration)
    (r : ℚ × Calibration) (hc : calib.fault = false)
    (hr : evaluatelm alloc_ok fuel calib = some r) :
    evaluatelm alloc_ok fuel { calib with fault := false } = some r
      ∧ process_samples alloc_ok fuel calib = some (process_samples_policy r.1 r.2) := by
  have he : ({ calib with fault := false } : Calibration) = calib := by
    cases calib
    simp only [Calibration.mk.injEq, true_and]
    simp only at hc
    simp [hc]
  refine ⟨by rw [he, hr], ?_⟩
  unfold process_samples
  simp only [Bool.false_eq_true, if_false]
  rw [he, hr]

theorem option_map_of_eq_some {α β : Type} (o : Option α) (a : α) (f : α → β) (b : β)
    (h : o = some a) (hb : f a = b) : o.map f = some b := by
  subst h
  simp [hb]

theorem exCalib_fault : exCalib.fault = false := rfl

theorem exCalib_passed : exCalib.passed = 255 := rfl

theorem exCalib_process :
    process_samples (fun _ => true) 1 exCalib
      = some (process_samples_policy exResult.1 exResult.2) :=
  (process_samples_of_clear (fun _ => true) 1 exCalib exResult exCalib_fault
    exResult_spec.1).2

/-- The amended C7 at `exCalib`, whose fit returns `0`: `passed` goes from
`255` to `0` and the context is not complete. -/
theorem process_samples_pass_policy_witness :
    process_samples (fun _ => true) 1 exCalib = some (process_samples_policy exResult.1 exResult.2)
      ∧ ∃ r, evaluatelm (fun _ => true) 1 { exCalib with fault := false } = some r
          ∧ (process_samples_policy exResult.1 exResult.2).passed
              = (if r.1 ≤ 1 then (exCalib.passed + 1) % 256 else 0)
          ∧ (exCalib.passed < 255 → r.1 ≤ 1 →
              (process_samples_policy exResult.1 exResult.2).passed = exCalib.passed + 1)
          ∧ (¬ r.1 ≤ 1 → (process_samples_policy exResult.1 exResult.2).passed = 0)
          ∧ ((process_samples_policy exResult.1 exResult.2).complete = true
              ↔ (process_samples_policy exResult.1 exResult.2).passed = 2) :=
  ⟨exCalib_process,
    process_samples_pass_policy.1 (fun _ => true) 1 exCalib _ exCalib_process⟩

/-- C7 as stated fails at the largest `uint8_t`: on `exCalib`, where
`passed = 255`, the fit returns `0 <= 1` and `passed` becomes `0`, not
`passed + 1 = 256`. -/
theorem process_samples_passed_wraps :
    exCalib.passed = 255
      ∧ (evaluatelm (fun _ => true) 1 { exCalib with fault := false }).map Prod.fst = some 0
      ∧ (process_samples (fun _ => true) 1 exCalib).map Calibration.passed = some 0
      ∧ (process_samples (fun _ => true) 1 exCalib).map Calibration.passed
          ≠ some (exCalib.passed + 1) := by
  have h := exResult_spec
  have hclear := (process_samples_of_clear (fun _ => true) 1 exCalib exResult exCalib_fault
    h.1).1
  have hp : exResult.2.passed = exCalib.passed :=
    (evaluatelm_frame (fun _ => true) 1 exCalib exResult h.1).2.2.1
  have hpassed : (process_samples_policy exResult.1 exResult.2).passed = 0 := by
    rw [process_samples_policy_passed, h.2.1, hp, exCalib_passed]
    norm_num
  have hmap := option_map_of_eq_some _ _ Calibration.passed 0 exCalib_process hpassed
  refine ⟨exCalib_passed, option_map_of_eq_some _ _ Prod.fst 0 hclear h.2.1, hmap, ?_⟩
  rw [hmap, exCalib_passed]
  simp

/-! ## A faulted fit in `process_samples` -/

/-- What `process_samples` does with a fit that returns the sentinel: `-1` is
not greater than `AIMED_FITNESS`, so `passed` is incremented, and `complete` is
set if it reaches `2`. -/
theorem process_samples_policy_sentinel (c : Calibration) :
    (process_samples_policy (-1) c).passed = (c.passed + 1) % 256
      ∧ (process_samples_policy (-1) c).fault = c.fault
      ∧ ((process_samples_policy (-1) c).complete = true ↔ (c.passed + 1) % 256 = 2) := by
  have hp := process_samples_policy_passed (-1) c
  have hc := process_samples_policy_complete (-1) c
  rw [if_pos (by norm_num)] at hp
  refine ⟨hp, ?_, by rw [hc, hp]⟩
  unfold process_samples_policy
  simp only []
  split_ifs <;> rfl

set_option maxRecDepth 100000 in
/-- C20 fails on the code: on `exOnePass`, a context with `passed = 1`, with the
scratch allocation of the first optimiser pass failing, `evaluatelm` returns the
sentinel `-1` and `process_samples` returns with `fault = true`, `passed = 2`
and `complete = true`: the faulted fit is counted as a pass. -/
theorem process_samples_fault_counted :
    exOnePass.passed = 1
      ∧ (evaluatelm (fun _ => false) 1 { exOnePass with fault := false }).map Prod.fst
          = some (-1)
      ∧ (process_samples (fun _ => false) 1 exOnePass).map
          (fun c => (c.fault, c.passed, c.complete)) = some (true, 2, true) := by
  decide!

/-! ## A stale fault flag in `process_samples` -/

/-- The residuals of `exStalePass` with its flag cleared are all zero. -/
theorem exStalePass_residual (j : ℕ) (hj : j < NUM_SAMPLES) :
    (sphere_fitness { exStalePass with fault := false }).sample_fitness j = 0 := by
  have hnc : ¬ |({ exStalePass with fault := false } : Calibration).sphere_param 0| < 1 := by
    have : ({ exStalePass with fault := false } : Calibration).sphere_param 0 = 1 := rfl
    rw [this]
    norm_num
  have hu := exSample_unit j
  rw [sphere_fitness_residual_noclamp _ hnc j hj]
  unfold residual exStalePass exOnePass exCalib
  simp only [if_true, one_ne_zero, if_false]
  norm_num
  linarith

/-- The policy of `process_samples` leaves the fault flag alone. -/
theorem process_samples_policy_fault (f : ℚ) (c : Calibration) :
    (process_samples_policy f c).fault = c.fault := by
  unfold process_samples_policy
  simp only []
  split_ifs <;> rfl

/-- `process_samples` runs the optimiser on the context with the flag cleared,
whatever the flag was. -/
theorem process_samples_run (alloc_ok : ℕ → Bool) (fuel : ℕ) (calib : Calibration)
    (r : ℚ × Calibration)
    (hr : evaluatelm alloc_ok fuel { calib with fault := false } = some r) :
    process_samples alloc_ok fuel calib = some (process_samples_policy r.1 r.2) := by
  unfold process_samples
  simp only [Bool.false_eq_true, if_false]
  rw [hr]

/-- C21 fails on the code. `process_samples` clears the fault flag before it
tests it, so the test never fires: on `exStalePass`, a context entered with
`fault = true`, `passed = 1` and `complete = false`, the optimiser is run (it
returns the fitness `0`), and `process_samples` returns with `fault = false`,
`passed = 2` and `complete = true`. -/
theorem process_samples_stale_fault_rerun :
    exStalePass.fault = true ∧ exStalePass.passed = 1 ∧ exStalePass.complete = false
      ∧ (∃ r, evaluatelm (fun _ => true) 1 { exStalePass with fault := false } = some r
          ∧ r.1 = 0
          ∧ process_samples (fun _ => true) 1 exStalePass
              = some (process_samples_policy r.1 r.2))
      ∧ (process_samples (fun _ => true) 1 exStalePass).map
          (fun c => (c.fault, c.passed, c.complete)) = some (false, 2, true) := by
  obtain ⟨r, hr, h1, h2⟩ := evaluatelm_perfect (fun _ => true) 0
    { exStalePass with fault := false } rfl rfl
    (by unfold exStalePass exOnePass exCalib; simp only [if_true]; exact le_refl 1)
    exStalePass_residual
  have hr1 : evaluatelm (fun _ => true) 1 { exStalePass with fault := false } = some r := hr
  have hproc : process_samples (fun _ => true) 1 exStalePass
      = some (process_samples_policy r.1 r.2) :=
    process_samples_run _ 1 exStalePass r hr1
  have hp : r.2.passed = 1 :=
    (evaluatelm_frame (fun _ => true) 1 _ r hr1).2.2.1
  have hpassed : (process_samples_policy r.1 r.2).passed = 2 := by
    rw [process_samples_policy_passed, h1, hp]
    norm_num
  have hcomp : (process_samples_policy r.1 r.2).complete = true :=
    (process_samples_policy_complete r.1 r.2).mpr hpassed
  have hfault : (process_samples_policy r.1 r.2).fault = false := by
    rw [process_samples_policy_fault, h2]
  refine ⟨rfl, rfl, rfl, ⟨r, hr1, h1, hproc⟩, ?_⟩
  rw [hproc]
  simp only [Option.map_some', hfault, hpassed, hcomp]

/-! ## `collect_samples` -/

/-- The length test of the model is the test of the Euclidean length. -/
theorem length_gt_iff (v : Vector3f) :
    v.length_gt SAMPLE_DIST = true ↔ (50 : ℝ) < Real.sqrt ((v.length_sq : ℚ) : ℝ) := by
  unfold Vector3f.length_gt SAMPLE_DIST
  rw [Real.lt_sqrt (by norm_num)]
  have h0 : ¬ ((50 : ℚ) < 0) := by norm_num
  simp only [h0, decide_False, Bool.false_or, decide_eq_true_eq]
  constructor
  · intro h
    have : ((50 * 50 : ℚ) : ℝ) < ((v.length_sq : ℚ) : ℝ) := by exact_mod_cast h
    norm_num at this ⊢
    exact this
  · intro h
    have : ((50 * 50 : ℚ) : ℝ) < ((v.length_sq : ℚ) : ℝ) := by
      norm_num at h ⊢
      exact h
    exact_mod_cast this

theorem validate_sample_iff (cal : Calibration) :
    validate_sample cal = true ↔ ∀ k, k < cal.count → cal.samples k ≠ cal.samples cal.count := by
  unfold validate_sample
  simp [List.all_eq_true]

/-- The body of the loop of `collect_samples` touches the context of its own
instance only. -/
theorem collect_samples_body_other (hw : Sensors) (s : CollectState) (i j : ℕ) (hj : j ≠ i) :
    (collect_samples_body hw s i).calib j = s.calib j := by
  unfold collect_samples_body
  simp only []
  split_ifs <;> simp [setAt, hj]

/-- The context of instance `i` after the body of the loop of
`collect_samples`, when the instance is below quota. -/
theorem collect_samples_body_self (hw : Sensors) (s : CollectState) (i : ℕ)
    (hq : (s.calib i).count ≠ NUM_SAMPLES) :
    (collect_samples_body hw s i).calib i =
      if hw.healthy s.reads i = true then
        if (s.calib i).count ≥ 1 then
          if (((s.calib i).samples ((s.calib i).count - 1)).sub
                (hw.get_field s.reads i)).length_gt SAMPLE_DIST = true then
            if ∀ k, k < (s.calib i).count → (s.calib i).samples k ≠ hw.get_field s.reads i then
              { s.calib i with
                samples := setAt (s.calib i).samples (s.calib i).count (hw.get_field s.reads i)
                count := ((s.calib i).count + 1) % 256 }
            else
              { s.calib i with
                samples := setAt (s.calib i).samples (s.calib i).count (hw.get_field s.reads i) }
          else s.calib i
        else
          { s.calib i with
            samples := setAt (s.calib i).samples (s.calib i).count (hw.get_field s.reads i)
            count := ((s.calib i).count + 1) % 256 }
      else s.calib i := by
  unfold collect_samples_body
  simp only [hq, if_false]
  by_cases hh : hw.healthy s.reads i = true
  · simp only [hh, Bool.not_true, Bool.false_eq_true, if_false, if_true]
    by_cases hc : (s.calib i).count ≥ 1
    · simp only [hc, if_true]
      by_cases hd : (((s.calib i).samples ((s.calib i).count - 1)).sub
          (hw.get_field s.reads i)).length_gt SAMPLE_DIST = true
      · simp only [hd, if_true]
        have hv := validate_sample_iff
          { s.calib i with
            samples := setAt (s.calib i).samples (s.calib i).count (hw.get_field s.reads i) }
        simp only [setAt_same] at hv
        have hv' : (∀ k, k < (s.calib i).count →
            setAt (s.calib i).samples (s.calib i).count (hw.get_field s.reads i) k
              ≠ hw.get_field s.reads i)
            ↔ ∀ k, k < (s.calib i).count → (s.calib i).samples k ≠ hw.get_field s.reads i := by
          constructor
          · intro h k hk
            have := h k hk
            rwa [setAt_other _ _ _ _ (Nat.ne_of_lt hk)] at this
          · intro h k hk
            rw [setAt_other _ _ _ _ (Nat.ne_of_lt hk)]
            exact h k hk
        rw [hv'] at hv
        by_cases hall : ∀ k, k < (s.calib i).count → (s.calib i).samples k ≠ hw.get_field s.reads i
        · simp only [hv.mpr hall, if_true, setAt_same]
          rw [if_pos hall]
        · have hvf : validate_sample { s.calib i with
              samples := setAt (s.calib i).samples (s.calib i).count (hw.get_field s.reads i) }
              = false := by
            cases h : validate_sample { s.calib i with
              samples := setAt (s.calib i).samples (s.calib i).count (hw.get_field s.reads i) }
            · rfl
            · exact absurd (hv.mp h) hall
          simp only [hvf, Bool.false_eq_true, if_false, setAt_same]
          rw [if_neg hall]
      · simp only [hd, if_false, setAt_same]
        rfl
    · simp only [hc, if_false, setAt_same]
  · have hh' : hw.healthy s.reads i = false := by simpa using hh
    simp [hh']

/-- C9. For an instance below quota, the reading is accepted (stored at
`samples[count]`, `count` incremented) if and only if the instance is healthy
and either `count = 0` or both the Euclidean distance to `samples[count-1]` is
greater than `50` and the reading differs from every one of
`samples[0..count-1]`; a reading that is not accepted leaves `count`
unchanged, and `samples[0..count-1]` are unchanged in every case. -/
theorem collect_samples_accept_iff (hw : Sensors) (s : CollectState) (i : ℕ)
    (hq : (s.calib i).count < NUM_SAMPLES) :
    ((((collect_samples_body hw s i).calib i).count = (s.calib i).count + 1
          ∧ ((collect_samples_body hw s i).calib i).samples (s.calib i).count
              = hw.get_field s.reads i)
        ↔ (hw.healthy s.reads i = true
            ∧ ((s.calib i).count = 0
              ∨ ((50 : ℝ) < Real.sqrt (((((s.calib i).samples ((s.calib i).count - 1)).sub
                      (hw.get_field s.reads i)).length_sq : ℚ) : ℝ)
                  ∧ ∀ k, k < (s.calib i).count →
                      (s.calib i).samples k ≠ hw.get_field s.reads i))))
      ∧ (¬ (((collect_samples_body hw s i).calib i).count = (s.calib i).count + 1
            ∧ ((collect_samples_body hw s i).calib i).samples (s.calib i).count
                = hw.get_field s.reads i) →
          ((collect_samples_body hw s i).calib i).count = (s.calib i).count)
      ∧ (∀ k, k < (s.calib i).count →
          ((collect_samples_body hw s i).calib i).samples k = (s.calib i).samples k) := by
  have hlt : (s.calib i).count < 100 := hq
  have hne : (s.calib i).count ≠ NUM_SAMPLES := Nat.ne_of_lt hq
  have hmod : ((s.calib i).count + 1) % 256 = (s.calib i).count + 1 :=
    Nat.mod_eq_of_lt (by omega)
  rw [collect_samples_body_self hw s i hne, ← length_gt_iff]
  by_cases hh : hw.healthy s.reads i = true
  · rw [if_pos hh]
    by_cases hc : (s.calib i).count ≥ 1
    · have hc0 : (s.calib i).count ≠ 0 := by omega
      rw [if_pos hc]
      by_cases hd : (((s.calib i).samples ((s.calib i).count - 1)).sub
          (hw.get_field s.reads i)).length_gt SAMPLE_DIST = true
      · rw [if_pos hd]
        by_cases hall : ∀ k, k < (s.calib i).count → (s.calib i).samples k ≠ hw.get_field s.reads i
        · rw [if_pos hall]
          have hacc : ((s.calib i).count + 1) % 256 = (s.calib i).count + 1
              ∧ setAt (s.calib i).samples (s.calib i).count (hw.get_field s.reads i)
                  (s.calib i).count = hw.get_field s.reads i := ⟨hmod, setAt_same _ _ _⟩
          exact ⟨⟨fun _ => ⟨hh, Or.inr ⟨hd, hall⟩⟩, fun _ => hacc⟩, fun h => absurd hacc h,
            fun k hk => setAt_other _ _ _ _ (Nat.ne_of_lt hk)⟩
        · rw [if_neg hall]
          have hno : ¬ ((s.calib i).count = (s.calib i).count + 1
              ∧ setAt (s.calib i).samples (s.calib i).count (hw.get_field s.reads i)
                  (s.calib i).count = hw.get_field s.reads i) := fun h => by omega
          refine ⟨⟨fun h => absurd h hno, fun h => ?_⟩, fun _ => rfl,
            fun k hk => setAt_other _ _ _ _ (Nat.ne_of_lt hk)⟩
          rcases h.2 with h0 | ⟨_, h2⟩
          · exact absurd h0 hc0
          · exact absurd h2 hall
      · rw [if_neg hd]
        have hno : ¬ ((s.calib i).count = (s.calib i).count + 1
            ∧ (s.calib i).samples (s.calib i).count = hw.get_field s.reads i) :=
          fun h => by omega
        refine ⟨⟨fun h => absurd h hno, fun h => ?_⟩, fun _ => rfl, fun _ _ => rfl⟩
        rcases h.2 with h0 | ⟨h1, _⟩
        · exact absurd h0 hc0
        · exact absurd h1 hd
    · have hc0 : (s.calib i).count = 0 := by omega
      rw [if_neg hc]
      have hacc : ((s.calib i).count + 1) % 256 = (s.calib i).count + 1
          ∧ setAt (s.calib i).samples (s.calib i).count (hw.get_field s.reads i)
              (s.calib i).count = hw.get_field s.reads i := ⟨hmod, setAt_same _ _ _⟩
      exact ⟨⟨fun _ => ⟨hh, Or.inl hc0⟩, fun _ => hacc⟩, fun h => absurd hacc h,
        fun k hk => setAt_other _ _ _ _ (Nat.ne_of_lt hk)⟩
  · rw [if_neg hh]
    have hno : ¬ ((s.calib i).count = (s.calib i).count + 1
        ∧ (s.calib i).samples (s.calib i).count = hw.get_field s.reads i) :=
      fun h => by omega
    exact ⟨⟨fun h => absurd h hno, fun h => absurd h.1 hh⟩, fun _ => rfl, fun _ _ => rfl⟩

/-- C9 at `exCollect`: the second reading of `exSensors` is accepted. -/
theorem collect_samples_accept_iff_witness :
    (exCollect.calib 0).count < NUM_SAMPLES
      ∧ ((collect_samples_body exSensors exCollect 0).calib 0).count = 2
      ∧ ((collect_samples_body exSensors exCollect 0).calib 0).samples 1 = ⟨1, 100, 0⟩ :=
  have hq : (exCollect.calib 0).count < NUM_SAMPLES := by decide
  have hfar : (((exCollect.calib 0).samples ((exCollect.calib 0).count - 1)).sub
      (exSensors.get_field exCollect.reads 0)).length_gt SAMPLE_DIST = true := by decide!
  have hacc := (collect_samples_accept_iff exSensors exCollect 0 hq).1.mpr
    ⟨rfl, Or.inr ⟨(length_gt_iff _).mp hfar, by
      intro k hk
      have hk0 : k = 0 := by
        have : (exCollect.calib 0).count = 1 := rfl
        omega
      subst hk0
      decide!⟩⟩
  ⟨hq, hacc.1, by
    have h := hacc.2
    have e1 : (exCollect.calib 0).count = 1 := rfl
    have e2 : exSensors.get_field exCollect.reads 0 = ⟨1, 100, 0⟩ := by decide!
    rw [e1, e2] at h
    exact h⟩

/-! ## Spacing of the collected samples -/

/-- The body of the loop of `collect_samples` keeps every context's samples
farther than `SAMPLE_DIST` from their predecessors. -/
theorem collect_samples_body_far (hw : Sensors) (s : CollectState) (i : ℕ)
    (h : ∀ j, consecutive_far (s.calib j)) :
    ∀ j, consecutive_far ((collect_samples_body hw s i).calib j) := by
  intro j
  by_cases hj : j = i
  swap
  · rw [collect_samples_body_other hw s i j hj]; exact h j
  subst hj
  by_cases hq : (s.calib j).count = NUM_SAMPLES
  · have : collect_samples_body hw s j = s := by
      unfold collect_samples_body
      simp only [hq, if_true]
    rw [this]; exact h j
  rw [collect_samples_body_self hw s j hq]
  have hstore : ∀ (n : ℕ), n ≤ (s.calib j).count + 1 →
      (n = (s.calib j).count + 1 → 1 ≤ (s.calib j).count →
        (((s.calib j).samples ((s.calib j).count - 1)).sub
          (hw.get_field s.reads j)).length_gt SAMPLE_DIST = true) →
      consecutive_far { s.calib j with
        samples := setAt (s.calib j).samples (s.calib j).count (hw.get_field s.reads j)
        count := n } := by
    intro n hn hlast k hk
    show ((setAt (s.calib j).samples (s.calib j).count (hw.get_field s.reads j) k).sub
      (setAt (s.calib j).samples (s.calib j).count (hw.get_field s.reads j) (k + 1))).length_gt
        SAMPLE_DIST = true
    have hk' : k + 1 < n := hk
    by_cases hend : k + 1 = (s.calib j).count
    · have hn' : n = (s.calib j).count + 1 := by omega
      have hkc : k ≠ (s.calib j).count := by omega
      have hkm : k = (s.calib j).count - 1 := by omega
      rw [setAt_other _ _ _ _ hkc, hend, setAt_same, hkm]
      exact hlast hn' (by omega)
    · have hkc : k ≠ (s.calib j).count := by omega
      rw [setAt_other _ _ _ _ hkc, setAt_other _ _ _ _ hend]
      exact h j k (by omega)
  have hmodle : ((s.calib j).count + 1) % 256 ≤ (s.calib j).count + 1 := Nat.mod_le _ _
  split_ifs with hh hc hd hall
  · exact hstore _ hmodle (fun _ _ => hd)
  · exact hstore _ (Nat.le_succ _) (fun hn _ => absurd hn (by omega))
  · exact h j
  · exact hstore _ hmodle (fun _ h1 => absurd h1 hc)
  · exact h j

theorem collect_samples_pass_far (hw : Sensors) (s : CollectState)
    (h : ∀ j, consecutive_far (s.calib j)) :
    ∀ j, consecutive_far ((collect_samples_pass hw s).calib j) := by
  unfold collect_samples_pass
  exact foldl_range_invariant (fun x : CollectState => ∀ j, consecutive_far (x.calib j))
    (collect_samples_body hw) hw.get_count
    (fun x i _ hx => collect_samples_body_far hw x i hx) s h

theorem collect_samples_iterate_far (hw : Sensors) (n : ℕ) (s : CollectState)
    (h : ∀ j, consecutive_far (s.calib j)) :
    ∀ j, consecutive_far (((collect_samples_pass hw)^[n] s).calib j) := by
  induction n generalizing s with
  | zero => exact h
  | succ n ih =>
    rw [Function.iterate_succ_apply]
    exact ih _ (collect_samples_pass_far hw s h)

theorem collect_samples_loop_far (hw : Sensors) (fuel : ℕ) :
    ∀ (s s' : CollectState), (∀ j, consecutive_far (s.calib j)) →
      collect_samples_loop hw fuel s = some s' → ∀ j, consecutive_far (s'.calib j) := by
  induction fuel with
  | zero =>
    intro s s' _ hret
    simp [collect_samples_loop] at hret
  | succ fuel ih =>
    intro s s' h hret
    rw [collect_samples_loop] at hret
    have hp := collect_samples_pass_far hw s h
    split_ifs at hret with hdone
    · simp only [Option.some.injEq] at hret
      rw [← hret]; exact hp
    · exact ih _ s' hp hret

/-- The amended C10. For every sensor feed and every instance, `collect_samples`
entered with every count at `0` never accepts a sample at distance `<= 50` from
the sample accepted just before it: at every moment of the round (after any
number of passes of its loop, and on return), for every index `k` with
`k + 1 < count`, the distance between `samples[k]` and `samples[k+1]` is
greater than `50`. -/
theorem collect_samples_consecutive_far (hw : Sensors) (fuel : ℕ)
    (calib calib' : ℕ → Calibration) (h0 : ∀ i, (calib i).count = 0)
    (hret : collect_samples hw fuel calib = some calib') :
    (∀ i k, k + 1 < (calib' i).count →
        (50 : ℝ) < Real.sqrt (((((calib' i).samples k).sub
          ((calib' i).samples (k + 1))).length_sq : ℚ) : ℝ))
      ∧ ∀ n i k, k + 1 < (collect_samples_after hw n calib i).count →
          (50 : ℝ) < Real.sqrt (((((collect_samples_after hw n calib i).samples k).sub
            ((collect_samples_after hw n calib i).samples (k + 1))).length_sq : ℚ) : ℝ) := by
  have hstart : ∀ j, consecutive_far
      ((CollectState.mk calib 0 0).calib j) := by
    intro j k hk
    have : (calib j).count = 0 := h0 j
    have hk' : k + 1 < (calib j).count := hk
    omega
  constructor
  · intro i k hk
    unfold collect_samples at hret
    cases hl : collect_samples_loop hw fuel { calib := calib, sampling_over_cnt := 0, reads := 0 }
      with
    | none => rw [hl] at hret; simp at hret
    | some s' =>
      rw [hl] at hret
      simp only [Option.map_some', Option.some.injEq] at hret
      have := collect_samples_loop_far hw fuel _ s' hstart hl i
      rw [hret] at this
      exact (length_gt_iff _).mp (this k hk)
  · intro n i k hk
    exact (length_gt_iff _).mp (collect_samples_iterate_far hw n _ hstart i k hk)

/-! ## A collection round on a concrete feed -/

set_option maxRecDepth 100000 in
/-- On `exSensors` every reading is accepted; the round ends after `100`
passes. -/
theorem exSensors_run :
    (collect_samples exSensors 100 exStart).map
        (fun c => ((c 0).count, (c 0).samples 0, (c 0).samples 1, (c 0).samples 2))
      = some (100, ⟨0, 0, 0⟩, ⟨1, 100, 0⟩, ⟨2, 0, 0⟩) := by
  decide!

theorem exCollected_spec :
    collect_samples exSensors 100 exStart = some exCollected
      ∧ (exCollected 0).count = 100
      ∧ (exCollected 0).samples 0 = ⟨0, 0, 0⟩
      ∧ (exCollected 0).samples 1 = ⟨1, 100, 0⟩
      ∧ (exCollected 0).samples 2 = ⟨2, 0, 0⟩ := by
  have h := getD_of_map_eq_some _ _ _ exStart exSensors_run
  unfold exCollected
  generalize (collect_samples exSensors 100 exStart).getD exStart = r at h
  have h2 := h.2
  simp only [Prod.mk.injEq] at h2
  exact ⟨h.1, h2.1, h2.2.1, h2.2.2.1, h2.2.2.2⟩

theorem exStart_count (i : ℕ) : (exStart i).count = 0 := rfl

theorem not_far_of_eq (a b : Vector3f) (ha : a = ⟨0, 0, 0⟩) (hb : b = ⟨2, 0, 0⟩) :
    ¬ (50 : ℝ) < Real.sqrt ((((a.sub b).length_sq : ℚ)) : ℝ) := by
  subst ha hb
  rw [← length_gt_iff]
  decide!

/-- The amended C10 on the feed `exSensors`: the round returns with `100`
samples, and the first two are more than `50` apart. -/
theorem collect_samples_consecutive_far_witness :
    (∀ i, (exStart i).count = 0)
      ∧ collect_samples exSensors 100 exStart = some exCollected
      ∧ (exCollected 0).count = 100
      ∧ (50 : ℝ) < Real.sqrt (((((exCollected 0).samples 0).sub
          ((exCollected 0).samples (0 + 1))).length_sq : ℚ) : ℝ) :=
  ⟨exStart_count, exCollected_spec.1, exCollected_spec.2.1,
    (collect_samples_consecutive_far exSensors 100 exStart exCollected exStart_count
      exCollected_spec.1).1 0 0 (by rw [exCollected_spec.2.1]; decide)⟩

/-- C10 as stated fails for samples that are not neighbours: on the feed
`exSensors`, whose readings zigzag between two lines, `samples[0] = (0,0,0)` and
`samples[2] = (2,0,0)` are both accepted although they are at distance `2`. -/
theorem collect_samples_not_pairwise_far :
    (∀ i, (exStart i).count = 0)
      ∧ collect_samples exSensors 100 exStart = some exCollected
      ∧ 0 < 2 ∧ 2 < (exCollected 0).count
      ∧ ¬ (50 : ℝ) < Real.sqrt (((((exCollected 0).samples 0).sub
          ((exCollected 0).samples 2)).length_sq : ℚ) : ℝ) :=
  ⟨exStart_count, exCollected_spec.1, by decide, by rw [exCollected_spec.2.1]; decide,
    not_far_of_eq _ _ exCollected_spec.2.2.1 exCollected_spec.2.2.2.2⟩

/-! ## The session -/

/-- A loop that replaces cell `i` by a function of its content, for `i < n`. -/
theorem foldl_setAt_map {α : Type} (F : α → ℕ → α) (n : ℕ) (a : ℕ → α) (j : ℕ) :
    (List.range n).foldl (fun a i => setAt a i (F (a i) i)) a j
      = if j < n then F (a j) j else a j := by
  induction n generalizing j with
  | zero => simp
  | succ n ih =>
    rw [List.range_succ, List.foldl_append]
    simp only [List.foldl_cons, List.foldl_nil, setAt]
    by_cases h : j = n
    · subst h
      have hself : (List.range j).foldl (fun a i => setAt a i (F (a i) i)) a j = a j := by
        rw [ih j]; simp
      simp [hself]
    · rw [if_neg h, ih]
      by_cases h2 : j < n
      · simp [h2, Nat.lt_succ_of_lt h2]
      · have : ¬ j < n + 1 := by omega
        simp [h2, this]

/-- After the initialisation loop no instance is faulted. -/
theorem magnetometer_calib_init_fault (get_count : ℕ) (calib : ℕ → Calibration) (j : ℕ)
    (hj : j < get_count) : (magnetometer_calib_init get_count calib j).fault = false := by
  unfold magnetometer_calib_init
  have h := foldl_setAt_map
    (fun (c : Calibration) (i : ℕ) =>
      ({ (List.range NUM_PARAMS).foldl
            (fun cal cnt => { cal with sphere_param := setAt cal.sphere_param cnt 20 }) c with
          passed := 0, count := 0, complete := false, fault := false, inst := i } : Calibration))
    get_count calib j
  rw [if_pos hj] at h
  exact (congrArg Calibration.fault h).trans rfl

/-- Sample collection leaves every fault flag alone. -/
theorem collect_samples_body_fault (hw : Sensors) (s : CollectState) (i j : ℕ) :
    ((collect_samples_body hw s i).calib j).fault = (s.calib j).fault := by
  by_cases hj : j = i
  swap
  · rw [collect_samples_body_other hw s i j hj]
  subst hj
  by_cases hq : (s.calib j).count = NUM_SAMPLES
  · have : collect_samples_body hw s j = s := by
      unfold collect_samples_body
      simp only [hq, if_true]
    rw [this]
  rw [collect_samples_body_self hw s j hq]
  split_ifs <;> rfl

theorem collect_samples_pass_fault (hw : Sensors) (s : CollectState) (j : ℕ) :
    ((collect_samples_pass hw s).calib j).fault = (s.calib j).fault := by
  unfold collect_samples_pass
  exact foldl_range_invariant
    (fun x : CollectState => (x.calib j).fault = (s.calib j).fault)
    (collect_samples_body hw) hw.get_count
    (fun x i _ hx => (collect_samples_body_fault hw x i j).trans hx) s rfl

theorem collect_samples_loop_fault (hw : Sensors) (fuel : ℕ) :
    ∀ (s s' : CollectState), collect_samples_loop hw fuel s = some s' →
      ∀ j, (s'.calib j).fault = (s.calib j).fault := by
  induction fuel with
  | zero =>
    intro s s' hret
    simp [collect_samples_loop] at hret
  | succ fuel ih =>
    intro s s' hret j
    rw [collect_samples_loop] at hret
    split_ifs at hret with hdone
    · simp only [Option.some.injEq] at hret
      rw [← hret]; exact collect_samples_pass_fault hw s j
    · exact (ih _ s' hret j).trans (collect_samples_pass_fault hw s j)

theorem collect_samples_fault (hw : Sensors) (fuel : ℕ) (calib calib' : ℕ → Calibration)
    (hret : collect_samples hw fuel calib = some calib') (j : ℕ) :
    (calib' j).fault = (calib j).fault := by
  unfold collect_samples at hret
  cases hl : collect_samples_loop hw fuel { calib := calib, sampling_over_cnt := 0, reads := 0 }
    with
  | none => rw [hl] at hret; simp at hret
  | some s' =>
    rw [hl] at hret
    simp only [Option.map_some', Option.some.injEq] at hret
    rw [← hret]
    exact collect_samples_loop_fault hw fuel _ s' hl j

/-- The fault flag after `process_samples` is the one the optimiser left. -/
theorem process_samples_fault (alloc_ok : ℕ → Bool) (fuel : ℕ) (calib calib' : Calibration)
    (hret : process_samples alloc_ok fuel calib = some calib') :
    ∃ r, evaluatelm alloc_ok fuel { calib with fault := false } = some r
      ∧ calib'.fault = r.2.fault := by
  obtain ⟨r, hr, hc⟩ := process_samples_eq alloc_ok fuel calib calib' hret
  refine ⟨r, hr, ?_⟩
  rw [hc]
  unfold process_samples_policy
  simp only []
  split_ifs <;> rfl

/-- The processing loop of a round: if it ends, no instance below `n` is
faulted; if it returns early, the instance it stopped at is faulted. -/
theorem magnetometer_calib_process_fault (alloc_ok : ℕ → ℕ → Bool) (fuel n : ℕ) :
    ∀ (l : List ℕ) (calib : ℕ → Calibration), (∀ j, j < n → (calib j).fault = false) →
      (∀ c, magnetometer_calib_process alloc_ok fuel l calib = some (Sum.inr c) →
          ∀ j, j < n → (c j).fault = false)
        ∧ (∀ c, magnetometer_calib_process alloc_ok fuel l calib = some (Sum.inl c) →
          ∃ i, i ∈ l ∧ (c i).fault = true) := by
  intro l
  induction l with
  | nil =>
    intro calib h
    simp only [magnetometer_calib_process, Option.some.injEq, Sum.inr.injEq]
    refine ⟨fun c hc => hc ▸ h, fun c hc => ?_⟩
    simp at hc
  | cons i rest ih =>
    intro calib h
    rw [magnetometer_calib_process]
    by_cases hcomp : (calib i).complete = true
    · simp only [hcomp, if_true]
      obtain ⟨h1, h2⟩ := ih calib h
      refine ⟨h1, fun c hc => ?_⟩
      obtain ⟨k, hk, hf⟩ := h2 c hc
      exact ⟨k, List.mem_cons_of_mem _ hk, hf⟩
    · have hcf : (calib i).complete = false := by simpa using hcomp
      simp only [hcf, Bool.false_eq_true, if_false]
      cases hp : process_samples (alloc_ok i) fuel (calib i) with
      | none => simp
      | some cal =>
        simp only []
        by_cases hfault : cal.fault = true
        · simp only [hfault, if_true, Option.some.injEq, Sum.inl.injEq]
          refine ⟨fun c hc => ?_, fun c hc => ⟨i, List.mem_cons_self _ _, ?_⟩⟩
          · simp at hc
          · rw [← hc, setAt_same]; exact hfault
        · simp only [hfault, if_false]
          have hff : cal.fault = false := by simpa using hfault
          have h' : ∀ j, j < n → (setAt calib i cal j).fault = false := by
            intro j hj
            by_cases hji : j = i
            · rw [hji, setAt_same]; exact hff
            · rw [setAt_other _ _ _ _ hji]; exact h j hj
          obtain ⟨h1, h2⟩ := ih (setAt calib i cal) h'
          refine ⟨h1, fun c hc => ?_⟩
          obtain ⟨k, hk, hf⟩ := h2 c hc
          exact ⟨k, List.mem_cons_of_mem _ hk, hf⟩

/-- One outer round keeps the instances free of faults, unless it returns
early with a faulted instance. -/
theorem magnetometer_calib_round_fault (w : Session) (fuel r : ℕ) (calib : ℕ → Calibration)
    (h : ∀ j, j < w.get_count → (calib j).fault = false) :
    (∀ c, magnetometer_calib_round w fuel r calib = some (Sum.inr c) →
        ∀ j, j < w.get_count → (c j).fault = false)
      ∧ (∀ c, magnetometer_calib_round w fuel r calib = some (Sum.inl c) →
        ∃ i, i < w.get_count ∧ (c i).fault = true) := by
  unfold magnetometer_calib_round
  simp only []
  have hreset : ∀ j, j < w.get_count →
      ((List.range w.get_count).foldl
        (fun calib i => setAt calib i { (calib i) with count := 0 }) calib j).fault = false := by
    intro j hj
    have := foldl_setAt_map (fun (c : Calibration) (_ : ℕ) => { c with count := 0 })
      w.get_count calib j
    rw [if_pos hj] at this
    exact (congrArg Calibration.fault this).trans (h j hj)
  cases hc : collect_samples (w.sensors r) fuel
      ((List.range w.get_count).foldl
        (fun calib i => setAt calib i { (calib i) with count := 0 }) calib) with
  | none => simp
  | some c1 =>
    simp only []
    have h1 : ∀ j, j < w.get_count → (c1 j).fault = false := by
      intro j hj
      rw [collect_samples_fault _ fuel _ c1 hc j]
      exact hreset j hj
    obtain ⟨p1, p2⟩ := magnetometer_calib_process_fault (w.alloc_ok r) fuel w.get_count
      (List.range w.get_count) c1 h1
    refine ⟨p1, fun c hc' => ?_⟩
    obtain ⟨i, hi, hf⟩ := p2 c hc'
    exact ⟨i, List.mem_range.mp hi, hf⟩

theorem magnetometer_calib_done_iff (n : ℕ) (calib : ℕ → Calibration) :
    magnetometer_calib_done n calib = true ↔ ∀ i, i < n → (calib i).complete = true := by
  unfold magnetometer_calib_done
  simp [List.all_eq_true]

theorem magnetometer_calib_rounds_none (w : Session) (fuel : ℕ) (calib : ℕ → Calibration)
    (k : ℕ) (hk : magnetometer_calib_rounds w fuel k calib = none) :
    ∀ m, k ≤ m → magnetometer_calib_rounds w fuel m calib = none := by
  intro m hm
  induction m with
  | zero =>
    have : k = 0 := by omega
    rw [← this]; exact hk
  | succ m ih =>
    by_cases hkm : k = m + 1
    · rw [← hkm]; exact hk
    · rw [magnetometer_calib_rounds, ih (by omega)]

theorem magnetometer_calib_loop_unfold (w : Session) (fuel gas iters : ℕ) (done : Bool)
    (calib : ℕ → Calibration) :
    magnetometer_calib_loop w fuel gas iters done calib =
      if iters < MAX_ITERS ∧ done = false then
        match gas with
        | 0 => none
        | gas + 1 =>
          match magnetometer_calib_round w fuel iters calib with
          | none => none
          | some (Sum.inl calib) =>
            some { result := false, iters := iters + 1, faulted := true, calib := calib }
          | some (Sum.inr calib) =>
            magnetometer_calib_loop w fuel gas (iters + 1)
              (magnetometer_calib_done w.get_count calib) calib
      else some { result := done, iters := iters, faulted := false, calib := calib } := by
  cases gas
  · rw [magnetometer_calib_loop]
  · rw [magnetometer_calib_loop]

/-- What the outer loop of `magnetometer_calib` returns, from a state reached
after `iters` rounds without a fault none of which ended with `done` set. -/
theorem magnetometer_calib_loop_spec (w : Session) (fuel : ℕ) (init : ℕ → Calibration)
    (gas : ℕ) :
    ∀ (iters : ℕ) (done : Bool) (calib : ℕ → Calibration) (e : SessionEnd),
      magnetometer_calib_rounds w fuel iters init = some calib →
      iters ≤ MAX_ITERS →
      (iters = 0 → done = false) →
      (1 ≤ iters → done = magnetometer_calib_done w.get_count calib) →
      (∀ k c, 1 ≤ k → k < iters → magnetometer_calib_rounds w fuel k init = some c →
        magnetometer_calib_done w.get_count c = false) →
      (∀ j, j < w.get_count → (calib j).fault = false) →
      magnetometer_calib_loop w fuel gas iters done calib = some e →
      e.iters ≤ MAX_ITERS ∧ iters ≤ e.iters
        ∧ (iters < MAX_ITERS ∧ done = false → iters + 1 ≤ e.iters)
        ∧ (e.result = true ↔ ∃ n c, 1 ≤ n ∧ n ≤ MAX_ITERS
            ∧ magnetometer_calib_rounds w fuel n init = some c
            ∧ magnetometer_calib_done w.get_count c = true)
        ∧ (e.faulted = true ↔ ∃ i, i < w.get_count ∧ (e.calib i).fault = true)
        ∧ (e.faulted = true → e.result = false ∧ 1 ≤ e.iters
            ∧ ∃ c, magnetometer_calib_rounds w fuel (e.iters - 1) init = some c
              ∧ magnetometer_calib_round w fuel (e.iters - 1) c = some (Sum.inl e.calib))
        ∧ (e.faulted = false → magnetometer_calib_rounds w fuel e.iters init = some e.calib) := by
  induction gas with
  | zero =>
    intro iters done calib e hR hle h0 hd hprev hfault hloop
    rw [magnetometer_calib_loop_unfold] at hloop
    by_cases hcond : iters < MAX_ITERS ∧ done = false
    · simp [hcond] at hloop
    · simp only [hcond, if_false, Option.some.injEq] at hloop
      subst hloop
      refine ⟨hle, le_refl _, fun h => absurd h hcond, ⟨?_, ?_⟩,
        ⟨fun h => absurd h (by simp), ?_⟩, fun h => absurd h (by simp), fun _ => hR⟩
      · intro hdone
        have hdone' : done = true := hdone
        have h1 : 1 ≤ iters := by
          by_contra hlt
          have := h0 (by omega)
          rw [this] at hdone'
          exact absurd hdone' (by decide)
        exact ⟨iters, calib, h1, hle, hR, (hd h1) ▸ hdone'⟩
      · rintro ⟨n, c, hn1, hn10, hRn, hdn⟩
        show done = true
        by_contra hnd
        have hdf : done = false := by simpa using hnd
        have hi10 : ¬ iters < MAX_ITERS := fun h => hcond ⟨h, hdf⟩
        have hn : n < iters ∨ n = iters := by omega
        rcases hn with hn | hn
        · rw [hprev n c hn1 hn hRn] at hdn
          exact absurd hdn (by decide)
        · subst hn
          rw [hR] at hRn
          simp only [Option.some.injEq] at hRn
          subst hRn
          rw [← hd hn1, hdf] at hdn
          exact absurd hdn (by decide)
      · rintro ⟨i, hi, hf⟩
        have hf' : (calib i).fault = true := hf
        rw [hfault i hi] at hf'
        exact absurd hf' (by decide)
  | succ gas ih =>
    intro iters done calib e hR hle h0 hd hprev hfault hloop
    rw [magnetometer_calib_loop_unfold] at hloop
    by_cases hcond : iters < MAX_ITERS ∧ done = false
    · simp only [hcond, and_self, if_true] at hloop
      have hnotdone : ∀ c, magnetometer_calib_rounds w fuel iters init = some c → 1 ≤ iters →
          magnetometer_calib_done w.get_count c = false := by
        intro c hc h1
        rw [hR] at hc
        simp only [Option.some.injEq] at hc
        subst hc
        rw [← hd h1]; exact hcond.2
      obtain ⟨rf1, rf2⟩ := magnetometer_calib_round_fault w fuel iters calib hfault
      cases hround : magnetometer_calib_round w fuel iters calib with
      | none => rw [hround] at hloop; simp at hloop
      | some x =>
        cases x with
        | inl c =>
          rw [hround] at hloop
          simp only [Option.some.injEq] at hloop
          subst hloop
          have hnext : magnetometer_calib_rounds w fuel (iters + 1) init = none := by
            rw [magnetometer_calib_rounds, hR]
            simp only [hround]
          refine ⟨hcond.1, Nat.le_succ _, fun _ => le_refl _,
            ⟨fun h => absurd h (by simp), ?_⟩,
            ⟨fun _ => rf2 c hround, fun _ => rfl⟩,
            fun _ => ⟨rfl, Nat.succ_le_succ (Nat.zero_le _), calib, hR, hround⟩,
            fun h => absurd h (by simp)⟩
          rintro ⟨n, c', hn1, _, hRn, hdn⟩
          exfalso
          have hn : n < iters ∨ n = iters ∨ iters + 1 ≤ n := by omega
          rcases hn with hn | hn | hn
          · rw [hprev n c' hn1 hn hRn] at hdn
            exact absurd hdn (by decide)
          · subst hn
            rw [hnotdone c' hRn hn1] at hdn
            exact absurd hdn (by decide)
          · rw [magnetometer_calib_rounds_none w fuel init (iters + 1) hnext n hn] at hRn
            simp at hRn
        | inr c =>
          rw [hround] at hloop
          simp only [] at hloop
          have hnext : magnetometer_calib_rounds w fuel (iters + 1) init = some c := by
            rw [magnetometer_calib_rounds, hR]
            simp only [hround]
          have hprev' : ∀ k c', 1 ≤ k → k < iters + 1 →
              magnetometer_calib_rounds w fuel k init = some c' →
              magnetometer_calib_done w.get_count c' = false := by
            intro k c' hk1 hk hRk
            by_cases hki : k < iters
            · exact hprev k c' hk1 hki hRk
            · have : k = iters := by omega
              subst this
              exact hnotdone c' hRk hk1
          have := ih (iters + 1) (magnetometer_calib_done w.get_count c) c e hnext hcond.1
            (fun h => absurd h (Nat.succ_ne_zero _)) (fun _ => rfl) hprev' (rf1 c hround) hloop
          exact ⟨this.1, by omega, fun _ => this.2.1, this.2.2.2⟩
    · simp only [hcond, if_false, Option.some.injEq] at hloop
      subst hloop
      refine ⟨hle, le_refl _, fun h => absurd h hcond, ⟨?_, ?_⟩,
        ⟨fun h => absurd h (by simp), ?_⟩, fun h => absurd h (by simp), fun _ => hR⟩
      · intro hdone
        have hdone' : done = true := hdone
        have h1 : 1 ≤ iters := by
          by_contra hlt
          have := h0 (by omega)
          rw [this] at hdone'
          exact absurd hdone' (by decide)
        exact ⟨iters, calib, h1, hle, hR, (hd h1) ▸ hdone'⟩
      · rintro ⟨n, c, hn1, hn10, hRn, hdn⟩
        show done = true
        by_contra hnd
        have hdf : done = false := by simpa using hnd
        have hi10 : ¬ iters < MAX_ITERS := fun h => hcond ⟨h, hdf⟩
        have hn : n < iters ∨ n = iters := by omega
        rcases hn with hn | hn
        · rw [hprev n c hn1 hn hRn] at hdn
          exact absurd hdn (by decide)
        · subst hn
          rw [hR] at hRn
          simp only [Option.some.injEq] at hRn
          subst hRn
          rw [← hd hn1, hdf] at hdn
          exact absurd hdn (by decide)
      · rintro ⟨i, hi, hf⟩
        have hf' : (calib i).fault = true := hf
        rw [hfault i hi] at hf'
        exact absurd hf' (by decide)

/-- C8. Given that the allocation of the context array succeeds, whenever
`magnetometer_calib` returns, it returns `true` if and only if for some `n` with
`1 <= n <= 10` the first `n` outer rounds all ran without any instance raising
a fault and every instance is complete at the end of round `n`. It runs at
least one and at most `MAX_ITERS = 10` outer rounds. It returns through the
`return false` after a fault exactly when some instance has its fault flag set,
and does so in the round in which the fault is raised, whose predecessors
raised none. -/
theorem magnetometer_calib_result (w : Session) (fuel : ℕ) (calib : ℕ → Calibration)
    (e : SessionEnd) (hrun : magnetometer_calib_run w fuel true calib = some e) :
    magnetometer_calib w fuel true calib = some e.result
      ∧ (e.result = true ↔ ∃ n c, 1 ≤ n ∧ n ≤ MAX_ITERS
          ∧ magnetometer_calib_rounds w fuel n (magnetometer_calib_init w.get_count calib)
              = some c
          ∧ ∀ i, i < w.get_count → (c i).complete = true)
      ∧ 1 ≤ e.iters ∧ e.iters ≤ MAX_ITERS
      ∧ (e.faulted = true ↔ ∃ i, i < w.get_count ∧ (e.calib i).fault = true)
      ∧ (e.faulted = true → e.result = false
          ∧ ∃ c, magnetometer_calib_rounds w fuel (e.iters - 1)
                (magnetometer_calib_init w.get_count calib) = some c
              ∧ magnetometer_calib_round w fuel (e.iters - 1) c = some (Sum.inl e.calib))
      ∧ (e.faulted = false →
          magnetometer_calib_rounds w fuel e.iters (magnetometer_calib_init w.get_count calib)
            = some e.calib) := by
  have hres : magnetometer_calib w fuel true calib = some e.result := by
    unfold magnetometer_calib
    rw [hrun]
    rfl
  unfold magnetometer_calib_run at hrun
  simp only [Bool.not_true, Bool.false_eq_true, if_false] at hrun
  have h := magnetometer_calib_loop_spec w fuel (magnetometer_calib_init w.get_count calib) fuel
    0 false (magnetometer_calib_init w.get_count calib) e rfl (Nat.zero_le _) (fun _ => rfl)
    (fun h => absurd h (by decide))
    (fun k c hk1 hk _ => absurd hk (Nat.not_lt_zero k))
    (fun j hj => magnetometer_calib_init_fault w.get_count calib j hj) hrun
  obtain ⟨h1, _, h3, h4, h5, h6, h7⟩ := h
  refine ⟨hres, ?_, ?_, h1, h5, ?_, h7⟩
  · rw [h4]
    constructor
    · rintro ⟨n, c, a, b, hc, hd⟩
      exact ⟨n, c, a, b, hc, (magnetometer_calib_done_iff _ _).mp hd⟩
    · rintro ⟨n, c, a, b, hc, hd⟩
      exact ⟨n, c, a, b, hc, (magnetometer_calib_done_iff _ _).mpr hd⟩
  · have := h3 ⟨by decide, rfl⟩
    omega
  · intro hf
    exact ⟨(h6 hf).1, (h6 hf).2.2⟩

/-! ## A session on a concrete feed -/

set_option maxRecDepth 100000 in
/-- On `exSession` the first round collects its samples, the fit of instance
`0` faults, and the session returns `false`. -/
theorem exSession_run :
    (magnetometer_calib_run exSession 100 true exStart).map
        (fun e => (e.result, e.iters, e.faulted, (e.calib 0).fault))
      = some (false, 1, true, true) := by
  decide!

theorem exEnd_spec :
    magnetometer_calib_run exSession 100 true exStart = some exEnd
      ∧ exEnd.result = false ∧ exEnd.iters = 1 ∧ exEnd.faulted = true
      ∧ (exEnd.calib 0).fault = true := by
  have h := getD_of_map_eq_some _ _ _
    { result := true, iters := 0, faulted := false, calib := exStart } exSession_run
  unfold exEnd
  generalize (magnetometer_calib_run exSession 100 true exStart).getD
    { result := true, iters := 0, faulted := false, calib := exStart } = r at h
  have h2 := h.2
  simp only [Prod.mk.injEq] at h2
  exact ⟨h.1, h2.1, h2.2.1, h2.2.2.1, h2.2.2.2⟩

/-- C8 on `exSession`: the session returns `false` in its first round, in
which the fit of instance `0` raises a fault. -/
theorem magnetometer_calib_result_witness :
    magnetometer_calib_run exSession 100 true exStart = some exEnd
      ∧ magnetometer_calib exSession 100 true exStart = some exEnd.result
      ∧ exEnd.result = false
      ∧ exEnd.iters = 1
      ∧ (exEnd.faulted = true ↔ ∃ i, i < exSession.get_count ∧ (exEnd.calib i).fault = true) :=
  ⟨exEnd_spec.1,
    (magnetometer_calib_result exSession 100 exStart exEnd exEnd_spec.1).1,
    exEnd_spec.2.1, exEnd_spec.2.2.1,
    (magnetometer_calib_result exSession 100 exStart exEnd exEnd_spec.1).2.2.2.2.1⟩

/-! ## Distinctness of the collected samples -/

/-- The body of the loop of `collect_samples` keeps the stored samples of every
context pairwise distinct. -/
theorem collect_samples_body_distinct (hw : Sensors) (s : CollectState) (i : ℕ)
    (h : ∀ j, j < hw.get_count → pairwise_distinct (s.calib j)) :
    ∀ j, j < hw.get_count → pairwise_distinct ((collect_samples_body hw s i).calib j) := by
  intro j hjn
  have hj' := h j hjn
  by_cases hj : j = i
  swap
  · rw [collect_samples_body_other hw s i j hj]; exact hj'
  subst hj
  by_cases hq : (s.calib j).count = NUM_SAMPLES
  · have : collect_samples_body hw s j = s := by
      unfold collect_samples_body
      simp only [hq, if_true]
    rw [this]; exact hj'
  rw [collect_samples_body_self hw s j hq]
  have hstore : ∀ (n : ℕ), n ≤ (s.calib j).count + 1 →
      (n = (s.calib j).count + 1 →
        ∀ k, k < (s.calib j).count → (s.calib j).samples k ≠ hw.get_field s.reads j) →
      pairwise_distinct { s.calib j with
        samples := setAt (s.calib j).samples (s.calib j).count (hw.get_field s.reads j)
        count := n } := by
    intro n hn hnew a b hab hb
    show setAt (s.calib j).samples (s.calib j).count (hw.get_field s.reads j) a
      ≠ setAt (s.calib j).samples (s.calib j).count (hw.get_field s.reads j) b
    have hb' : b < n := hb
    have hac : a ≠ (s.calib j).count := by omega
    rw [setAt_other _ _ _ _ hac]
    by_cases hend : b = (s.calib j).count
    · rw [hend, setAt_same]
      exact hnew (by omega) a (by omega)
    · rw [setAt_other _ _ _ _ hend]
      exact hj' a b hab (by omega)
  have hmodle : ((s.calib j).count + 1) % 256 ≤ (s.calib j).count + 1 := Nat.mod_le _ _
  split_ifs with hh hc hd hall
  · exact hstore _ hmodle (fun _ => hall)
  · exact hstore _ (Nat.le_succ _) (fun hn => absurd hn (by omega))
  · exact hj'
  · exact hstore _ hmodle (fun _ k hk => absurd hk (by omega))
  · exact hj'

theorem collect_samples_pass_distinct (hw : Sensors) (s : CollectState)
    (h : ∀ j, j < hw.get_count → pairwise_distinct (s.calib j)) :
    ∀ j, j < hw.get_count → pairwise_distinct ((collect_samples_pass hw s).calib j) := by
  unfold collect_samples_pass
  exact foldl_range_invariant
    (fun x : CollectState => ∀ j, j < hw.get_count → pairwise_distinct (x.calib j))
    (collect_samples_body hw) hw.get_count
    (fun x i _ hx => collect_samples_body_distinct hw x i hx) s h

theorem collect_samples_iterate_distinct (hw : Sensors) (n : ℕ) (s : CollectState)
    (h : ∀ j, j < hw.get_count → pairwise_distinct (s.calib j)) :
    ∀ j, j < hw.get_count →
      pairwise_distinct (((collect_samples_pass hw)^[n] s).calib j) := by
  induction n generalizing s with
  | zero => exact h
  | succ n ih =>
    rw [Function.iterate_succ_apply]
    exact ih _ (collect_samples_pass_distinct hw s h)

theorem collect_samples_loop_distinct (hw : Sensors) (fuel : ℕ) :
    ∀ (s s' : CollectState), (∀ j, j < hw.get_count → pairwise_distinct (s.calib j)) →
      collect_samples_loop hw fuel s = some s' →
      ∀ j, j < hw.get_count → pairwise_distinct (s'.calib j) := by
  induction fuel with
  | zero =>
    intro s s' _ hret
    simp [collect_samples_loop] at hret
  | succ fuel ih =>
    intro s s' h hret
    rw [collect_samples_loop] at hret
    have hp := collect_samples_pass_distinct hw s h
    split_ifs at hret with hdone
    · simp only [Option.some.injEq] at hret
      rw [← hret]; exact hp
    · exact ih _ s' hp hret

theorem Vector3f.ne_iff (a b : Vector3f) : a ≠ b ↔ ¬ (a.x = b.x ∧ a.y = b.y ∧ a.z = b.z) := by
  cases a; cases b
  simp

/-- C11. For every sensor feed and every instance, the samples accepted by
`collect_samples` within one collection round (entered with every count at `0`)
are pairwise distinct: at every moment of the round (after any number of passes
of its loop, and on return), for all indices `i < j < count`, `samples[i]` and
`samples[j]` are not component-wise equal. -/
theorem collect_samples_pairwise_distinct (hw : Sensors) (fuel : ℕ)
    (calib calib' : ℕ → Calibration) (h0 : ∀ i, i < hw.get_count → (calib i).count = 0)
    (hret : collect_samples hw fuel calib = some calib') :
    (∀ inst i j, inst < hw.get_count → i < j → j < (calib' inst).count →
        ¬ (((calib' inst).samples i).x = ((calib' inst).samples j).x
          ∧ ((calib' inst).samples i).y = ((calib' inst).samples j).y
          ∧ ((calib' inst).samples i).z = ((calib' inst).samples j).z))
      ∧ ∀ n inst i j, inst < hw.get_count → i < j →
          j < (collect_samples_after hw n calib inst).count →
          ¬ (((collect_samples_after hw n calib inst).samples i).x
                = ((collect_samples_after hw n calib inst).samples j).x
            ∧ ((collect_samples_after hw n calib inst).samples i).y
                = ((collect_samples_after hw n calib inst).samples j).y
            ∧ ((collect_samples_after hw n calib inst).samples i).z
                = ((collect_samples_after hw n calib inst).samples j).z) := by
  have hstart : ∀ j, j < hw.get_count →
      pairwise_distinct ((CollectState.mk calib 0 0).calib j) := by
    intro j hj a b _ hb
    have : (calib j).count = 0 := h0 j hj
    have hb' : b < (calib j).count := hb
    omega
  constructor
  · intro inst i j hinst hij hj
    unfold collect_samples at hret
    cases hl : collect_samples_loop hw fuel { calib := calib, sampling_over_cnt := 0, reads := 0 }
      with
    | none => rw [hl] at hret; simp at hret
    | some s' =>
      rw [hl] at hret
      simp only [Option.map_some', Option.some.injEq] at hret
      have := collect_samples_loop_distinct hw fuel _ s' hstart hl inst hinst
      rw [hret] at this
      exact (Vector3f.ne_iff _ _).mp (this i j hij hj)
  · intro n inst i j hinst hij hj
    exact (Vector3f.ne_iff _ _).mp
      (collect_samples_iterate_distinct hw n _ hstart inst hinst i j hij hj)

/-- C11 on the feed `exSensors`: the round returns with `100` samples, and the
first and the third are different. -/
theorem collect_samples_pairwise_distinct_witness :
    (∀ i, i < exSensors.get_count → (exStart i).count = 0)
      ∧ collect_samples exSensors 100 exStart = some exCollected
      ∧ (exCollected 0).count = 100
      ∧ ¬ (((exCollected 0).samples 0).x = ((exCollected 0).samples 2).x
          ∧ ((exCollected 0).samples 0).y = ((exCollected 0).samples 2).y
          ∧ ((exCollected 0).samples 0).z = ((exCollected 0).samples 2).z) :=
  ⟨fun i _ => exStart_count i, exCollected_spec.1, exCollected_spec.2.1,
    (collect_samples_pairwise_distinct exSensors 100 exStart exCollected
      (fun i _ => exStart_count i) exCollected_spec.1).1 0 0 2 (by decide) (by decide)
      (by rw [exCollected_spec.2.1]; decide)⟩

/-! ## The quota of `collect_samples` -/

/-- An instance at the quota is passed over. -/
theorem collect_samples_body_full (hw : Sensors) (s : CollectState) (i : ℕ)
    (hq : (s.calib i).count = NUM_SAMPLES) : collect_samples_body hw s i = s := by
  unfold collect_samples_body
  simp only [hq, if_true]

/-- A reading taken while the instance reports unhealthy is not stored. -/
theorem collect_samples_body_unhealthy (hw : Sensors) (s : CollectState) (i : ℕ)
    (hh : hw.healthy s.reads i = false) :
    (collect_samples_body hw s i).calib = s.calib
      ∧ (collect_samples_body hw s i).sampling_over_cnt = s.sampling_over_cnt := by
  unfold collect_samples_body
  by_cases hq : (s.calib i).count = NUM_SAMPLES
  · simp only [hq, if_true, and_self]
  · simp only [hq, if_false, hh, Bool.not_false, if_true, and_self]

/-- How the body of the loop of `collect_samples` counts: `sampling_over_cnt`
is incremented exactly when the instance visited, below the quota before, is
at the quota after. -/
theorem collect_samples_body_cnt (hw : Sensors) (s : CollectState) (i : ℕ)
    (hq : (s.calib i).count ≠ NUM_SAMPLES) :
    (collect_samples_body hw s i).sampling_over_cnt
      = if ((collect_samples_body hw s i).calib i).count = 100 then
          (s.sampling_over_cnt + 1) % 256
        else s.sampling_over_cnt := by
  by_cases hh : hw.healthy s.reads i = true
  · unfold collect_samples_body
    simp only [hq, if_false, hh, Bool.not_true, Bool.false_eq_true, setAt_same]
  · have hh' : hw.healthy s.reads i = false := by simpa using hh
    have h := collect_samples_body_unhealthy hw s i hh'
    rw [h.2, h.1, if_neg hq]

/-- The count of the instance visited stays or goes up by one. -/
theorem collect_samples_body_count (hw : Sensors) (s : CollectState) (i : ℕ)
    (hq : (s.calib i).count < NUM_SAMPLES) :
    ((collect_samples_body hw s i).calib i).count = (s.calib i).count
      ∨ ((collect_samples_body hw s i).calib i).count = (s.calib i).count + 1 := by
  have hlt : (s.calib i).count < 100 := hq
  have hmod : ((s.calib i).count + 1) % 256 = (s.calib i).count + 1 :=
    Nat.mod_eq_of_lt (by omega)
  rw [collect_samples_body_self hw s i (Nat.ne_of_lt hq)]
  split_ifs
  · right; exact hmod
  · left; rfl
  · left; rfl
  · right; exact hmod
  · left; rfl

theorem quota_reached_le (n : ℕ) (calib : ℕ → Calibration) : quota_reached n calib ≤ n := by
  unfold quota_reached
  calc ∑ j in Finset.range n, (if (calib j).count = NUM_SAMPLES then 1 else 0)
      ≤ ∑ _j in Finset.range n, 1 := Finset.sum_le_sum (fun j _ => by split_ifs <;> omega)
    _ = n := by simp

/-- If the count of instances at the quota is the number of instances, every
instance is at the quota. -/
theorem quota_reached_all (n : ℕ) (calib : ℕ → Calibration) (h : quota_reached n calib = n)
    (i : ℕ) (hi : i < n) : (calib i).count = NUM_SAMPLES := by
  by_contra hne
  have hmem : i ∈ Finset.range n := Finset.mem_range.mpr hi
  have hsplit := Finset.add_sum_erase (Finset.range n)
    (fun j => if (calib j).count = NUM_SAMPLES then 1 else 0) hmem
  have hrest : ∑ j in (Finset.range n).erase i,
      (if (calib j).count = NUM_SAMPLES then 1 else 0) ≤ n - 1 := by
    calc ∑ j in (Finset.range n).erase i, (if (calib j).count = NUM_SAMPLES then 1 else 0)
        ≤ ∑ _j in (Finset.range n).erase i, 1 :=
          Finset.sum_le_sum (fun j _ => by split_ifs <;> omega)
      _ = n - 1 := by simp [Finset.card_erase_of_mem hmem]
  unfold quota_reached at h
  simp only [if_neg hne, zero_add] at hsplit
  omega

/-- The count of instances at the quota after the context of an instance
below the quota has been replaced. -/
theorem quota_reached_setAt (n : ℕ) (calib : ℕ → Calibration) (i : ℕ) (hi : i < n)
    (cal : Calibration) (hq : (calib i).count ≠ NUM_SAMPLES) :
    quota_reached n (setAt calib i cal)
      = quota_reached n calib + (if cal.count = NUM_SAMPLES then 1 else 0) := by
  have hmem : i ∈ Finset.range n := Finset.mem_range.mpr hi
  unfold quota_reached
  rw [← Finset.add_sum_erase (Finset.range n) _ hmem,
    ← Finset.add_sum_erase (Finset.range n)
      (fun j => if (calib j).count = NUM_SAMPLES then 1 else 0) hmem]
  simp only [setAt_same, if_neg hq, zero_add]
  rw [add_comm]
  congr 1
  apply Finset.sum_congr rfl
  intro j hj
  rw [setAt_other _ _ _ _ (Finset.ne_of_mem_erase hj)]

theorem collect_samples_body_inv (hw : Sensors) (s : CollectState) (i : ℕ)
    (hi : i < hw.get_count) (h : collect_samples_inv hw s) :
    collect_samples_inv hw (collect_samples_body hw s i) := by
  by_cases hq : (s.calib i).count = NUM_SAMPLES
  · rw [collect_samples_body_full hw s i hq]; exact h
  have hlt : (s.calib i).count < NUM_SAMPLES := lt_of_le_of_ne (h.1 i hi) hq
  have hcount := collect_samples_body_count hw s i hlt
  have hcal : (collect_samples_body hw s i).calib
      = setAt s.calib i ((collect_samples_body hw s i).calib i) := by
    funext j
    by_cases hj : j = i
    · subst hj; rw [setAt_same]
    · rw [setAt_other _ _ _ _ hj, collect_samples_body_other hw s i j hj]
  constructor
  · intro j hjn
    by_cases hj : j = i
    · subst hj
      have hlt' : (s.calib j).count < 100 := hlt
      show ((collect_samples_body hw s j).calib j).count ≤ 100
      rcases hcount with hc | hc <;> omega
    · rw [collect_samples_body_other hw s i j hj]; exact h.1 j hjn
  · rw [collect_samples_body_cnt hw s i hq, hcal,
      quota_reached_setAt hw.get_count s.calib i hi _ hq, ← hcal, h.2]
    by_cases hc : ((collect_samples_body hw s i).calib i).count = 100
    · have hc' : ((collect_samples_body hw s i).calib i).count = NUM_SAMPLES := hc
      rw [if_pos hc, if_pos hc']
      omega
    · have hc' : ¬ ((collect_samples_body hw s i).calib i).count = NUM_SAMPLES := hc
      rw [if_neg hc, if_neg hc', add_zero]

theorem collect_samples_pass_inv (hw : Sensors) (s : CollectState)
    (h : collect_samples_inv hw s) : collect_samples_inv hw (collect_samples_pass hw s) := by
  unfold collect_samples_pass
  exact foldl_range_invariant (collect_samples_inv hw) (collect_samples_body hw) hw.get_count
    (fun x i hi hx => collect_samples_body_inv hw x i hi hx) s h

theorem collect_samples_loop_inv (hw : Sensors) (fuel : ℕ) :
    ∀ (s s' : CollectState), collect_samples_inv hw s →
      collect_samples_loop hw fuel s = some s' →
      collect_samples_inv hw s' ∧ s'.sampling_over_cnt = hw.get_count := by
  induction fuel with
  | zero =>
    intro s s' _ hret
    simp [collect_samples_loop] at hret
  | succ fuel ih =>
    intro s s' h hret
    rw [collect_samples_loop] at hret
    have hp := collect_samples_pass_inv hw s h
    split_ifs at hret with hdone
    · simp only [Option.some.injEq] at hret
      rw [← hret]; exact ⟨hp, hdone⟩
    · exact ih _ s' hp hret

/-- C12. Whenever `collect_samples` returns, having been entered with every
count at `0`, every one of the `get_count()` instances has count exactly `100`:
the loop is left only when `sampling_over_cnt`, the number of instances that
have reached the quota, equals `get_count()`. A reading taken while the
instance reports unhealthy is never stored: the context array is as before
it. -/
theorem collect_samples_quota (hw : Sensors) (fuel : ℕ) (calib calib' : ℕ → Calibration)
    (h0 : ∀ i, i < hw.get_count → (calib i).count = 0)
    (hret : collect_samples hw fuel calib = some calib') :
    (∀ i, i < hw.get_count → (calib' i).count = 100)
      ∧ quota_reached hw.get_count calib' = hw.get_count
      ∧ ∀ (s : CollectState) (i : ℕ), hw.healthy s.reads i = false →
          (collect_samples_body hw s i).calib = s.calib := by
  have hstart : collect_samples_inv hw (CollectState.mk calib 0 0) := by
    constructor
    · intro j hj
      show (calib j).count ≤ NUM_SAMPLES
      rw [h0 j hj]; exact Nat.zero_le _
    · show 0 = quota_reached hw.get_count calib % 256
      have : quota_reached hw.get_count calib = 0 := by
        unfold quota_reached
        apply Finset.sum_eq_zero
        intro j hj
        rw [h0 j (Finset.mem_range.mp hj)]
        rfl
      rw [this]
  have hall : quota_reached hw.get_count calib' = hw.get_count := by
    unfold collect_samples at hret
    cases hl : collect_samples_loop hw fuel { calib := calib, sampling_over_cnt := 0, reads := 0 }
      with
    | none => rw [hl] at hret; simp at hret
    | some s' =>
      rw [hl] at hret
      simp only [Option.map_some', Option.some.injEq] at hret
      obtain ⟨hinv, hdone⟩ := collect_samples_loop_inv hw fuel _ s' hstart hl
      have h2 := hinv.2
      rw [hdone, hret] at h2
      have hle := quota_reached_le hw.get_count calib'
      have hmod := Nat.mod_le (quota_reached hw.get_count calib') 256
      omega
  exact ⟨fun i hi => quota_reached_all hw.get_count calib' hall i hi, hall,
    fun s i hh => (collect_samples_body_unhealthy hw s i hh).1⟩

/-- C12 on the feed `exSensors`: the round returns, and its one instance has
count `100`. -/
theorem collect_samples_quota_witness :
    (∀ i, i < exSensors.get_count → (exStart i).count = 0)
      ∧ collect_samples exSensors 100 exStart = some exCollected
      ∧ (exCollected 0).count = 100 :=
  ⟨fun i _ => exStart_count i, exCollected_spec.1,
    (collect_samples_quota exSensors 100 exStart exCollected (fun i _ => exStart_count i)
      exCollected_spec.1).1 0 (by decide)⟩

/-! ## The pass counter and the completion flag over a session -/

theorem Calibration.same_fit_refl (c : Calibration) : c.same_fit c := ⟨rfl, rfl, rfl⟩

theorem Calibration.same_fit_trans {c1 c2 c3 : Calibration} (h12 : c1.same_fit c2)
    (h23 : c2.same_fit c3) : c1.same_fit c3 :=
  ⟨h23.1.trans h12.1, h23.2.1.trans h12.2.1, h23.2.2.trans h12.2.2⟩

theorem pass_inv_of_same_fit {c1 c2 : Calibration} (h : c1.same_fit c2) (hp : pass_inv c1) :
    pass_inv c2 := by
  unfold pass_inv
  rw [h.2.1, h.2.2]
  exact hp

/-- Sample collection leaves the fit of every instance alone. -/
theorem collect_samples_body_same_fit (hw : Sensors) (s : CollectState) (i j : ℕ) :
    (s.calib j).same_fit ((collect_samples_body hw s i).calib j) := by
  by_cases hj : j = i
  swap
  · rw [collect_samples_body_other hw s i j hj]; exact Calibration.same_fit_refl _
  subst hj
  by_cases hq : (s.calib j).count = NUM_SAMPLES
  · rw [collect_samples_body_full hw s j hq]; exact Calibration.same_fit_refl _
  rw [collect_samples_body_self hw s j hq]
  split_ifs <;> exact ⟨rfl, rfl, rfl⟩

theorem collect_samples_pass_same_fit (hw : Sensors) (s : CollectState) (j : ℕ) :
    (s.calib j).same_fit ((collect_samples_pass hw s).calib j) := by
  unfold collect_samples_pass
  exact foldl_range_invariant
    (fun x : CollectState => (s.calib j).same_fit (x.calib j))
    (collect_samples_body hw) hw.get_count
    (fun x i _ hx => Calibration.same_fit_trans hx (collect_samples_body_same_fit hw x i j))
    s (Calibration.same_fit_refl _)

theorem collect_samples_loop_same_fit (hw : Sensors) (fuel : ℕ) :
    ∀ (s s' : CollectState), collect_samples_loop hw fuel s = some s' →
      ∀ j, (s.calib j).same_fit (s'.calib j) := by
  induction fuel with
  | zero =>
    intro s s' hret
    simp [collect_samples_loop] at hret
  | succ fuel ih =>
    intro s s' hret j
    rw [collect_samples_loop] at hret
    split_ifs at hret with hdone
    · simp only [Option.some.injEq] at hret
      rw [← hret]; exact collect_samples_pass_same_fit hw s j
    · exact Calibration.same_fit_trans (collect_samples_pass_same_fit hw s j) (ih _ s' hret j)

theorem collect_samples_same_fit (hw : Sensors) (fuel : ℕ) (calib calib' : ℕ → Calibration)
    (hret : collect_samples hw fuel calib = some calib') (j : ℕ) :
    (calib j).same_fit (calib' j) := by
  unfold collect_samples at hret
  cases hl : collect_samples_loop hw fuel { calib := calib, sampling_over_cnt := 0, reads := 0 }
    with
  | none => rw [hl] at hret; simp at hret
  | some s' =>
    rw [hl] at hret
    simp only [Option.map_some', Option.some.injEq] at hret
    rw [← hret]
    exact collect_samples_loop_same_fit hw fuel _ s' hl j

/-- The loop that resets the counts at the start of a round. -/
theorem magnetometer_calib_reset_apply (n : ℕ) (calib : ℕ → Calibration) (j : ℕ) :
    (List.range n).foldl (fun calib i => setAt calib i { (calib i) with count := 0 }) calib j
      = if j < n then { (calib j) with count := 0 } else calib j :=
  foldl_setAt_map (fun (c : Calibration) (_ : ℕ) => { c with count := 0 }) n calib j

/-- After the initialisation loop every instance has `passed = 0` and is not
complete. -/
theorem magnetometer_calib_init_pass (get_count : ℕ) (calib : ℕ → Calibration) (j : ℕ)
    (hj : j < get_count) :
    (magnetometer_calib_init get_count calib j).passed = 0
      ∧ (magnetometer_calib_init get_count calib j).complete = false := by
  unfold magnetometer_calib_init
  have h := foldl_setAt_map
    (fun (c : Calibration) (i : ℕ) =>
      ({ (List.range NUM_PARAMS).foldl
            (fun cal cnt => { cal with sphere_param := setAt cal.sphere_param cnt 20 }) c with
          passed := 0, count := 0, complete := false, fault := false, inst := i } : Calibration))
    get_count calib j
  rw [if_pos hj] at h
  exact ⟨(congrArg Calibration.passed h).trans rfl, (congrArg Calibration.complete h).trans rfl⟩

/-- `process_samples` on an instance that is not complete keeps the relation
between the pass counter and the completion flag. -/
theorem process_samples_pass_inv (alloc_ok : ℕ → Bool) (fuel : ℕ) (calib calib' : Calibration)
    (hp : pass_inv calib) (hc : calib.complete = false)
    (hret : process_samples alloc_ok fuel calib = some calib') : pass_inv calib' := by
  obtain ⟨r, hr, hcal⟩ := process_samples_eq alloc_ok fuel calib calib' hret
  have hpassed : r.2.passed = calib.passed :=
    (evaluatelm_frame alloc_ok fuel _ r hr).2.2.1
  have hne : calib.passed ≠ 2 := by
    intro h2
    have := hp.2.mpr h2
    rw [hc] at this
    exact absurd this (by decide)
  have hle := hp.1
  rw [hcal]
  refine ⟨?_, process_samples_policy_complete r.1 r.2⟩
  rw [process_samples_policy_passed, hpassed]
  split_ifs
  · omega
  · omega

/-- The processing loop of a round keeps the relation between the pass counter
and the completion flag of every instance, and leaves the context of a complete
instance as it is, whichever way it ends. -/
theorem magnetometer_calib_process_pass (alloc_ok : ℕ → ℕ → Bool) (fuel n : ℕ) :
    ∀ (l : List ℕ) (calib : ℕ → Calibration) (x : (ℕ → Calibration) ⊕ (ℕ → Calibration)),
      magnetometer_calib_process alloc_ok fuel l calib = some x →
      ((∀ j, j < n → pass_inv (calib j)) → ∀ j, j < n → pass_inv (round_end x j))
        ∧ ∀ j, (calib j).complete = true → round_end x j = calib j := by
  intro l
  induction l with
  | nil =>
    intro calib x hx
    simp only [magnetometer_calib_process, Option.some.injEq] at hx
    subst hx
    exact ⟨fun h => h, fun j _ => rfl⟩
  | cons i rest ih =>
    intro calib x hx
    rw [magnetometer_calib_process] at hx
    by_cases hcomp : (calib i).complete = true
    · simp only [hcomp, if_true] at hx
      exact ih calib x hx
    · have hcf : (calib i).complete = false := by simpa using hcomp
      simp only [hcf, Bool.false_eq_true, if_false] at hx
      cases hp : process_samples (alloc_ok i) fuel (calib i) with
      | none => rw [hp] at hx; simp at hx
      | some cal =>
        rw [hp] at hx
        simp only [] at hx
        have hinv' : (∀ j, j < n → pass_inv (calib j)) →
            ∀ j, j < n → pass_inv (setAt calib i cal j) := by
          intro h j hj
          by_cases hji : j = i
          · rw [hji, setAt_same]
            exact process_samples_pass_inv (alloc_ok i) fuel (calib i) cal
              (h i (hji ▸ hj)) hcf hp
          · rw [setAt_other _ _ _ _ hji]; exact h j hj
        have hkeep : ∀ j, (calib j).complete = true → setAt calib i cal j = calib j := by
          intro j hj
          have hji : j ≠ i := by
            intro h
            rw [h] at hj
            exact hcomp hj
          exact setAt_other _ _ _ _ hji
        by_cases hfault : cal.fault = true
        · simp only [hfault, if_true, Option.some.injEq] at hx
          subst hx
          exact ⟨hinv', hkeep⟩
        · simp only [hfault, if_false] at hx
          obtain ⟨h1, h2⟩ := ih (setAt calib i cal) x hx
          refine ⟨fun h => h1 (hinv' h), fun j hj => ?_⟩
          rw [h2 j (by rw [hkeep j hj]; exact hj), hkeep j hj]

/-- One outer round keeps the relation between the pass counter and the
completion flag of every instance, and leaves the fit of a complete instance as
it is, whichever way it ends. -/
theorem magnetometer_calib_round_pass (w : Session) (fuel r : ℕ) (calib : ℕ → Calibration)
    (x : (ℕ → Calibration) ⊕ (ℕ → Calibration))
    (hx : magnetometer_calib_round w fuel r calib = some x) :
    ((∀ j, j < w.get_count → pass_inv (calib j)) →
        ∀ j, j < w.get_count → pass_inv (round_end x j))
      ∧ ∀ j, (calib j).complete = true → (calib j).same_fit (round_end x j) := by
  unfold magnetometer_calib_round at hx
  simp only [] at hx
  have hreset : ∀ j, (calib j).same_fit
      ((List.range w.get_count).foldl
        (fun calib i => setAt calib i { (calib i) with count := 0 }) calib j) := by
    intro j
    rw [magnetometer_calib_reset_apply]
    split_ifs <;> exact ⟨rfl, rfl, rfl⟩
  cases hc : collect_samples (w.sensors r) fuel
      ((List.range w.get_count).foldl
        (fun calib i => setAt calib i { (calib i) with count := 0 }) calib) with
  | none => rw [hc] at hx; simp at hx
  | some c1 =>
    rw [hc] at hx
    simp only [] at hx
    have h1 : ∀ j, (calib j).same_fit (c1 j) := fun j =>
      Calibration.same_fit_trans (hreset j) (collect_samples_same_fit _ fuel _ c1 hc j)
    obtain ⟨p1, p2⟩ := magnetometer_calib_process_pass (w.alloc_ok r) fuel w.get_count
      (List.range w.get_count) c1 x hx
    refine ⟨fun h => p1 (fun j hj => pass_inv_of_same_fit (h1 j) (h j hj)), fun j hj => ?_⟩
    have hcj : (c1 j).complete = true := by rw [(h1 j).2.2]; exact hj
    rw [p2 j hcj]
    exact h1 j

/-- The relation between the pass counter and the completion flag holds for
every instance after any number of rounds from the initialiser. -/
theorem magnetometer_calib_rounds_pass (w : Session) (fuel : ℕ) (calib0 : ℕ → Calibration) :
    ∀ (n : ℕ) (c : ℕ → Calibration),
      magnetometer_calib_rounds w fuel n (magnetometer_calib_init w.get_count calib0) = some c →
      ∀ j, j < w.get_count → pass_inv (c j) := by
  intro n
  induction n with
  | zero =>
    intro c hc j hj
    simp only [magnetometer_calib_rounds, Option.some.injEq] at hc
    subst hc
    obtain ⟨h1, h2⟩ := magnetometer_calib_init_pass w.get_count calib0 j hj
    unfold pass_inv
    rw [h1, h2]
    simp
  | succ n ih =>
    intro c hc j hj
    rw [magnetometer_calib_rounds] at hc
    cases hprev : magnetometer_calib_rounds w fuel n (magnetometer_calib_init w.get_count calib0)
      with
    | none => rw [hprev] at hc; simp at hc
    | some c0 =>
      rw [hprev] at hc
      simp only [] at hc
      cases hround : magnetometer_calib_round w fuel n c0 with
      | none => rw [hround] at hc; simp at hc
      | some x =>
        rw [hround] at hc
        cases x with
        | inl c1 => simp at hc
        | inr c1 =>
          simp only [Option.some.injEq] at hc
          subst hc
          exact (magnetometer_calib_round_pass w fuel n c0 _ hround).1 (ih c0 hprev) j hj

/-- Once an instance is complete, its fit is the same after any number of
further rounds. -/
theorem magnetometer_calib_rounds_same_fit (w : Session) (fuel : ℕ) (init : ℕ → Calibration)
    (n : ℕ) (c : ℕ → Calibration) (hc : magnetometer_calib_rounds w fuel n init = some c)
    (j : ℕ) (hj : (c j).complete = true) :
    ∀ (k : ℕ) (c' : ℕ → Calibration),
      magnetometer_calib_rounds w fuel (n + k) init = some c' → (c j).same_fit (c' j) := by
  intro k
  induction k with
  | zero =>
    intro c' hc'
    rw [Nat.add_zero, hc] at hc'
    simp only [Option.some.injEq] at hc'
    subst hc'
    exact Calibration.same_fit_refl _
  | succ k ih =>
    intro c' hc'
    rw [← Nat.add_assoc, magnetometer_calib_rounds] at hc'
    cases hprev : magnetometer_calib_rounds w fuel (n + k) init with
    | none => rw [hprev] at hc'; simp at hc'
    | some c0 =>
      rw [hprev] at hc'
      simp only [] at hc'
      cases hround : magnetometer_calib_round w fuel (n + k) c0 with
      | none => rw [hround] at hc'; simp at hc'
      | some x =>
        rw [hround] at hc'
        cases x with
        | inl c1 => simp at hc'
        | inr c1 =>
          simp only [Option.some.injEq] at hc'
          subst hc'
          have h0 := ih c0 hprev
          have hcomp : (c0 j).complete = true := by rw [h0.2.2]; exact hj
          exact Calibration.same_fit_trans h0
            ((magnetometer_calib_round_pass w fuel (n + k) c0 _ hround).2 j hcomp)

/-- The relation between the pass counter and the completion flag holds in the
state in which the session returns. -/
theorem magnetometer_calib_run_pass (w : Session) (fuel : ℕ) (calib0 : ℕ → Calibration)
    (e : SessionEnd) (hrun : magnetometer_calib_run w fuel true calib0 = some e) :
    ∀ j, j < w.get_count → pass_inv (e.calib j) := by
  unfold magnetometer_calib_run at hrun
  simp only [Bool.not_true, Bool.false_eq_true, if_false] at hrun
  have h := magnetometer_calib_loop_spec w fuel (magnetometer_calib_init w.get_count calib0) fuel
    0 false (magnetometer_calib_init w.get_count calib0) e rfl (Nat.zero_le _) (fun _ => rfl)
    (fun h => absurd h (by decide))
    (fun k c hk1 hk _ => absurd hk (Nat.not_lt_zero k))
    (fun j hj => magnetometer_calib_init_fault w.get_count calib0 j hj) hrun
  obtain ⟨_, _, _, _, _, h6, h7⟩ := h
  intro j hj
  cases hf : e.faulted with
  | false => exact magnetometer_calib_rounds_pass w fuel calib0 e.iters e.calib (h7 hf) j hj
  | true =>
    obtain ⟨_, _, c, hc, hround⟩ := h6 hf
    exact (magnetometer_calib_round_pass w fuel (e.iters - 1) c _ hround).1
      (magnetometer_calib_rounds_pass w fuel calib0 (e.iters - 1) c hc) j hj

/-- C22. Session invariant. In every state that `magnetometer_calib` reaches
between outer rounds (the state after the initialiser and any number of rounds
none of which faulted), every instance has `passed` in `{0, 1, 2}` and is
complete exactly when `passed = 2`; the same holds in the state in which the
session returns. A complete instance is skipped: its `sphere_param`, `passed`
and `complete` are the same after the next round, whichever way that round
ends, and after any number of further rounds. -/
theorem magnetometer_calib_session_invariant (w : Session) (fuel : ℕ)
    (calib0 : ℕ → Calibration) :
    (∀ (n : ℕ) (c : ℕ → Calibration),
        magnetometer_calib_rounds w fuel n (magnetometer_calib_init w.get_count calib0)
          = some c →
        ∀ i, i < w.get_count →
          ((c i).passed = 0 ∨ (c i).passed = 1 ∨ (c i).passed = 2)
            ∧ ((c i).complete = true ↔ (c i).passed = 2)
            ∧ ((c i).complete = true →
                (∀ x, magnetometer_calib_round w fuel n c = some x →
                    (round_end x i).sphere_param = (c i).sphere_param
                      ∧ (round_end x i).passed = (c i).passed
                      ∧ (round_end x i).complete = true)
                  ∧ ∀ (k : ℕ) (c' : ℕ → Calibration),
                      magnetometer_calib_rounds w fuel (n + k)
                          (magnetometer_calib_init w.get_count calib0) = some c' →
                      (c' i).sphere_param = (c i).sphere_param
                        ∧ (c' i).passed = (c i).passed ∧ (c' i).complete = true))
      ∧ ∀ e : SessionEnd, magnetometer_calib_run w fuel true calib0 = some e →
          ∀ i, i < w.get_count →
            ((e.calib i).passed = 0 ∨ (e.calib i).passed = 1 ∨ (e.calib i).passed = 2)
              ∧ ((e.calib i).complete = true ↔ (e.calib i).passed = 2) := by
  have three : ∀ c : Calibration, pass_inv c →
      (c.passed = 0 ∨ c.passed = 1 ∨ c.passed = 2) ∧ (c.complete = true ↔ c.passed = 2) := by
    intro c hc
    refine ⟨?_, hc.2⟩
    have := hc.1
    omega
  refine ⟨?_, ?_⟩
  · intro n c hc i hi
    have hinv := magnetometer_calib_rounds_pass w fuel calib0 n c hc i hi
    refine ⟨(three _ hinv).1, (three _ hinv).2, fun hcomp => ⟨?_, ?_⟩⟩
    · intro x hx
      have h := (magnetometer_calib_round_pass w fuel n c x hx).2 i hcomp
      exact ⟨h.1, h.2.1, h.2.2.trans hcomp⟩
    · intro k c' hc'
      have h := magnetometer_calib_rounds_same_fit w fuel _ n c hc i hcomp k c' hc'
      exact ⟨h.1, h.2.1, h.2.2.trans hcomp⟩
  · intro e he i hi
    exact three _ (magnetometer_calib_run_pass w fuel calib0 e he i hi)

/-- C22 on `exSession`, in the state after the initialiser and in the state in
which the session returns (after a fault in its first round). -/
theorem magnetometer_calib_session_invariant_witness :
    magnetometer_calib_rounds exSession 100 0
        (magnetometer_calib_init exSession.get_count exStart)
      = some (magnetometer_calib_init exSession.get_count exStart)
      ∧ ((magnetometer_calib_init exSession.get_count exStart 0).complete = true
          ↔ (magnetometer_calib_init exSession.get_count exStart 0).passed = 2)
      ∧ magnetometer_calib_run exSession 100 true exStart = some exEnd
      ∧ ((exEnd.calib 0).complete = true ↔ (exEnd.calib 0).passed = 2) :=
  ⟨rfl,
    ((magnetometer_calib_session_invariant exSession 100 exStart).1 0 _ rfl 0
      (by decide)).2.1,
    exEnd_spec.1,
    ((magnetometer_calib_session_invariant exSession 100 exStart).2 exEnd exEnd_spec.1 0
      (by decide)).2⟩

/-! ## Sample collection for a complete instance -/

/-- The body of the loop of `collect_samples` stores readings of the feed
only. -/
theorem collect_samples_body_from_feed (hw : Sensors) (s : CollectState) (i j : ℕ)
    (hle : (s.calib i).count ≤ NUM_SAMPLES) (h : from_feed hw j (s.calib j)) :
    from_feed hw j ((collect_samples_body hw s i).calib j) := by
  by_cases hj : j = i
  swap
  · rw [collect_samples_body_other hw s i j hj]; exact h
  subst hj
  by_cases hq : (s.calib j).count = NUM_SAMPLES
  · rw [collect_samples_body_full hw s j hq]; exact h
  have hlt : (s.calib j).count < 100 := lt_of_le_of_ne hle hq
  have hmod : ((s.calib j).count + 1) % 256 = (s.calib j).count + 1 :=
    Nat.mod_eq_of_lt (by omega)
  have hstore : ∀ jj, jj < (s.calib j).count + 1 → hw.healthy s.reads j = true →
      ∃ k, hw.healthy k j = true
        ∧ setAt (s.calib j).samples (s.calib j).count (hw.get_field s.reads j) jj
            = hw.get_field k j := by
    intro jj hjj hh
    by_cases hjc : jj = (s.calib j).count
    · rw [hjc, setAt_same]; exact ⟨s.reads, hh, rfl⟩
    · rw [setAt_other _ _ _ _ hjc]
      exact h jj (by omega)
  rw [collect_samples_body_self hw s j hq]
  split_ifs with hh h1 hd hv
  · intro jj hjj
    simp only [hmod] at hjj
    exact hstore jj hjj hh
  · intro jj hjj
    exact hstore jj (Nat.lt_succ_of_lt hjj) hh
  · exact h
  · intro jj hjj
    simp only [hmod] at hjj
    exact hstore jj hjj hh
  · exact h

/-- The loop of `collect_samples` keeps its counting relation and stores
readings of the feed only. -/
theorem collect_samples_pass_from_feed (hw : Sensors) (s : CollectState)
    (h : collect_samples_inv hw s ∧ ∀ j, j < hw.get_count → from_feed hw j (s.calib j)) :
    collect_samples_inv hw (collect_samples_pass hw s)
      ∧ ∀ j, j < hw.get_count → from_feed hw j ((collect_samples_pass hw s).calib j) := by
  unfold collect_samples_pass
  exact foldl_range_invariant
    (fun x : CollectState =>
      collect_samples_inv hw x ∧ ∀ j, j < hw.get_count → from_feed hw j (x.calib j))
    (collect_samples_body hw) hw.get_count
    (fun x i hi hx => ⟨collect_samples_body_inv hw x i hi hx.1,
      fun j hj => collect_samples_body_from_feed hw x i j (hx.1.1 i hi) (hx.2 j hj)⟩) s h

theorem collect_samples_loop_from_feed (hw : Sensors) (fuel : ℕ) :
    ∀ (s s' : CollectState),
      (collect_samples_inv hw s ∧ ∀ j, j < hw.get_count → from_feed hw j (s.calib j)) →
      collect_samples_loop hw fuel s = some s' →
      ∀ j, j < hw.get_count → from_feed hw j (s'.calib j) := by
  induction fuel with
  | zero =>
    intro s s' _ hret
    simp [collect_samples_loop] at hret
  | succ fuel ih =>
    intro s s' h hret
    rw [collect_samples_loop] at hret
    have hp := collect_samples_pass_from_feed hw s h
    split_ifs at hret with hdone
    · simp only [Option.some.injEq] at hret
      rw [← hret]; exact hp.2
    · exact ih _ s' hp hret

/-- The counting relation of `collect_samples` holds on entry with every count
at `0`. -/
theorem collect_samples_inv_start (hw : Sensors) (calib : ℕ → Calibration)
    (h0 : ∀ i, i < hw.get_count → (calib i).count = 0) :
    collect_samples_inv hw (CollectState.mk calib 0 0) := by
  constructor
  · intro j hj
    show (calib j).count ≤ NUM_SAMPLES
    rw [h0 j hj]; exact Nat.zero_le _
  · show 0 = quota_reached hw.get_count calib % 256
    have : quota_reached hw.get_count calib = 0 := by
      unfold quota_reached
      apply Finset.sum_eq_zero
      intro j hj
      rw [h0 j (Finset.mem_range.mp hj)]
      rfl
    rw [this]

/-- When `collect_samples`, entered with every count at `0`, returns, every
instance holds a hundred samples, each of them a reading of the feed. -/
theorem collect_samples_full_from_feed (hw : Sensors) (fuel : ℕ)
    (calib calib' : ℕ → Calibration) (h0 : ∀ i, i < hw.get_count → (calib i).count = 0)
    (hret : collect_samples hw fuel calib = some calib') :
    ∀ i, i < hw.get_count → (calib' i).count = 100 ∧ from_feed hw i (calib' i) := by
  have hstart := collect_samples_inv_start hw calib h0
  have hfeed : ∀ j, j < hw.get_count →
      from_feed hw j ((CollectState.mk calib 0 0).calib j) := by
    intro j hj jj hjj
    have : (calib j).count = 0 := h0 j hj
    have hjj' : jj < (calib j).count := hjj
    omega
  unfold collect_samples at hret
  cases hl : collect_samples_loop hw fuel { calib := calib, sampling_over_cnt := 0, reads := 0 }
    with
  | none => rw [hl] at hret; simp at hret
  | some s' =>
    rw [hl] at hret
    simp only [Option.map_some', Option.some.injEq] at hret
    obtain ⟨hinv, hdone⟩ := collect_samples_loop_inv hw fuel _ s' hstart hl
    have hff := collect_samples_loop_from_feed hw fuel _ s' ⟨hstart, hfeed⟩ hl
    have h2 := hinv.2
    rw [hdone, hret] at h2
    rw [hret] at hff
    have hle := quota_reached_le hw.get_count calib'
    have hmod := Nat.mod_le (quota_reached hw.get_count calib') 256
    have hall : quota_reached hw.get_count calib' = hw.get_count := by omega
    exact fun i hi => ⟨quota_reached_all hw.get_count calib' hall i hi, hff i hi⟩

/-- The context array handed to `collect_samples` in a round and what the
round ends with for a complete instance: the instance is skipped by the
processing loop, so its context is the one `collect_samples` returned. -/
theorem magnetometer_calib_round_collected (w : Session) (fuel r : ℕ)
    (calib : ℕ → Calibration) (x : (ℕ → Calibration) ⊕ (ℕ → Calibration))
    (hx : magnetometer_calib_round w fuel r calib = some x) :
    ∃ c1, collect_samples (w.sensors r) fuel
          ((List.range w.get_count).foldl
            (fun calib i => setAt calib i { (calib i) with count := 0 }) calib) = some c1
      ∧ magnetometer_calib_process (w.alloc_ok r) fuel (List.range w.get_count) c1 = some x
      ∧ ∀ i, (calib i).complete = true → round_end x i = c1 i := by
  unfold magnetometer_calib_round at hx
  simp only [] at hx
  cases hc : collect_samples (w.sensors r) fuel
      ((List.range w.get_count).foldl
        (fun calib i => setAt calib i { (calib i) with count := 0 }) calib) with
  | none => rw [hc] at hx; simp at hx
  | some c1 =>
    rw [hc] at hx
    simp only [] at hx
    refine ⟨c1, rfl, hx, fun i hi => ?_⟩
    have hreset : (calib i).same_fit
        ((List.range w.get_count).foldl
          (fun calib i => setAt calib i { (calib i) with count := 0 }) calib i) := by
      rw [magnetometer_calib_reset_apply]
      split_ifs <;> exact ⟨rfl, rfl, rfl⟩
    have h1 := Calibration.same_fit_trans hreset (collect_samples_same_fit _ fuel _ c1 hc i)
    exact (magnetometer_calib_process_pass (w.alloc_ok r) fuel w.get_count
      (List.range w.get_count) c1 x hx).2 i (by rw [h1.2.2]; exact hi)

/-! ## A round with a complete instance -/

set_option maxRecDepth 100000 in
/-- In the round of `exTwo` entered in the state `exMid`, `collect_samples`
returns; the first sample it leaves for instance `0` is the first reading of
that round. -/
theorem exTwo_collect_run :
    (collect_samples (exTwo.sensors 2) 100
        ((List.range exTwo.get_count).foldl
          (fun calib i => setAt calib i { (calib i) with count := 0 }) exMid)).map
        (fun c => (c 0).samples 0)
      = some ⟨0, 0, 2⟩ := by
  decide!

theorem exMidCollected_spec :
    collect_samples (exTwo.sensors 2) 100
        ((List.range exTwo.get_count).foldl
          (fun calib i => setAt calib i { (calib i) with count := 0 }) exMid)
      = some exMidCollected
      ∧ (exMidCollected 0).samples 0 = ⟨0, 0, 2⟩ := by
  have h := getD_of_map_eq_some _ _ _ exMid exTwo_collect_run
  unfold exMidCollected
  generalize (collect_samples (exTwo.sensors 2) 100
    ((List.range exTwo.get_count).foldl
      (fun calib i => setAt calib i { (calib i) with count := 0 }) exMid)).getD exMid = r
    at h ⊢
  exact ⟨h.1, h.2⟩

/-- Every point `exRing p` lies on the sphere of radius `100` about the
origin. -/
theorem exRing_sphere (p : ℕ) :
    (exRing p).x * (exRing p).x + (exRing p).y * (exRing p).y
      + (exRing p).z * (exRing p).z = 10000 := by
  have hpos : (1 : ℚ) + ((p : ℚ) + 2) * ((p : ℚ) + 2) ≠ 0 := by positivity
  unfold exRing
  split_ifs
  · simp only []
    field_simp
    ring
  · simp only []
    field_simp
    ring

/-- The processing loop of a round over two instances of which the first is
complete and the second is fitted without a fault. -/
theorem magnetometer_calib_process_two (alloc_ok : ℕ → ℕ → Bool) (fuel : ℕ)
    (c1 : ℕ → Calibration) (cal : Calibration) (h0 : (c1 0).complete = true)
    (h1 : (c1 1).complete = false)
    (hp : process_samples (alloc_ok 1) fuel (c1 1) = some cal) (hf : cal.fault = false) :
    magnetometer_calib_process alloc_ok fuel [0, 1] c1 = some (Sum.inr (setAt c1 1 cal)) := by
  rw [magnetometer_calib_process, if_pos h0, magnetometer_calib_process, h1]
  simp only [Bool.false_eq_true, if_false]
  rw [hp]
  simp only [hf, Bool.false_eq_true, if_false, magnetometer_calib_process]

/-- An outer round is sample collection on the array with the counts reset,
followed by the processing loop. -/
theorem magnetometer_calib_round_of (w : Session) (fuel r : ℕ) (calib c1 : ℕ → Calibration)
    (x : (ℕ → Calibration) ⊕ (ℕ → Calibration))
    (hc : collect_samples (w.sensors r) fuel
        ((List.range w.get_count).foldl
          (fun calib i => setAt calib i { (calib i) with count := 0 }) calib) = some c1)
    (hp : magnetometer_calib_process (w.alloc_ok r) fuel (List.range w.get_count) c1 = some x) :
    magnetometer_calib_round w fuel r calib = some x := by
  unfold magnetometer_calib_round
  simp only []
  rw [hc]
  exact hp

theorem exMid_zero :
    exMid 0 = { exCalib with
      sphere_param := fun _ => 20
      samples := fun j => ⟨(j : ℚ), 100 * ((j % 2 : ℕ) : ℚ), 1⟩
      passed := 2, complete := true } := by
  unfold exMid
  rw [if_pos rfl]

theorem exMid_one :
    exMid 1 = { exCalib with
      sphere_param := fun t => if t = 0 then 100 else 0
      samples := exRing
      passed := 0, inst := 1 } := by
  unfold exMid
  rw [if_neg (by decide)]

/-- In the state `exMid` instance `0` is complete and holds the samples of
round `1`; instance `1` is not complete. -/
theorem exMid_spec :
    (exMid 0).complete = true ∧ (exMid 0).count = 100 ∧ (exMid 0).samples 0 = ⟨0, 0, 1⟩
      ∧ (exMid 1).complete = false ∧ (exMid 1).passed = 0 ∧ (exMid 1).fault = false
      ∧ (exMid 1).sphere_param = (fun t => if t = 0 then 100 else 0) := by
  rw [exMid_zero, exMid_one]
  refine ⟨rfl, rfl, ?_, rfl, rfl, rfl, rfl⟩
  simp only [Nat.cast_zero, Nat.zero_mod, mul_zero]

/-- The round of `exTwo` entered in the state `exMid`, given the array `c1` that
`collect_samples` returns in it: instance `0` is skipped, the fit of instance
`1` finds its hundred samples on the sphere of its parameters, and the round
ends without a fault. -/
theorem exTwo_round_of_collected (c1 : ℕ → Calibration)
    (hc : collect_samples (exTwo.sensors 2) 100
        ((List.range exTwo.get_count).foldl
          (fun calib i => setAt calib i { (calib i) with count := 0 }) exMid) = some c1) :
    ∃ cal, magnetometer_calib_round exTwo 100 2 exMid = some (Sum.inr (setAt c1 1 cal)) := by
  have hreset : ∀ j, (exMid j).same_fit
      ((List.range exTwo.get_count).foldl
        (fun calib i => setAt calib i { (calib i) with count := 0 }) exMid j) := by
    intro j
    rw [magnetometer_calib_reset_apply]
    split_ifs <;> exact ⟨rfl, rfl, rfl⟩
  have hfit : ∀ j, (exMid j).same_fit (c1 j) := fun j =>
    Calibration.same_fit_trans (hreset j) (collect_samples_same_fit _ 100 _ c1 hc j)
  have hzero : ∀ i, i < (exTwo.sensors 2).get_count →
      ((List.range exTwo.get_count).foldl
        (fun calib i => setAt calib i { (calib i) with count := 0 }) exMid i).count = 0 := by
    intro i hi
    rw [magnetometer_calib_reset_apply, if_pos (show i < exTwo.get_count from hi)]
  have hfull := collect_samples_full_from_feed (exTwo.sensors 2) 100 _ c1 hzero hc 1
    (by decide)
  have hcomp0 : (c1 0).complete = true := by rw [(hfit 0).2.2]; exact exMid_spec.1
  have hcomp1 : (c1 1).complete = false := by rw [(hfit 1).2.2]; exact exMid_spec.2.2.2.1
  have hparam : (c1 1).sphere_param = (fun t => if t = 0 then 100 else 0) := by
    rw [(hfit 1).1]; exact exMid_spec.2.2.2.2.2.2
  have hcl_param : ({ (c1 1) with fault := false } : Calibration).sphere_param
      = (fun t => if t = 0 then 100 else 0) := hparam
  have hcl_samples : ({ (c1 1) with fault := false } : Calibration).samples
      = (c1 1).samples := rfl
  have hres : ∀ j, j < NUM_SAMPLES →
      (sphere_fitness { (c1 1) with fault := false }).sample_fitness j = 0 := by
    intro j hj
    obtain ⟨k, _, hk⟩ := hfull.2 j (by rw [hfull.1]; exact hj)
    have hk' : (c1 1).samples j = exRing (k / 2) := hk
    have hsph := exRing_sphere (k / 2)
    have hsq : (exRing (k / 2)).x ^ 2 + (exRing (k / 2)).y ^ 2 + (exRing (k / 2)).z ^ 2
        = 10000 := by
      rw [← hsph]; ring
    have hnc : ¬ |({ (c1 1) with fault := false } : Calibration).sphere_param 0| < 1 := by
      rw [hcl_param]
      norm_num
    rw [sphere_fitness_residual_noclamp _ hnc j hj, hcl_param, hcl_samples, hk']
    unfold residual
    simp only [if_true, show ¬ ((1 : ℕ) = 0) by decide, show ¬ ((2 : ℕ) = 0) by decide,
      show ¬ ((3 : ℕ) = 0) by decide, if_false, add_zero]
    rw [hsq]
    norm_num
  have hrad : (1 : ℚ) ≤ ({ (c1 1) with fault := false } : Calibration).sphere_param 0 := by
    rw [hcl_param]
    norm_num
  obtain ⟨rr, hr, hr1, hr2⟩ := evaluatelm_perfect (exTwo.alloc_ok 2 1) 99
    { (c1 1) with fault := false } rfl rfl hrad hres
  have hproc : process_samples (exTwo.alloc_ok 2 1) 100 (c1 1)
      = some (process_samples_policy rr.1 rr.2) :=
    process_samples_run _ 100 (c1 1) rr hr
  have hpf : (process_samples_policy rr.1 rr.2).fault = false := by
    rw [process_samples_policy_fault, hr2]
  have hprocess := magnetometer_calib_process_two (exTwo.alloc_ok 2) 100 c1 _ hcomp0 hcomp1
    hproc hpf
  exact ⟨_, magnetometer_calib_round_of exTwo 100 2 exMid c1 _ hc hprocess⟩

theorem round_end_getD (c : ℕ → Calibration) (d : (ℕ → Calibration) ⊕ (ℕ → Calibration)) :
    round_end ((some (Sum.inr c)).getD d) = c := rfl

/-- The round of `exTwo` entered in the state `exMid` ends without a fault. It
leaves instance `0` with a first sample that is the first reading of the
round. -/
theorem exMidNext_spec :
    magnetometer_calib_round exTwo 100 2 exMid = some (Sum.inr exMidNext)
      ∧ (exMidNext 0).samples 0 = ⟨0, 0, 2⟩ := by
  obtain ⟨cal, hround⟩ := exTwo_round_of_collected exMidCollected exMidCollected_spec.1
  have hnext : exMidNext = setAt exMidCollected 1 cal := by
    unfold exMidNext
    rw [hround, round_end_getD]
  rw [hnext]
  refine ⟨hround, ?_⟩
  rw [setAt_other _ _ _ _ (by decide)]
  exact exMidCollected_spec.2

/-- The amended C23. In every outer round, also after an instance has become
complete, the count of the instance is reset to `0` with all the others and
`collect_samples` fills its buffer again: whichever way the round ends, the
context of a complete instance is the one `collect_samples` returned for it,
its count is `100` and each of its hundred stored samples is a reading that
the sensor delivered for it, while healthy, in that round. The quota check
passes an instance over only while its count is `100`. -/
theorem magnetometer_calib_round_recollects (w : Session) (fuel r : ℕ)
    (calib : ℕ → Calibration) (x : (ℕ → Calibration) ⊕ (ℕ → Calibration))
    (hx : magnetometer_calib_round w fuel r calib = some x) (i : ℕ) (hi : i < w.get_count)
    (hcomp : (calib i).complete = true) :
    (round_end x i).count = 100
      ∧ (∀ j, j < 100 →
          ∃ k, w.healthy r k i = true ∧ (round_end x i).samples j = w.get_field r k i)
      ∧ (∃ c0 c1 : ℕ → Calibration,
          (∀ j, j < w.get_count → c0 j = { (calib j) with count := 0 })
            ∧ collect_samples (w.sensors r) fuel c0 = some c1 ∧ round_end x i = c1 i)
      ∧ ∀ s : CollectState, (s.calib i).count = 100 →
          collect_samples_body (w.sensors r) s i = s := by
  obtain ⟨c1, hc, _, hend⟩ := magnetometer_calib_round_collected w fuel r calib x hx
  have hzero : ∀ j, j < (w.sensors r).get_count →
      ((List.range w.get_count).foldl
        (fun calib i => setAt calib i { (calib i) with count := 0 }) calib j).count = 0 := by
    intro j hj
    rw [magnetometer_calib_reset_apply, if_pos (show j < w.get_count from hj)]
  obtain ⟨hcount, hfeed⟩ := collect_samples_full_from_feed (w.sensors r) fuel _ c1 hzero hc i hi
  rw [hend i hcomp]
  refine ⟨hcount, fun j hj => hfeed j (by rw [hcount]; exact hj), ⟨_, c1, fun j hj => ?_, hc, rfl⟩,
    fun s hs => collect_samples_body_full (w.sensors r) s i hs⟩
  rw [magnetometer_calib_reset_apply, if_pos hj]

/-- The amended C23 on the round of `exTwo` entered in the state `exMid`, where
instance `0` is complete. -/
theorem magnetometer_calib_round_recollects_witness :
    magnetometer_calib_round exTwo 100 2 exMid = some (Sum.inr exMidNext)
      ∧ 0 < exTwo.get_count ∧ (exMid 0).complete = true
      ∧ (round_end (Sum.inr exMidNext) 0).count = 100
      ∧ ∀ j, j < 100 →
          ∃ k, exTwo.healthy 2 k 0 = true
            ∧ (round_end (Sum.inr exMidNext) 0).samples j = exTwo.get_field 2 k 0 :=
  ⟨exMidNext_spec.1, by decide, exMid_spec.1,
    (magnetometer_calib_round_recollects exTwo 100 2 exMid _ exMidNext_spec.1 0 (by decide)
      exMid_spec.1).1,
    (magnetometer_calib_round_recollects exTwo 100 2 exMid _ exMidNext_spec.1 0 (by decide)
      exMid_spec.1).2.1⟩

/-- C23 as stated fails. In the state `exMid` of the session `exTwo`, instance
`0` is complete and holds a hundred samples, the first of them `(0, 0, 1)`. The
next round resets its count and collects again: the round ends without a fault,
and the first stored sample of instance `0` is now `(0, 0, 2)`, the first
reading of that round. -/
theorem magnetometer_calib_round_resampled :
    0 < exTwo.get_count ∧ (exMid 0).complete = true ∧ (exMid 0).count = 100
      ∧ magnetometer_calib_round exTwo 100 2 exMid = some (Sum.inr exMidNext)
      ∧ (exMid 0).samples 0 = ⟨0, 0, 1⟩
      ∧ (exMidNext 0).samples 0 = ⟨0, 0, 2⟩
      ∧ (exMidNext 0).samples 0 ≠ (exMid 0).samples 0 := by
  refine ⟨by decide, exMid_spec.1, exMid_spec.2.1, exMidNext_spec.1, exMid_spec.2.2.1,
    exMidNext_spec.2, ?_⟩
  rw [exMidNext_spec.2, exMid_spec.2.2.1]
  intro h
  have hz := congrArg Vector3f.z h
  simp only [] at hz
  norm_num at hz

/-! ## Index safety -/

theorem validate_sample_idx_from_mem (calib : Calibration) (l : List ℕ) :
    ∀ k ∈ validate_sample_idx_from calib l, k ∈ l ∨ k = calib.count := by
  induction l with
  | nil => intro k hk; simp [validate_sample_idx_from] at hk
  | cons i rest ih =>
    intro k hk
    rw [validate_sample_idx_from] at hk
    rcases List.mem_cons.mp hk with h | hk
    · left; rw [h]; exact List.mem_cons_self _ _
    rcases List.mem_cons.mp hk with h | hk
    · right; exact h
    split_ifs at hk
    · simp at hk
    · rcases ih k hk with h | h
      · left; exact List.mem_cons_of_mem _ h
      · right; exact h

/-- `validate_sample` reads the sample buffer at `count` and below. -/
theorem validate_sample_idx_le (calib : Calibration) :
    ∀ k ∈ validate_sample_idx calib, k ≤ calib.count := by
  intro k hk
  rcases validate_sample_idx_from_mem calib _ k hk with h | h
  · exact Nat.le_of_lt (List.mem_range.mp h)
  · exact Nat.le_of_eq h

/-- The body of the loop of `collect_samples` uses the sample buffer of an
instance whose count is at most `100` below index `100` only. -/
theorem collect_samples_body_idx_lt (hw : Sensors) (s : CollectState) (i : ℕ)
    (hle : (s.calib i).count ≤ NUM_SAMPLES) :
    ∀ k ∈ collect_samples_body_idx hw s i, k < 100 := by
  intro k hk
  unfold collect_samples_body_idx at hk
  simp only [] at hk
  by_cases hq : (s.calib i).count = NUM_SAMPLES
  · simp [hq] at hk
  have hlt : (s.calib i).count < 100 := lt_of_le_of_ne hle hq
  rw [if_neg hq] at hk
  by_cases hh : hw.healthy s.reads i = true
  · simp only [hh, Bool.not_true, Bool.false_eq_true, if_false] at hk
    by_cases hc : (s.calib i).count ≥ 1
    · rw [if_pos hc] at hk
      rcases List.mem_cons.mp hk with h | hk
      · omega
      split_ifs at hk
      · rcases List.mem_cons.mp hk with h | hk
        · omega
        · have hv : k ≤ (s.calib i).count :=
            validate_sample_idx_le
              { s.calib i with
                samples := setAt (s.calib i).samples (s.calib i).count
                  (hw.get_field s.reads i) } k hk
          omega
      · simp at hk
    · rw [if_neg hc] at hk
      have := List.mem_singleton.mp hk
      omega
  · have hh' : hw.healthy s.reads i = false := by simpa using hh
    simp [hh'] at hk

/-- The state component of the loop that collects the trace of a pass is the
state of the pass. -/
theorem collect_samples_pass_idx_state (hw : Sensors) (n : ℕ) (s : CollectState) :
    ((List.range n).foldl
      (fun (p : CollectState × List ℕ) i =>
        (collect_samples_body hw p.1 i, p.2 ++ collect_samples_body_idx hw p.1 i))
      (s, [])).1 = (List.range n).foldl (collect_samples_body hw) s := by
  induction n with
  | zero => rfl
  | succ n ih =>
    rw [List.range_succ, List.foldl_append, List.foldl_append]
    simp only [List.foldl_cons, List.foldl_nil]
    rw [ih]

/-- One pass of the loop of `collect_samples`, entered in a state in which no
count exceeds the quota, uses the sample buffers below index `100` only. -/
theorem collect_samples_pass_idx_lt (hw : Sensors) (s : CollectState)
    (h : collect_samples_inv hw s) : ∀ k ∈ collect_samples_pass_idx hw s, k < 100 := by
  unfold collect_samples_pass_idx
  have key := foldl_range_invariant
    (fun p : CollectState × List ℕ => collect_samples_inv hw p.1 ∧ ∀ k ∈ p.2, k < 100)
    (fun (p : CollectState × List ℕ) i =>
      (collect_samples_body hw p.1 i, p.2 ++ collect_samples_body_idx hw p.1 i))
    hw.get_count
    (fun p i hi hp => ⟨collect_samples_body_inv hw p.1 i hi hp.1, fun k hk => by
      rcases List.mem_append.mp hk with hk | hk
      · exact hp.2 k hk
      · exact collect_samples_body_idx_lt hw p.1 i (hp.1.1 i hi) k hk⟩)
    (s, []) ⟨h, fun k hk => by simp at hk⟩
  exact key.2

/-- The loop of `collect_samples`, entered in a state in which no count exceeds
the quota, uses the sample buffers below index `100` only. -/
theorem collect_samples_loop_idx_lt (hw : Sensors) (fuel : ℕ) :
    ∀ s : CollectState, collect_samples_inv hw s →
      ∀ k ∈ collect_samples_loop_idx hw fuel s, k < 100 := by
  induction fuel with
  | zero =>
    intro s _ k hk
    simp [collect_samples_loop_idx] at hk
  | succ fuel ih =>
    intro s h k hk
    rw [collect_samples_loop_idx] at hk
    rcases List.mem_append.mp hk with hk | hk
    · exact collect_samples_pass_idx_lt hw s h k hk
    · split_ifs at hk
      · simp at hk
      · exact ih _ (collect_samples_pass_inv hw s h) k hk

/-- The loop of `collect_samples` indexes the context array below
`get_count()`. -/
theorem collect_samples_loop_calib_idx_lt (hw : Sensors) (fuel : ℕ) :
    ∀ s : CollectState, ∀ k ∈ collect_samples_loop_calib_idx hw fuel s, k < hw.get_count := by
  induction fuel with
  | zero =>
    intro s k hk
    simp [collect_samples_loop_calib_idx] at hk
  | succ fuel ih =>
    intro s k hk
    rw [collect_samples_loop_calib_idx] at hk
    rcases List.mem_append.mp hk with hk | hk
    · exact List.mem_range.mp hk
    · split_ifs at hk
      · simp at hk
      · exact ih _ k hk

/-- The processing loop indexes the context array at instances of its list. -/
theorem magnetometer_calib_process_idx_mem (alloc_ok : ℕ → ℕ → Bool) (fuel : ℕ) :
    ∀ (l : List ℕ) (calib : ℕ → Calibration),
      ∀ k ∈ magnetometer_calib_process_idx alloc_ok fuel l calib, k ∈ l := by
  intro l
  induction l with
  | nil =>
    intro calib k hk
    simp [magnetometer_calib_process_idx] at hk
  | cons i rest ih =>
    intro calib k hk
    rw [magnetometer_calib_process_idx] at hk
    rcases List.mem_cons.mp hk with h | hk
    · rw [h]; exact List.mem_cons_self _ _
    apply List.mem_cons_of_mem
    by_cases hcomp : (calib i).complete = true
    · rw [if_pos hcomp] at hk
      exact ih calib k hk
    · rw [if_neg hcomp] at hk
      cases hp : process_samples (alloc_ok i) fuel (calib i) with
      | none => rw [hp] at hk; simp at hk
      | some cal =>
        rw [hp] at hk
        simp only [] at hk
        split_ifs at hk
        · simp at hk
        · exact ih _ k hk

/-- The loop that computes `done` indexes the context array at instances of
its list. -/
theorem magnetometer_calib_done_idx_mem (calib : ℕ → Calibration) :
    ∀ (l : List ℕ), ∀ k ∈ magnetometer_calib_done_idx calib l, k ∈ l := by
  intro l
  induction l with
  | nil =>
    intro k hk
    simp [magnetometer_calib_done_idx] at hk
  | cons i rest ih =>
    intro k hk
    rw [magnetometer_calib_done_idx] at hk
    rcases List.mem_cons.mp hk with h | hk
    · rw [h]; exact List.mem_cons_self _ _
    apply List.mem_cons_of_mem
    split_ifs at hk
    · exact ih k hk
    · simp at hk

/-- An outer round indexes the context array below `get_count()`. -/
theorem magnetometer_calib_round_idx_lt (w : Session) (fuel r : ℕ) (calib : ℕ → Calibration) :
    ∀ k ∈ magnetometer_calib_round_idx w fuel r calib, k < w.get_count := by
  intro k hk
  unfold magnetometer_calib_round_idx at hk
  simp only [] at hk
  rcases List.mem_append.mp hk with hk | hk
  · rcases List.mem_append.mp hk with hk | hk
    · exact List.mem_range.mp hk
    · exact collect_samples_loop_calib_idx_lt (w.sensors r) fuel _ k hk
  · cases hc : collect_samples (w.sensors r) fuel
        ((List.range w.get_count).foldl
          (fun calib i => setAt calib i { (calib i) with count := 0 }) calib) with
    | none => rw [hc] at hk; simp at hk
    | some c1 =>
      rw [hc] at hk
      simp only [] at hk
      rcases List.mem_append.mp hk with hk | hk
      · exact List.mem_range.mp
          (magnetometer_calib_process_idx_mem (w.alloc_ok r) fuel _ c1 k hk)
      · cases hp : magnetometer_calib_process (w.alloc_ok r) fuel (List.range w.get_count) c1
          with
        | none => rw [hp] at hk; simp at hk
        | some x =>
          rw [hp] at hk
          cases x with
          | inl c2 => simp at hk
          | inr c2 =>
            simp only [] at hk
            exact List.mem_range.mp (magnetometer_calib_done_idx_mem c2 _ k hk)

theorem magnetometer_calib_loop_idx_unfold (w : Session) (fuel gas iters : ℕ) (done : Bool)
    (calib : ℕ → Calibration) :
    magnetometer_calib_loop_idx w fuel gas iters done calib =
      if iters < MAX_ITERS ∧ done = false then
        match gas with
        | 0 => []
        | gas + 1 =>
          magnetometer_calib_round_idx w fuel iters calib ++
            (match magnetometer_calib_round w fuel iters calib with
             | some (Sum.inr calib1) =>
               magnetometer_calib_loop_idx w fuel gas (iters + 1)
                 (magnetometer_calib_done w.get_count calib1) calib1
             | _ => [])
      else [] := by
  cases gas
  · rw [magnetometer_calib_loop_idx]
  · rw [magnetometer_calib_loop_idx]

/-- The outer loop of `magnetometer_calib` indexes the context array below
`get_count()`. -/
theorem magnetometer_calib_loop_idx_lt (w : Session) (fuel gas : ℕ) :
    ∀ (iters : ℕ) (done : Bool) (calib : ℕ → Calibration),
      ∀ k ∈ magnetometer_calib_loop_idx w fuel gas iters done calib, k < w.get_count := by
  induction gas with
  | zero =>
    intro iters done calib k hk
    rw [magnetometer_calib_loop_idx_unfold] at hk
    split_ifs at hk <;> simp at hk
  | succ gas ih =>
    intro iters done calib k hk
    rw [magnetometer_calib_loop_idx_unfold] at hk
    split_ifs at hk
    · simp only [] at hk
      rcases List.mem_append.mp hk with hk | hk
      · exact magnetometer_calib_round_idx_lt w fuel iters calib k hk
      · cases hr : magnetometer_calib_round w fuel iters calib with
        | none => rw [hr] at hk; simp at hk
        | some x =>
          rw [hr] at hk
          cases x with
          | inl c1 => simp at hk
          | inr c1 =>
            simp only [] at hk
            exact ih _ _ _ k hk
    · simp at hk

/-- Every index `magnetometer_calib` uses into the context array is below
`get_count()`, and every index below `get_count()` is used, by the
initialiser. -/
theorem magnetometer_calib_idx_iff (w : Session) (fuel : ℕ) (calib : ℕ → Calibration) :
    (∀ k ∈ magnetometer_calib_idx w fuel true calib, k < w.get_count)
      ∧ ∀ k, k < w.get_count → k ∈ magnetometer_calib_idx w fuel true calib := by
  unfold magnetometer_calib_idx
  simp only [Bool.not_true, Bool.false_eq_true, if_false]
  constructor
  · intro k hk
    rcases List.mem_append.mp hk with hk | hk
    · exact List.mem_range.mp hk
    · exact magnetometer_calib_loop_idx_lt w fuel fuel 0 false _ k hk
  · intro k hk
    exact List.mem_append_left _ (List.mem_range.mpr hk)

/-- The first sample-buffer index used by `collect_samples`, entered with a
healthy instance `0` whose count is `0`, is `0`. -/
theorem collect_samples_idx_first (hw : Sensors) (fuel : ℕ) (calib : ℕ → Calibration)
    (hn : hw.get_count = 1) (h0 : (calib 0).count = 0) (hh : hw.healthy 0 0 = true) :
    0 ∈ collect_samples_idx hw (fuel + 1) calib := by
  unfold collect_samples_idx
  rw [collect_samples_loop_idx]
  apply List.mem_append_left
  unfold collect_samples_pass_idx
  rw [hn, show List.range 1 = [0] from rfl]
  simp only [List.foldl_cons, List.foldl_nil, List.nil_append]
  unfold collect_samples_body_idx
  simp only [h0, hh]
  simp [NUM_SAMPLES]

/-- C24. Index safety of the session. Given that the context array is
allocated (with two elements), every index `magnetometer_calib` and
`collect_samples` use into it is below `2` if and only if `get_count() <= 2`;
if `get_count()` exceeds `2`, the third access of the session, made by the
initialiser, is at index `2`. In every round, every index at which
`collect_samples` and the calls of `validate_sample` it makes read or write a
sample buffer is below `100`; so it is for every call of `collect_samples`
entered with the counts at `0`. -/
theorem magnetometer_calib_index_safety (w : Session) (fuel : ℕ) (calib : ℕ → Calibration) :
    ((∀ k ∈ magnetometer_calib_idx w fuel true calib, k < 2) ↔ w.get_count ≤ 2)
      ∧ (2 < w.get_count → (magnetometer_calib_idx w fuel true calib)[2]? = some 2)
      ∧ (∀ (r : ℕ) (c : ℕ → Calibration),
          ∀ k ∈ collect_samples_idx (w.sensors r) fuel
              ((List.range w.get_count).foldl
                (fun calib i => setAt calib i { (calib i) with count := 0 }) c),
            k < 100)
      ∧ ∀ (hw : Sensors) (c : ℕ → Calibration), (∀ i, i < hw.get_count → (c i).count = 0) →
          ∀ k ∈ collect_samples_idx hw fuel c, k < 100 := by
  obtain ⟨hlt, hmem⟩ := magnetometer_calib_idx_iff w fuel calib
  have hzero : ∀ (hw : Sensors) (c : ℕ → Calibration),
      (∀ i, i < hw.get_count → (c i).count = 0) →
      ∀ k ∈ collect_samples_idx hw fuel c, k < 100 := by
    intro hw c h0 k hk
    exact collect_samples_loop_idx_lt hw fuel _ (collect_samples_inv_start hw c h0) k hk
  refine ⟨⟨?_, ?_⟩, ?_, ?_, hzero⟩
  · intro h
    by_contra hgt
    have := h 2 (hmem 2 (by omega))
    omega
  · intro h k hk
    have := hlt k hk
    omega
  · intro h
    unfold magnetometer_calib_idx
    simp only [Bool.not_true, Bool.false_eq_true, if_false]
    rw [List.getElem?_append_left (by rw [List.length_range]; exact h)]
    exact List.getElem?_range h
  · intro r c k hk
    refine hzero (w.sensors r) _ ?_ k hk
    intro i hi
    rw [magnetometer_calib_reset_apply, if_pos (show i < w.get_count from hi)]

/-- C24 on `exSession`, which has one instance: index `0` is used by the
initialiser and is below `2`; index `0` of the sample buffer is used in the
first round and is below `100`. -/
theorem magnetometer_calib_index_safety_witness :
    0 ∈ magnetometer_calib_idx exSession 100 true exStart
      ∧ exSession.get_count ≤ 2
      ∧ 0 < 2
      ∧ 0 ∈ collect_samples_idx (exSession.sensors 0) 100
          ((List.range exSession.get_count).foldl
            (fun calib i => setAt calib i { (calib i) with count := 0 }) exStart)
      ∧ 0 < 100 :=
  have hmem : 0 ∈ magnetometer_calib_idx exSession 100 true exStart :=
    (magnetometer_calib_idx_iff exSession 100 exStart).2 0 (by decide)
  have hsmp : 0 ∈ collect_samples_idx (exSession.sensors 0) 100
      ((List.range exSession.get_count).foldl
        (fun calib i => setAt calib i { (calib i) with count := 0 }) exStart) :=
    collect_samples_idx_first (exSession.sensors 0) 99 _ rfl rfl rfl
  ⟨hmem, by decide,
    (magnetometer_calib_index_safety exSession 100 exStart).1.mpr (by decide) 0 hmem,
    hsmp,
    (magnetometer_calib_index_safety exSession 100 exStart).2.2.1 0 exStart 0 hsmp⟩

/-! ## `double` arithmetic: where the program leaves exact arithmetic -/

/-- The flag `inverse4x4` returns in `double` arithmetic. -/
theorem inverse4x4_double_fst (m invOut : ℕ → Dbl) :
    (inverse4x4_double m invOut).1 = !Dbl.eq (inverse4x4_det_double m) (Dbl.fin 0) := by
  unfold inverse4x4_double
  simp only []
  cases Dbl.eq (inverse4x4_det_double m) (Dbl.fin 0) <;> rfl

/-- The cells `inverse4x4` leaves in `invOut` when it returns `true`. -/
theorem inverse4x4_double_snd_apply (m invOut : ℕ → Dbl)
    (h : Dbl.eq (inverse4x4_det_double m) (Dbl.fin 0) = false) (t : ℕ) :
    (inverse4x4_double m invOut).2 t
      = if t < 16 then inverse4x4_inv_double m t * (Dbl.fin 1 / inverse4x4_det_double m)
        else invOut t := by
  unfold inverse4x4_double
  simp only [h, Bool.false_eq_true, if_false]
  exact foldl_setAt_apply
    (fun i => inverse4x4_inv_double m i * (Dbl.fin 1 / inverse4x4_det_double m)) 16 invOut t

/-- The array `inverse4x4` leaves in `invOut` when it returns `false`. -/
theorem inverse4x4_double_snd_singular (m invOut : ℕ → Dbl)
    (h : Dbl.eq (inverse4x4_det_double m) (Dbl.fin 0) = true) :
    (inverse4x4_double m invOut).2 = invOut := by
  unfold inverse4x4_double
  simp only [h, if_true]

set_option maxRecDepth 100000 in
/-- C2 as stated fails in `double` arithmetic, in both directions. The entries
of `exUnderflow` are `double` values and its determinant is `1`, so in exact
arithmetic `inverse4x4` returns `true`; in `double` arithmetic the product
`2^-600 * 2^-600` underflows to `0`, the computed `det` is `0` and `inverse4x4`
returns `false`. The entries of `exTwoRows` are integers, its rows `0` and `2`
are the same and its determinant is `0`, so in exact arithmetic `inverse4x4`
returns `false`; in `double` arithmetic the cofactor sums are rounded, the
computed `det` is `-4` and `inverse4x4` returns `true`. -/
theorem inverse4x4_double_flag_not_det :
    ((∀ i, i < 16 → Dbl.round (exUnderflow i) = Dbl.fin (exUnderflow i))
        ∧ (toMatrix exUnderflow).det = 1
        ∧ (inverse4x4 exUnderflow exUnderflow).1 = true
        ∧ inverse4x4_det_double (fun i => Dbl.fin (exUnderflow i)) = Dbl.fin 0
        ∧ (inverse4x4_double (fun i => Dbl.fin (exUnderflow i))
            (fun i => Dbl.fin (exUnderflow i))).1 = false)
      ∧ ((∀ i, i < 16 → Dbl.round (exTwoRows i) = Dbl.fin (exTwoRows i))
        ∧ toMatrix exTwoRows 0 = toMatrix exTwoRows 2
        ∧ (toMatrix exTwoRows).det = 0
        ∧ (inverse4x4 exTwoRows exTwoRows).1 = false
        ∧ inverse4x4_det_double (fun i => Dbl.fin (exTwoRows i)) = Dbl.fin (-4)
        ∧ (inverse4x4_double (fun i => Dbl.fin (exTwoRows i))
            (fun i => Dbl.fin (exTwoRows i))).1 = true) := by
  have hu : inverse4x4_det exUnderflow = 1 := by
    unfold inverse4x4_det inverse4x4_inv exUnderflow
    norm_num
  have ht : inverse4x4_det exTwoRows = 0 := by
    unfold inverse4x4_det inverse4x4_inv exTwoRows
    norm_num
  have hud : inverse4x4_det_double (fun i => Dbl.fin (exUnderflow i)) = Dbl.fin 0 := by
    decide!
  have htd : inverse4x4_det_double (fun i => Dbl.fin (exTwoRows i)) = Dbl.fin (-4) := by
    decide!
  refine ⟨⟨by decide!, ?_, ?_, hud, ?_⟩, ⟨by decide!, ?_, ?_, ?_, htd, ?_⟩⟩
  · rw [← inverse4x4_det_eq, hu]
  · rw [inverse4x4_fst, hu]
    decide
  · rw [inverse4x4_double_fst, hud]
    rfl
  · funext k
    fin_cases k <;> rfl
  · rw [← inverse4x4_det_eq, ht]
  · rw [inverse4x4_fst, ht]
    decide
  · rw [inverse4x4_double_fst, htd]
    decide

/-! ### `calc_JTJ_LI` in `double` arithmetic -/

/-- The innermost loop of `calc_JTJ_LI` in `double` arithmetic, run for `n`
samples: the products are added to cell `i * 4 + j` one after the other. -/
theorem calc_JTJ_LI_double_inner (i j n : ℕ) (c : Calibration_double) :
    (List.range n).foldl
      (fun calib k =>
        { calib with
          JTJ_LI := setAt calib.JTJ_LI (i * NUM_PARAMS + j)
            (calib.JTJ_LI (i * NUM_PARAMS + j)
              + calib.jacob (i * NUM_SAMPLES + k) * calib.jacob (j * NUM_SAMPLES + k)) })
      c
    = { c with
        JTJ_LI := fun t =>
          if t = i * NUM_PARAMS + j then
            (List.range n).foldl
              (fun s k => s + c.jacob (i * NUM_SAMPLES + k) * c.jacob (j * NUM_SAMPLES + k))
              (c.JTJ_LI t)
          else c.JTJ_LI t } := by
  induction n with
  | zero =>
    simp only [List.range_zero, List.foldl_nil]
    ext t <;> try rfl
    simp only []
    split_ifs <;> rfl
  | succ n ih =>
    rw [List.range_succ, List.foldl_append, ih]
    simp only [List.foldl_cons, List.foldl_nil, List.foldl_append]
    ext t <;> try rfl
    simp only [setAt]
    by_cases h : t = i * NUM_PARAMS + j
    · simp only [h, if_true]
    · simp only [h, if_false]

/-- The middle loop of `calc_JTJ_LI` in `double` arithmetic, run for `m`
columns. -/
theorem calc_JTJ_LI_double_middle (i m : ℕ) (c : Calibration_double) :
    (List.range m).foldl
      (fun calib j =>
        (List.range NUM_SAMPLES).foldl
          (fun calib k =>
            { calib with
              JTJ_LI := setAt calib.JTJ_LI (i * NUM_PARAMS + j)
                (calib.JTJ_LI (i * NUM_PARAMS + j)
                  + calib.jacob (i * NUM_SAMPLES + k) * calib.jacob (j * NUM_SAMPLES + k)) })
          calib)
      c
    = { c with
        JTJ_LI := fun t =>
          if i * NUM_PARAMS ≤ t ∧ t < i * NUM_PARAMS + m then
            (List.range NUM_SAMPLES).foldl
              (fun s k => s + c.jacob (i * NUM_SAMPLES + k)
                * c.jacob ((t - i * NUM_PARAMS) * NUM_SAMPLES + k))
              (c.JTJ_LI t)
          else c.JTJ_LI t } := by
  induction m with
  | zero =>
    simp only [List.range_zero, List.foldl_nil]
    ext t <;> try rfl
    simp only []
    rw [if_neg (by omega)]
  | succ m ih =>
    rw [show List.range (m + 1) = List.range m ++ [m] from List.range_succ m,
      List.foldl_append, ih]
    simp only [List.foldl_cons, List.foldl_nil, calc_JTJ_LI_double_inner]
    ext t <;> try rfl
    simp only []
    by_cases h : t = i * NUM_PARAMS + m
    · subst h
      rw [if_pos rfl, if_neg (by omega), if_pos (by omega)]
      simp only [Nat.add_sub_cancel_left]
    · rw [if_neg h]
      by_cases h2 : i * NUM_PARAMS ≤ t ∧ t < i * NUM_PARAMS + m
      · rw [if_pos h2, if_pos (by omega)]
      · rw [if_neg h2, if_neg (by omega)]

/-- The three accumulation loops of `calc_JTJ_LI` in `double` arithmetic, run
for `n` rows. -/
theorem calc_JTJ_LI_double_outer (n : ℕ) (c : Calibration_double) :
    (List.range n).foldl
      (fun calib i =>
        (List.range NUM_PARAMS).foldl
          (fun calib j =>
            (List.range NUM_SAMPLES).foldl
              (fun calib k =>
                { calib with
                  JTJ_LI := setAt calib.JTJ_LI (i * NUM_PARAMS + j)
                    (calib.JTJ_LI (i * NUM_PARAMS + j)
                      + calib.jacob (i * NUM_SAMPLES + k) * calib.jacob (j * NUM_SAMPLES + k)) })
              calib)
          calib)
      c
    = { c with
        JTJ_LI := fun t =>
          if t < n * NUM_PARAMS then
            (List.range NUM_SAMPLES).foldl
              (fun s k => s + c.jacob (t / NUM_PARAMS * NUM_SAMPLES + k)
                * c.jacob (t % NUM_PARAMS * NUM_SAMPLES + k))
              (c.JTJ_LI t)
          else c.JTJ_LI t } := by
  induction n with
  | zero =>
    simp only [List.range_zero, List.foldl_nil]
    ext t <;> rfl
  | succ n ih =>
    rw [show List.range (n + 1) = List.range n ++ [n] from List.range_succ n,
      List.foldl_append, ih]
    simp only [List.foldl_cons, List.foldl_nil, calc_JTJ_LI_double_middle]
    ext t <;> try rfl
    simp only []
    by_cases h : n * NUM_PARAMS ≤ t ∧ t < n * NUM_PARAMS + NUM_PARAMS
    · have h1 : t / NUM_PARAMS = n := by
        have := h.1; have := h.2
        simp only [NUM_PARAMS] at *
        omega
      have h2 : t % NUM_PARAMS = t - n * NUM_PARAMS := by
        have := h.1; have := h.2
        simp only [NUM_PARAMS] at *
        omega
      rw [if_pos h, if_neg (by simp only [NUM_PARAMS] at *; omega),
        if_pos (by simp only [NUM_PARAMS] at *; omega), h1, h2]
    · rw [if_neg h]
      by_cases h3 : t < n * NUM_PARAMS
      · rw [if_pos h3, if_pos (by simp only [NUM_PARAMS] at *; omega)]
      · rw [if_neg h3, if_neg (by simp only [NUM_PARAMS] at *; omega)]

/-- The loop of `calc_JTJ_LI` that adds `lambda` along the diagonal, in
`double` arithmetic, run for `n` rows. -/
theorem calc_JTJ_LI_double_diag (lambda : Dbl) (n : ℕ) (c : Calibration_double) :
    (List.range n).foldl
      (fun calib diag =>
        { calib with
          JTJ_LI := setAt calib.JTJ_LI (diag * NUM_PARAMS + diag)
            (calib.JTJ_LI (diag * NUM_PARAMS + diag) + lambda) })
      c
    = { c with
        JTJ_LI := fun t =>
          if t % (NUM_PARAMS + 1) = 0 ∧ t / (NUM_PARAMS + 1) < n then c.JTJ_LI t + lambda
          else c.JTJ_LI t } := by
  induction n with
  | zero =>
    simp only [List.range_zero, List.foldl_nil]
    ext t <;> try rfl
    simp
  | succ n ih =>
    rw [show List.range (n + 1) = List.range n ++ [n] from List.range_succ n,
      List.foldl_append, ih]
    simp only [List.foldl_cons, List.foldl_nil]
    ext t <;> try rfl
    simp only [setAt]
    by_cases h : t = n * NUM_PARAMS + n
    · subst h
      have e1 : (n * NUM_PARAMS + n) % (NUM_PARAMS + 1) = 0 := by
        simp only [NUM_PARAMS]; omega
      have e2 : (n * NUM_PARAMS + n) / (NUM_PARAMS + 1) = n := by
        simp only [NUM_PARAMS]; omega
      rw [if_pos rfl, if_neg (by rw [e2]; omega), if_pos (by rw [e1, e2]; omega)]
    · rw [if_neg h]
      have hne : ¬ (t % (NUM_PARAMS + 1) = 0 ∧ t / (NUM_PARAMS + 1) = n) := by
        simp only [NUM_PARAMS] at *
        omega
      by_cases h2 : t % (NUM_PARAMS + 1) = 0 ∧ t / (NUM_PARAMS + 1) < n
      · rw [if_pos h2, if_pos ⟨h2.1, by simp only [NUM_PARAMS] at *; omega⟩]
      · rw [if_neg h2, if_neg (by
          intro h3
          exact h2 ⟨h3.1, by
            have : t / (NUM_PARAMS + 1) ≠ n := fun h4 => hne ⟨h3.1, h4⟩
            omega⟩)]

/-- Closed form of `calc_JTJ_LI` in `double` arithmetic: the normal matrix is
formed and handed to `inverse4x4` as both arguments; the fault flag is set if
`inverse4x4` returns `false`. -/
theorem calc_JTJ_LI_double_eq (c : Calibration_double) (lambda : Dbl) :
    calc_JTJ_LI_double c lambda
      = if (inverse4x4_double (normal_matrix_double c lambda)
            (normal_matrix_double c lambda)).1 = true then
          { c with JTJ_LI := (inverse4x4_double (normal_matrix_double c lambda)
              (normal_matrix_double c lambda)).2 }
        else
          { c with
            JTJ_LI := (inverse4x4_double (normal_matrix_double c lambda)
              (normal_matrix_double c lambda)).2
            fault := true } := by
  unfold calc_JTJ_LI_double
  simp only []
  rw [calc_JTJ_LI_double_outer, calc_JTJ_LI_double_diag]
  rfl

/-- A fold whose steps all leave the accumulator where it is. -/
theorem foldl_fixed {α β : Type} (f : α → β → α) (a : α) (l : List β)
    (h : ∀ b, b ∈ l → f a b = a) : l.foldl f a = a := by
  induction l with
  | nil => rfl
  | cons b l ih =>
    rw [List.foldl_cons, h b (List.mem_cons_self b l)]
    exact ih (fun b hb => h b (List.mem_cons_of_mem _ hb))

/-- A running sum over `0, ..., n-1` whose terms after the first add nothing. -/
theorem foldl_add_first (g : ℕ → Dbl) (s : Dbl) (n : ℕ) (hn : 1 ≤ n)
    (hg : ∀ k, 1 ≤ k → k < n → (s + g 0) + g k = s + g 0) :
    (List.range n).foldl (fun s k => s + g k) s = s + g 0 := by
  induction n with
  | zero => omega
  | succ n ih =>
    rw [List.range_succ, List.foldl_append]
    simp only [List.foldl_cons, List.foldl_nil]
    by_cases h0 : n = 0
    · subst h0
      rfl
    · rw [ih (by omega) (fun k h1 h2 => hg k h1 (by omega))]
      exact hg n (by omega) (by omega)

/-- The matrix `calc_JTJ_LI` forms in `double` arithmetic from a zero Jacobian
and a zeroed `JTJ_LI`: `lambda` on the diagonal, zero elsewhere. -/
theorem normal_matrix_double_exFlat (lambda : Dbl) :
    normal_matrix_double exFlat_double lambda
      = fun t => if t % 5 = 0 ∧ t / 5 < 4 then Dbl.fin 0 + lambda else Dbl.fin 0 := by
  have hfold : (List.range NUM_SAMPLES).foldl
      (fun s (_ : ℕ) => s + Dbl.fin 0 * Dbl.fin 0) (Dbl.fin 0) = Dbl.fin 0 :=
    foldl_fixed _ _ _ (fun _ _ => by
      show Dbl.fin 0 + Dbl.fin 0 * Dbl.fin 0 = Dbl.fin 0
      decide!)
  funext t
  unfold normal_matrix_double
  simp only [exFlat_double, hfold, ite_self]

/-- What `calc_JTJ_LI` leaves in `double` arithmetic when the computed
determinant of the matrix it formed is `0`: the fault flag set, the matrix in
`JTJ_LI`. -/
theorem calc_JTJ_LI_double_singular (c : Calibration_double) (lambda : Dbl)
    (h : Dbl.eq (inverse4x4_det_double (normal_matrix_double c lambda)) (Dbl.fin 0) = true) :
    calc_JTJ_LI_double c lambda
      = { c with JTJ_LI := normal_matrix_double c lambda, fault := true } := by
  rw [calc_JTJ_LI_double_eq, inverse4x4_double_fst, h,
    inverse4x4_double_snd_singular _ _ h]
  rfl

/-- What `calc_JTJ_LI` leaves in `double` arithmetic when the computed
determinant `det` of the matrix it formed is not `0`: the fault flag as it
was, and in the sixteen cells of `JTJ_LI` the cofactors times `1.0 / det`. -/
theorem calc_JTJ_LI_double_regular (c : Calibration_double) (lambda : Dbl)
    (h : Dbl.eq (inverse4x4_det_double (normal_matrix_double c lambda)) (Dbl.fin 0) = false) :
    calc_JTJ_LI_double c lambda
      = { c with
          JTJ_LI := fun t =>
            if t < 16 then
              inverse4x4_inv_double (normal_matrix_double c lambda) t
                * (Dbl.fin 1 / inverse4x4_det_double (normal_matrix_double c lambda))
            else normal_matrix_double c lambda t } := by
  have hsnd : (inverse4x4_double (normal_matrix_double c lambda)
      (normal_matrix_double c lambda)).2
      = fun t =>
          if t < 16 then
            inverse4x4_inv_double (normal_matrix_double c lambda) t
              * (Dbl.fin 1 / inverse4x4_det_double (normal_matrix_double c lambda))
          else normal_matrix_double c lambda t :=
    funext (inverse4x4_double_snd_apply _ _ h)
  rw [calc_JTJ_LI_double_eq, hsnd, inverse4x4_double_fst, h]
  rfl

set_option maxRecDepth 100000 in
/-- C16 as stated fails in `double` arithmetic. The context `exFlat_double` has
the zero Jacobian and the zeroed `JTJ_LI` of `exCalib`. With `lambda = 2^-300`,
a `double` value, the matrix formed is `lambda` times the identity, in `double`
arithmetic as in exact arithmetic, and its determinant `2^-1200` is not zero;
but the products of its entries underflow, the computed `det` is `0`, and
`calc_JTJ_LI` sets `fault` and leaves the matrix in `JTJ_LI`. With `lambda = 3`
the inversion succeeds and the cell `JTJ_LI[0]` receives `27 * (1.0 / 81)`
rounded, a value `q` with `3 * q` different from `1`: what is stored is not
the inverse of the matrix. -/
theorem calc_JTJ_LI_double_fault_nonsingular :
    (∀ t, exFlat_double.JTJ_LI t = Dbl.fin (exCalib.JTJ_LI t))
      ∧ (∀ t, exFlat_double.jacob t = Dbl.fin (exCalib.jacob t))
      ∧ exFlat_double.fault = false
      ∧ Dbl.round (1 / 2 ^ 300) = Dbl.fin (1 / 2 ^ 300)
      ∧ (toMatrix (normal_matrix exCalib (1 / 2 ^ 300))).det ≠ 0
      ∧ (∀ t, t < 16 → normal_matrix_double exFlat_double (Dbl.fin (1 / 2 ^ 300)) t
          = Dbl.fin (normal_matrix exCalib (1 / 2 ^ 300) t))
      ∧ (calc_JTJ_LI_double exFlat_double (Dbl.fin (1 / 2 ^ 300))).fault = true
      ∧ (calc_JTJ_LI_double exFlat_double (Dbl.fin (1 / 2 ^ 300))).JTJ_LI
          = normal_matrix_double exFlat_double (Dbl.fin (1 / 2 ^ 300))
      ∧ (toMatrix (normal_matrix exCalib 3)).det ≠ 0
      ∧ (calc_JTJ_LI_double exFlat_double (Dbl.fin 3)).fault = false
      ∧ (calc_JTJ_LI_double exFlat_double (Dbl.fin 3)).JTJ_LI 0
          = Dbl.fin (6004799503160661 / 18014398509481984)
      ∧ (3 : ℚ) * (6004799503160661 / 18014398509481984) ≠ 1 := by
  have hexact : ∀ (lambda : ℚ) (t : ℕ), t < 16 →
      normal_matrix exCalib lambda t = if t % 5 = 0 ∧ t / 5 < 4 then lambda else 0 := by
    intro lambda t ht
    unfold normal_matrix
    simp only [exCalib, NUM_PARAMS, NUM_SAMPLES, mul_zero, Finset.sum_const_zero, add_zero,
      ite_self, zero_add]
  have hdet : ∀ lambda : ℚ, inverse4x4_det (normal_matrix exCalib lambda) = lambda ^ 4 := by
    intro lambda
    unfold inverse4x4_det inverse4x4_inv
    simp only []
    rw [hexact lambda 0 (by decide), hexact lambda 1 (by decide), hexact lambda 2 (by decide),
      hexact lambda 3 (by decide), hexact lambda 4 (by decide), hexact lambda 5 (by decide),
      hexact lambda 6 (by decide), hexact lambda 7 (by decide), hexact lambda 8 (by decide),
      hexact lambda 9 (by decide), hexact lambda 10 (by decide), hexact lambda 11 (by decide),
      hexact lambda 12 (by decide), hexact lambda 13 (by decide), hexact lambda 14 (by decide),
      hexact lambda 15 (by decide)]
    norm_num
    ring
  have hs : Dbl.eq (inverse4x4_det_double
      (normal_matrix_double exFlat_double (Dbl.fin (1 / 2 ^ 300)))) (Dbl.fin 0) = true := by
    rw [normal_matrix_double_exFlat]
    decide!
  have hr : Dbl.eq (inverse4x4_det_double
      (normal_matrix_double exFlat_double (Dbl.fin 3))) (Dbl.fin 0) = false := by
    rw [normal_matrix_double_exFlat]
    decide!
  refine ⟨fun _ => rfl, fun _ => rfl, rfl, by decide!, ?_, ?_, ?_, ?_, ?_, ?_, ?_, by norm_num⟩
  · rw [← inverse4x4_det_eq, hdet]
    positivity
  · intro t ht
    rw [normal_matrix_double_exFlat, hexact _ t ht]
    have h0 : Dbl.fin 0 + Dbl.fin (1 / 2 ^ 300) = Dbl.fin (1 / 2 ^ 300) := by decide!
    simp only [h0]
    split_ifs <;> rfl
  · rw [calc_JTJ_LI_double_singular _ _ hs]
  · rw [calc_JTJ_LI_double_singular _ _ hs]
  · rw [← inverse4x4_det_eq, hdet]
    norm_num
  · rw [calc_JTJ_LI_double_regular _ _ hr]
    rfl
  · rw [calc_JTJ_LI_double_regular _ _ hr]
    simp only []
    rw [normal_matrix_double_exFlat]
    decide!

/-! ### The inverse of a symmetric matrix in `double` arithmetic -/

set_option maxRecDepth 100000 in
/-- The matrix `calc_JTJ_LI` forms from `exSkew_double` with `lambda = 1.0 / 5`. -/
theorem normal_matrix_double_exSkew :
    normal_matrix_double exSkew_double (Dbl.fin 1 / GRADIENT_double) = exSkewM := by
  have hj : ∀ i k, i < 4 → 1 ≤ k → k < 100 → exSkew_double.jacob (i * 100 + k) = Dbl.fin 0 := by
    intro i k hi h1 h2
    simp only [exSkew_double]
    rw [if_neg (by omega), if_neg (by omega), if_neg (by omega), if_neg (by omega)]
  have h00 : Dbl.fin 0 * Dbl.fin 0 = Dbl.fin 0 := by decide!
  have hfix : ∀ t, t < 16 →
      (exSkew_double.JTJ_LI t
          + exSkew_double.jacob (t / 4 * 100 + 0) * exSkew_double.jacob (t % 4 * 100 + 0))
        + Dbl.fin 0
      = exSkew_double.JTJ_LI t
          + exSkew_double.jacob (t / 4 * 100 + 0) * exSkew_double.jacob (t % 4 * 100 + 0) := by
    decide!
  have hval : ∀ t, t < 16 →
      (if t % 5 = 0 ∧ t / 5 < 4 then
        (exSkew_double.JTJ_LI t
          + exSkew_double.jacob (t / 4 * 100 + 0) * exSkew_double.jacob (t % 4 * 100 + 0))
        + (Dbl.fin 1 / GRADIENT_double)
      else
        exSkew_double.JTJ_LI t
          + exSkew_double.jacob (t / 4 * 100 + 0) * exSkew_double.jacob (t % 4 * 100 + 0))
      = exSkewM t := by
    decide!
  funext t
  unfold normal_matrix_double
  simp only [NUM_PARAMS, NUM_SAMPLES]
  by_cases ht : t < 16
  · have hfold : (List.range 100).foldl
        (fun s k => s + exSkew_double.jacob (t / 4 * 100 + k)
          * exSkew_double.jacob (t % 4 * 100 + k)) (exSkew_double.JTJ_LI t)
        = exSkew_double.JTJ_LI t
          + exSkew_double.jacob (t / 4 * 100 + 0) * exSkew_double.jacob (t % 4 * 100 + 0) := by
      apply foldl_add_first
        (fun k => exSkew_double.jacob (t / 4 * 100 + k) * exSkew_double.jacob (t % 4 * 100 + k))
        (exSkew_double.JTJ_LI t) 100 (by decide)
      intro k h1 h2
      rw [hj (t / 4) k (by omega) h1 h2, hj (t % 4) k (by omega) h1 h2, h00]
      exact hfix t ht
    rw [if_pos ht, hfold]
    exact hval t ht
  · rw [if_neg ht, if_neg (by omega)]
    unfold exSkewM
    rw [List.getD_eq_default _ _ (by simp only [List.length_cons, List.length_nil]; omega)]
    rfl

set_option maxRecDepth 100000 in
/-- C26 as stated fails in `double` arithmetic. From the zeroed `JTJ_LI` and
the Jacobian of `exSkew_double`, with `lambda = 1.0 / 5` (the damping factor
after one improving step), `calc_JTJ_LI` forms a symmetric matrix and does not
fault; the cofactor sums of `inverse4x4` for the cells `[3][1]` and `[1][3]` add
the same six products in different orders and round differently, so the matrix
left in `JTJ_LI` is not symmetric; and with `JTFI = (0, 1, 0, 0)` the parameter
update of `evaluatelm` and the update that reads `JTJ_LI[col*4+row]` leave
different values in `sphere_param[3]`. -/
theorem calc_JTJ_LI_double_inverse_asymmetric :
    (∀ t, t < 16 → exSkew_double.JTJ_LI t = Dbl.fin 0)
      ∧ (∀ row col, row < 4 → col < 4 →
          normal_matrix_double exSkew_double (Dbl.fin 1 / GRADIENT_double) (row * 4 + col)
            = normal_matrix_double exSkew_double (Dbl.fin 1 / GRADIENT_double) (col * 4 + row))
      ∧ (calc_JTJ_LI_double exSkew_double (Dbl.fin 1 / GRADIENT_double)).fault = false
      ∧ (calc_JTJ_LI_double exSkew_double (Dbl.fin 1 / GRADIENT_double)).JTJ_LI (3 * 4 + 1)
          = Dbl.fin (-346075791037693 / 281474976710656)
      ∧ (calc_JTJ_LI_double exSkew_double (Dbl.fin 1 / GRADIENT_double)).JTJ_LI (1 * 4 + 3)
          = Dbl.fin (-5537212656603047 / 4503599627370496)
      ∧ (calc_JTJ_LI_double exSkew_double (Dbl.fin 1 / GRADIENT_double)).JTJ_LI (3 * 4 + 1)
          ≠ (calc_JTJ_LI_double exSkew_double (Dbl.fin 1 / GRADIENT_double)).JTJ_LI (1 * 4 + 3)
      ∧ (evaluatelm_update_double
            (calc_JTJ_LI_double exSkew_double (Dbl.fin 1 / GRADIENT_double))).sphere_param 3
          ≠ (evaluatelm_update_transposed_double
            (calc_JTJ_LI_double exSkew_double (Dbl.fin 1 / GRADIENT_double))).sphere_param 3 := by
  have hdet : inverse4x4_det_double exSkewM
      = Dbl.fin (879102647262725 / 9007199254740992) := by
    decide!
  have hr : Dbl.eq (inverse4x4_det_double
      (normal_matrix_double exSkew_double (Dbl.fin 1 / GRADIENT_double))) (Dbl.fin 0)
      = false := by
    rw [normal_matrix_double_exSkew, hdet]
    decide!
  have h13 : inverse4x4_inv_double exSkewM 13
      * (Dbl.fin 1 / Dbl.fin (879102647262725 / 9007199254740992))
      = Dbl.fin (-346075791037693 / 281474976710656) := by
    decide!
  have h7 : inverse4x4_inv_double exSkewM 7
      * (Dbl.fin 1 / Dbl.fin (879102647262725 / 9007199254740992))
      = Dbl.fin (-5537212656603047 / 4503599627370496) := by
    decide!
  have hc := calc_JTJ_LI_double_regular _ _ hr
  rw [normal_matrix_double_exSkew, hdet] at hc
  rw [hc]
  refine ⟨fun _ _ => rfl, ?_, rfl, h13, h7, ?_, ?_⟩
  · rw [normal_matrix_double_exSkew]
    have hsym : ∀ row, row < 4 → ∀ col, col < 4 →
        exSkewM (row * 4 + col) = exSkewM (col * 4 + row) := by
      decide!
    exact fun row col hrow hcol => hsym row hrow col hcol
  · show inverse4x4_inv_double exSkewM 13 * _ ≠ inverse4x4_inv_double exSkewM 7 * _
    rw [h13, h7]
    decide!
  · show (((exSkew_double.sphere_param 3
          + exSkew_double.JTFI 0 * (inverse4x4_inv_double exSkewM 12
              * (Dbl.fin 1 / Dbl.fin (879102647262725 / 9007199254740992))))
          + exSkew_double.JTFI 1 * (inverse4x4_inv_double exSkewM 13
              * (Dbl.fin 1 / Dbl.fin (879102647262725 / 9007199254740992))))
          + exSkew_double.JTFI 2 * (inverse4x4_inv_double exSkewM 14
              * (Dbl.fin 1 / Dbl.fin (879102647262725 / 9007199254740992))))
          + exSkew_double.JTFI 3 * (inverse4x4_inv_double exSkewM 15
              * (Dbl.fin 1 / Dbl.fin (879102647262725 / 9007199254740992)))
        ≠ (((exSkew_double.sphere_param 3
          + exSkew_double.JTFI 0 * (inverse4x4_inv_double exSkewM 3
              * (Dbl.fin 1 / Dbl.fin (879102647262725 / 9007199254740992))))
          + exSkew_double.JTFI 1 * (inverse4x4_inv_double exSkewM 7
              * (Dbl.fin 1 / Dbl.fin (879102647262725 / 9007199254740992))))
          + exSkew_double.JTFI 2 * (inverse4x4_inv_double exSkewM 11
              * (Dbl.fin 1 / Dbl.fin (879102647262725 / 9007199254740992))))
          + exSkew_double.JTFI 3 * (inverse4x4_inv_double exSkewM 15
              * (Dbl.fin 1 / Dbl.fin (879102647262725 / 9007199254740992)))
    decide!

/-! ### A NaN in the loop of `evaluatelm` -/

end Compass
